import Mathlib

/-!
# Cactus: the flower validator, the terminal normaliser, the MAF generator and the chunking of sequences

A shallow embedding of four programs of the repository:

* `check/cactus_check.c`: the per-level checks (`checkNetIsNotEmpty`,
  `checkGroupsNotEmpty`, `checkBasesAccountedFor`, `checkTreeIsTerminalNormalised`,
  `checkChainsAreMaximal`, `checkNetIsNotRedundant`) and the recursive driver
  `checkNets`;
* `pipeline/cactus_workflow_makeTerminalNormal.c`: the body of the loop of `main`;
* `utilities/mAFs/cactus_MAFGenerator.c`: `getMAFBlockP2`, `getMAFBlock`, `getMAFs`;
* `blast/blastAlignmentLib.c`: `convertCoordinatesP`, `fn`, `fn2`,
  `processSequenceToChunk`, `setupToChunkSequences`, `writeFlowerSequences`.

Conventions of the embedding.

* A C pointer to an object is the object itself; a pointer that may be `NULL`
  is an `Option`.
* An iterator (`flower_getGroupIterator`, `flower_getEndIterator`,
  `flower_getBlockIterator`, `block_getInstanceIterator`, `end_getInstanceIterator`)
  is the list of the objects it yields, in the order it yields them; a
  `while ((x = next(it)) != NULL)` loop is a recursion over that list.
* `assert(c)` either continues or stops the whole run with a `Fault` that names
  the assertion; a run that reaches the end of a function returns `Except.ok`.
* What a function prints or passes to a callback is the list of the records it
  prints or passes, in order.
* `int32_t` and `int64_t` values are integers. Arithmetic on them is
  mathematical: signed overflow is undefined in C, and the sums of base counts
  that `checkBasesAccountedFor` forms are taken not to overflow `int64_t`. An
  `int64_t` value handed to an `int32_t`, as the chunking routines do, is reduced
  modulo `2^32` (`toInt32`).
* The functions of the cactus API that the programs call are declared in the
  headers but their bodies are not among the sources. An attribute getter is a
  field of the object; the counts, `flower_isLeaf` and `flower_isTerminal` follow
  their header comments; the other functions are parameters of the functions
  that call them.
-/

namespace Cactus

/-! ## Data model -/

/-- A `Name`, the 64-bit handle of an object. -/
abbrev Name := Int

/-- The fields of `struct _chain` (`cactusChainPrivate.h`) that are plain data. -/
structure Chain where
  name : Name
  linkNumber : Int
  chainIndex : Int
  deriving DecidableEq, Repr

/-- A link; the validator only follows its back-reference to the chain. -/
structure Link where
  chain : Chain
  deriving DecidableEq, Repr

/-- A sequence: its name, the coordinate of its first base, its length and its
FASTA header. -/
structure Sequence where
  name : Name
  start : Int
  length : Int
  header : String
  deriving DecidableEq, Repr

/-- A segment (an instance of a block): its sequence, if any, its length, its
start coordinate, its strand and the string of its bases. -/
structure Segment where
  sequence : Option Sequence
  length : Int
  start : Int := 0
  strand : Bool := true
  string : String := ""
  deriving DecidableEq, Repr

/-- A segment together with the segments `segment_getChild` yields for it, each
with its own children: the reconstruction tree below an instance of a block. -/
inductive SegmentTree where
  | node (segment : Segment) (children : List SegmentTree)

/-- A block: the segments its instance iterator yields, its length and its root
instance, if it has one. -/
structure Block where
  name : Name
  instances : List Segment
  length : Int := 0
  rootInstance : Option SegmentTree := none

/-- The attributes of a group other than its nested flower. -/
structure GroupData where
  name : Name
  leaf : Bool
  link : Option Link
  ends : List Name
  totalBaseLength : Int
  deriving DecidableEq, Repr

/-- What the accessors of the cap API return for a cap in one orientation:
`cap_getName`, `cap_getStrand`, `cap_getSide`, `cap_getCoordinate`,
`cap_getSequence`. -/
structure CapData where
  name : Name
  strand : Bool
  side : Bool
  coordinate : Int
  sequence : Option Sequence
  deriving DecidableEq, Repr

/-- A cap in one orientation, with the cap `cap_getAdjacency` returns for it
(`none` for `NULL`). -/
structure OrientedCap where
  data : CapData
  adjacency : Option CapData
  deriving DecidableEq, Repr

/-- A cap (an instance of an end): the cap as the instance iterator of its end
yields it, and the same cap in the other orientation, which `cap_getReverse`
returns. -/
structure Cap where
  forward : OrientedCap
  reverse : OrientedCap
  deriving DecidableEq, Repr

/-- An end: orientation, kind (stub or block end), attachment, the group it
points to and the caps its instance iterator yields. -/
structure End where
  name : Name
  orientation : Bool
  isStubEnd : Bool
  isAttached : Bool
  group : GroupData
  caps : List Cap := []
  deriving DecidableEq, Repr

/-- The attributes of a flower other than the objects it owns. -/
structure FlowerData where
  name : Name
  parentGroup : Option Name
  totalBaseLength : Int
  builtBlocks : Bool
  deriving DecidableEq, Repr

mutual
/-- A flower owns its ends, blocks and groups. -/
inductive Flower where
  | mk (data : FlowerData) (ends : List End) (blocks : List Block) (groups : List Group)
/-- A group, with the nested flower it points to (if any). -/
inductive Group where
  | mk (data : GroupData) (nestedFlower : Option Flower)
end

/-! ## Accessors of the cactus API used by the validator -/

def Flower.data : Flower → FlowerData
  | .mk d _ _ _ => d

def Group.data : Group → GroupData
  | .mk d _ => d

/-- The sequence of groups `flower_getNextGroup` yields. -/
def flower_getGroupIterator : Flower → List Group
  | .mk _ _ _ groups => groups

/-- The sequence of ends `flower_getNextEnd` yields. -/
def flower_getEndIterator : Flower → List End
  | .mk _ ends _ _ => ends

/-- The sequence of blocks `flower_getNextBlock` yields. -/
def flower_getBlockIterator : Flower → List Block
  | .mk _ _ blocks _ => blocks

/-- The sequence of segments `block_getNext` yields. -/
def block_getInstanceIterator (block : Block) : List Segment :=
  block.instances

def segment_getSequence (segment : Segment) : Option Sequence :=
  segment.sequence

def segment_getLength (segment : Segment) : Int :=
  segment.length

def group_getNestedFlower : Group → Option Flower
  | .mk _ nested => nested

def group_isLeaf (group : Group) : Bool :=
  group.data.leaf

def group_getTotalBaseLength (group : Group) : Int :=
  group.data.totalBaseLength

/-- Modelled from the spec: `group_getEndNumber` is not among the sources; a group
is a set of ends of its flower and the number is the size of that set. -/
def group_getEndNumber (group : Group) : Nat :=
  group.data.ends.length

def group_getLink (group : GroupData) : Option Link :=
  group.link

def link_getChain (link : Link) : Chain :=
  link.chain

/-- Modelled from the spec: `chain_getLength` is not among the sources; the
length of a chain is its link count, the `linkNumber` field of `struct _chain`. -/
def chain_getLength (chain : Chain) : Int :=
  chain.linkNumber

def end_getOrientation (e : End) : Bool :=
  e.orientation

def end_isStubEnd (e : End) : Bool :=
  e.isStubEnd

def end_isAttached (e : End) : Bool :=
  e.isAttached

def end_getGroup (e : End) : GroupData :=
  e.group

def flower_getParentGroup (flower : Flower) : Option Name :=
  flower.data.parentGroup

def flower_getTotalBaseLength (flower : Flower) : Int :=
  flower.data.totalBaseLength

def flower_builtBlocks (flower : Flower) : Bool :=
  flower.data.builtBlocks

/-- Modelled from the spec: `flower_getEndNumber` is declared in `cactusFlower.h`
("Returns the number of ends"); it is the size of the set the end iterator walks. -/
def flower_getEndNumber (flower : Flower) : Nat :=
  (flower_getEndIterator flower).length

/-- Modelled from the spec: `flower_getBlockNumber` is declared in `cactusFlower.h`
("Returns the number of blocks"); it is the size of the set the block iterator walks. -/
def flower_getBlockNumber (flower : Flower) : Nat :=
  (flower_getBlockIterator flower).length

/-- Modelled from the spec: `flower_getGroupNumber` is declared in `cactusFlower.h`
("Returns the number of groups"); it is the size of the set the group iterator walks. -/
def flower_getGroupNumber (flower : Flower) : Nat :=
  (flower_getGroupIterator flower).length

/-- Modelled from the spec: `flower_isLeaf` is declared in `cactusFlower.h`
("Returns non-zero iff the flower has no nested flowers"): no group of the
flower points to a nested flower. -/
def flower_isLeaf (flower : Flower) : Bool :=
  (flower_getGroupIterator flower).all (fun group => (group_getNestedFlower group).isNone)

/-- Modelled from the spec: `flower_isTerminal` is declared in `cactusFlower.h`
("Returns non-zero iff the flower is a leaf and it contains only stub ends"). -/
def flower_isTerminal (flower : Flower) : Bool :=
  flower_isLeaf flower && (flower_getEndIterator flower).all end_isStubEnd

/-! ## Faults -/

/-- The ways a run can stop early: one constructor for each `assert` of the
embedded programs, plus the dereference of a `NULL` they do not guard against. -/
inductive Fault where
  /-- The assertion `assert(flower_getBlockNumber(net) == 0)` in `checkTreeIsTerminalNormalised`. -/
  | leafFlowerHasBlocks
  /-- The assertion `assert(flower_isTerminal(net))`. -/
  | leafFlowerNotTerminal
  /-- The assertion `assert(group_isLeaf(group))` in `checkTreeIsTerminalNormalised`. -/
  | groupOfLeafFlowerNotLeaf
  /-- The assertion `assert(end_getOrientation(end))`. -/
  | endNotPositive
  /-- The assertion `assert(flower_isLeaf(net))` in `checkChainsAreMaximal`. -/
  | linkedAttachedStubInNonLeaf
  /-- The assertion `assert(chain_getLength(chain) == 1)`. -/
  | chainLengthNotOne
  /-- The assertion `assert(flower_builtBlocks(net))`. -/
  | blocksNotBuilt
  /-- The assertion `assert(flower_isLeaf(net))` in `checkNetIsNotRedundant`. -/
  | redundantFlower
  /-- The assertion `assert(flower_getEndNumber(net) > 0)`. -/
  | nestedFlowerEmpty
  /-- The assertion `assert(group_getEndNumber(group) > 0)`. -/
  | groupEmpty
  /-- The assertion `assert(!group_isLeaf(group))` in `checkBasesAccountedFor`. -/
  | groupWithNestedFlowerIsLeaf
  /-- The assertion `assert(flower_getTotalBaseLength(group_getNestedFlower(group)) == size)`. -/
  | nestedBaseLengthMismatch
  /-- The assertion `assert(group_isLeaf(group))` in `checkBasesAccountedFor`. -/
  | groupWithoutNestedFlowerNotLeaf
  /-- The assertion `assert(size >= 0)`. -/
  | negativeGroupSize
  /-- The assertion `assert(blockBases + childBases == totalBases)`. -/
  | basesNotAccountedFor
  /-- A fault raised inside `flower_check`. -/
  | flowerCheck
  /-- The drivers `checkNets` or `getMAFs` called on the `NULL` nested flower of a
  non-leaf group. -/
  | nullFlower
  /-- The assertion `assert(newickTreeString != NULL)` in `getMAFBlock`. -/
  | newickStringNull
  /-- The assertion `assert(length <= chunkSize)` in `fn`. -/
  | chunkLengthTooLarge
  /-- The assertion `assert(start >= 0)` in `fn`. -/
  | chunkStartNegative
  /-- The assertion `assert(length > 0)` in `fn`. -/
  | chunkLengthNotPositive
  /-- The assertion `assert(seqLength >= 0)` in `fn2`. -/
  | seqLengthNegative
  /-- The assertion `assert(chunkSize > 0)` in `setupToChunkSequences`. -/
  | chunkSizeNotPositive
  /-- The assertion `assert(chunkOverlapSize >= 0)` in `setupToChunkSequences`. -/
  | overlapSizeNegative
  /-- The header handed to `convertCoordinatesP` has no attribute to peek at. -/
  | noAttribute
  /-- The assertion `assert(i == 1)` in `convertCoordinatesP`. -/
  | startNotScanned
  /-- The assertion `assert(cap2 != NULL)` in `writeFlowerSequences`. -/
  | adjacencyNull
  /-- The assertion `assert(cap_getStrand(cap2))`. -/
  | adjacencyNotPositive
  /-- The assertion `assert(cap_getSide(cap2))`. -/
  | adjacencySideFalse
  /-- The assertion `assert(length >= 0)` in `writeFlowerSequences`. -/
  | gapNegative
  /-- The assertion `assert(sequence != NULL)` in `writeFlowerSequences`. -/
  | capSequenceNull
  /-- Not a fault of the program: the bound on the number of iterations given to
  the model of a `while` loop was too small. -/
  | fuelExhausted
  deriving DecidableEq, Repr

/-- The C `assert`: continue when the condition holds, stop with the fault otherwise. -/
def assert (c : Bool) (fault : Fault) : Except Fault Unit :=
  if c then Except.ok () else Except.error fault

/-- A run completes without a fault. -/
def completes {α : Type} : Except Fault α → Bool
  | Except.ok _ => true
  | Except.error _ => false

/-! ## The per-level checks of `cactus_check.c` -/

/-- The `while` loop of `checkTreeIsTerminalNormalised` over the group iterator. -/
def checkTreeIsTerminalNormalised.loop : List Group → Except Fault Unit
  | [] => Except.ok ()
  | group :: rest => do
    assert (group_isLeaf group) Fault.groupOfLeafFlowerNotLeaf
    checkTreeIsTerminalNormalised.loop rest

def checkTreeIsTerminalNormalised (net : Flower) : Except Fault Unit :=
  if flower_isLeaf net then do
    assert (flower_getBlockNumber net == 0) Fault.leafFlowerHasBlocks
    assert (flower_isTerminal net) Fault.leafFlowerNotTerminal
    checkTreeIsTerminalNormalised.loop (flower_getGroupIterator net)
  else
    Except.ok ()

/-- The `while` loop of `checkChainsAreMaximal` over the end iterator. -/
def checkChainsAreMaximal.loop (net : Flower) : List End → Except Fault Unit
  | [] => Except.ok ()
  | e :: rest => do
    assert (end_getOrientation e) Fault.endNotPositive
    if end_isStubEnd e && end_isAttached e then
      match group_getLink (end_getGroup e) with
      | some link => do
        let chain := link_getChain link
        assert (flower_isLeaf net) Fault.linkedAttachedStubInNonLeaf
        assert (chain_getLength chain == 1) Fault.chainLengthNotOne
      | none => Except.ok ()
    else
      Except.ok ()
    checkChainsAreMaximal.loop net rest

def checkChainsAreMaximal (net : Flower) : Except Fault Unit :=
  match flower_getParentGroup net with
  | some _ => checkChainsAreMaximal.loop net (flower_getEndIterator net)
  | none => Except.ok ()

def checkNetIsNotRedundant (net : Flower) : Except Fault Unit := do
  assert (flower_builtBlocks net) Fault.blocksNotBuilt
  if flower_getBlockNumber net == 0 && flower_getGroupNumber net == 1 then
    assert (flower_isLeaf net) Fault.redundantFlower
  else
    Except.ok ()

def checkNetIsNotEmpty (net : Flower) : Except Fault Unit :=
  match flower_getParentGroup net with
  | some _ => assert (decide (flower_getEndNumber net > 0)) Fault.nestedFlowerEmpty
  | none => Except.ok ()

/-- The `while` loop of `checkGroupsNotEmpty` over the group iterator. -/
def checkGroupsNotEmpty.loop : List Group → Except Fault Unit
  | [] => Except.ok ()
  | group :: rest => do
    assert (decide (group_getEndNumber group > 0)) Fault.groupEmpty
    checkGroupsNotEmpty.loop rest

def checkGroupsNotEmpty (net : Flower) : Except Fault Unit :=
  checkGroupsNotEmpty.loop (flower_getGroupIterator net)

/-- The inner `while` loop of `checkBasesAccountedFor` over the segments of one
block; the argument and the result are the running value of `blockBases`. -/
def checkBasesAccountedFor.segmentLoop : List Segment → Int → Int
  | [], blockBases => blockBases
  | segment :: rest, blockBases =>
    if (segment_getSequence segment).isSome then
      checkBasesAccountedFor.segmentLoop rest (blockBases + segment_getLength segment)
    else
      checkBasesAccountedFor.segmentLoop rest blockBases

/-- The outer `while` loop of `checkBasesAccountedFor` over the block iterator. -/
def checkBasesAccountedFor.blockLoop : List Block → Int → Int
  | [], blockBases => blockBases
  | block :: rest, blockBases =>
    checkBasesAccountedFor.blockLoop rest
      (checkBasesAccountedFor.segmentLoop (block_getInstanceIterator block) blockBases)

/-- The `while` loop of `checkBasesAccountedFor` over the group iterator; the
argument and the result are the running value of `childBases`. -/
def checkBasesAccountedFor.groupLoop : List Group → Int → Except Fault Int
  | [], childBases => Except.ok childBases
  | group :: rest, childBases => do
    let size := group_getTotalBaseLength group
    match group_getNestedFlower group with
    | some nested => do
      assert (!group_isLeaf group) Fault.groupWithNestedFlowerIsLeaf
      assert (flower_getTotalBaseLength nested == size) Fault.nestedBaseLengthMismatch
    | none =>
      assert (group_isLeaf group) Fault.groupWithoutNestedFlowerNotLeaf
    assert (decide (size ≥ 0)) Fault.negativeGroupSize
    checkBasesAccountedFor.groupLoop rest (childBases + size)

/-- The check `checkBasesAccountedFor`; the message it prints on `stderr` before
the last assertion fails is not part of the result. -/
def checkBasesAccountedFor (net : Flower) : Except Fault Unit := do
  let totalBases := flower_getTotalBaseLength net
  let blockBases := checkBasesAccountedFor.blockLoop (flower_getBlockIterator net) 0
  let childBases ← checkBasesAccountedFor.groupLoop (flower_getGroupIterator net) 0
  assert (blockBases + childBases == totalBases) Fault.basesNotAccountedFor

/-! ## The recursive driver -/

mutual
/-- The driver `checkNets`; `flower_check` is the structural self-check of the
API, whose body is not among the sources and is a parameter here. -/
def checkNets (flower_check : Flower → Except Fault Unit) :
    Flower → Int → Except Fault Unit
  | .mk data ends blocks groups, recursive => do
    flower_check (.mk data ends blocks groups)
    checkNetIsNotEmpty (.mk data ends blocks groups)
    checkGroupsNotEmpty (.mk data ends blocks groups)
    checkBasesAccountedFor (.mk data ends blocks groups)
    checkTreeIsTerminalNormalised (.mk data ends blocks groups)
    checkChainsAreMaximal (.mk data ends blocks groups)
    checkNetIsNotRedundant (.mk data ends blocks groups)
    if recursive ≠ 0 then
      checkNets.loop flower_check groups
    else
      Except.ok ()
/-- The `while` loop of `checkNets` over the group iterator. -/
def checkNets.loop (flower_check : Flower → Except Fault Unit) :
    List Group → Except Fault Unit
  | [] => Except.ok ()
  | group :: rest => do
    checkNets.visit flower_check group
    checkNets.loop flower_check rest
/-- The body of the loop of `checkNets`: recurse into the nested flower of a
group that is not a leaf. -/
def checkNets.visit (flower_check : Flower → Except Fault Unit) :
    Group → Except Fault Unit
  | .mk data nested =>
    if !group_isLeaf (.mk data nested) then
      match nested with
      | some flower => checkNets flower_check flower 1
      | none => Except.error Fault.nullFlower
    else
      Except.ok ()
end

/-! ## The terminal normaliser (`cactus_workflow_makeTerminalNormal.c`) -/

/-- Modelled from the spec: `flower_setBuiltBlocks` is declared in `cactusFlower.h`
("Switches the status of flower_buildBlocks()"); it sets the flag that
`flower_builtBlocks` returns and nothing else. -/
def flower_setBuiltBlocks : Flower → Bool → Flower
  | .mk data ends blocks groups, b => .mk { data with builtBlocks := b } ends blocks groups

/-- Modelled from the spec: `group_makeNestedFlower` is not among the sources. "A
Group's `isLeaf` transitions from true to false exactly once, at the moment a
nested Flower is created for it (`makeNestedFlower`)": the group gets a nested
flower and stops being a leaf group. What the new flower contains is left
open: it is `newFlower group`. -/
def group_makeNestedFlower (newFlower : Group → Flower) : Group → Group
  | .mk data nested => .mk { data with leaf := false } (some (newFlower (.mk data nested)))

/-- The statement `flower_setBuiltBlocks(group_getNestedFlower(group), 1)`: the
nested flower of the group is updated in place. -/
def makeTerminalNormal.setBuilt : Group → Group
  | .mk data (some nested) => .mk data (some (flower_setBuiltBlocks nested true))
  | .mk data none => .mk data none

/-- The `while` loop of `main` in `cactus_workflow_makeTerminalNormal.c` over the
group iterator of one flower. It returns the groups as the loop leaves them
and, in order, the groups on which it called `group_makeNestedFlower`. -/
def makeTerminalNormal.loop (newFlower : Group → Flower) :
    List Group → List Group × List Group
  | [] => ([], [])
  | group :: rest =>
    let done := makeTerminalNormal.loop newFlower rest
    if group_isLeaf group then
      (makeTerminalNormal.setBuilt (group_makeNestedFlower newFlower group) :: done.1,
        group :: done.2)
    else
      (group :: done.1, done.2)

/-- The body of the `for` loop of `main` in `cactus_workflow_makeTerminalNormal.c`
for one flower `net` that `cactusDisk_getFlower` returned: the flower as the
body leaves it, and the groups on which `group_makeNestedFlower` was called. -/
def makeTerminalNormal.body (newFlower : Group → Flower) (net : Flower) :
    Flower × List Group :=
  if !flower_isTerminal net then
    let done := makeTerminalNormal.loop newFlower (flower_getGroupIterator net)
    (Flower.mk net.data (flower_getEndIterator net) (flower_getBlockIterator net) done.1,
      done.2)
  else
    (net, [])

/-! ## The MAF generator (`cactus_MAFGenerator.c`)

What the generator prints to its file handle is the list of the lines it
prints, each line being the arguments of the `fprintf` that prints it. -/

/-- A line of the MAF file. -/
inductive MafLine where
  /-- The line `a score=%i` or `a score=%i tree='%s'` that opens a MAF block. -/
  | block (score : Int) (tree : Option String)
  /-- The line `s <header> <start> <length> <strand> <sequenceLength> <bases>`. -/
  | row (sequenceHeader : String) (start : Int) (length : Int) (strand : String)
      (sequenceLength : Int) (instanceString : String)
  /-- The empty line that closes a MAF block. -/
  | blank
  deriving DecidableEq, Repr

def segment_getStart (segment : Segment) : Int :=
  segment.start

def segment_getStrand (segment : Segment) : Bool :=
  segment.strand

def segment_getString (segment : Segment) : String :=
  segment.string

def sequence_getStart (sequence : Sequence) : Int :=
  sequence.start

def sequence_getLength (sequence : Sequence) : Int :=
  sequence.length

def sequence_getHeader (sequence : Sequence) : String :=
  sequence.header

def sequence_getName (sequence : Sequence) : Name :=
  sequence.name

def block_getLength (block : Block) : Int :=
  block.length

def block_getRootInstance (block : Block) : Option SegmentTree :=
  block.rootInstance

/-- Modelled from the spec: `block_getInstanceNumber` is not among the sources; a
block "owns a set of Segment instances" and the number is the size of the set
the instance iterator walks. -/
def block_getInstanceNumber (block : Block) : Int :=
  (block_getInstanceIterator block).length

/-- The characters the C library takes for white space. -/
def isspace (c : Char) : Bool :=
  c == ' ' || c == '\t' || c == '\n' || c == '\x0b' || c == '\x0c' || c == '\r'

/-- The conversion `%s` of `sscanf`: the first run of characters that are not
white space. -/
def scanWord (text : String) : String :=
  String.mk ((text.toList.dropWhile isspace).takeWhile (fun c => !isspace c))

/-- The function `formatSequenceHeader`; `cactusMisc_nameToString` is a parameter. -/
def formatSequenceHeader (cactusMisc_nameToString : Name → String) (sequence : Sequence) :
    String :=
  let sequenceHeader := sequence_getHeader sequence
  if sequenceHeader.length > 0 then
    scanWord sequenceHeader
  else
    cactusMisc_nameToString (sequence_getName sequence)

/-- The function `getMAFBlockP2`: the row of one segment, if it has a sequence. -/
def getMAFBlockP2 (cactusMisc_nameToString : Name → String) (segment : Segment) :
    List MafLine :=
  match segment_getSequence segment with
  | some sequence =>
    let sequenceHeader := formatSequenceHeader cactusMisc_nameToString sequence
    let start :=
      if segment_getStrand segment then
        segment_getStart segment - sequence_getStart sequence
      else
        (sequence_getStart sequence + sequence_getLength sequence - 1) -
          segment_getStart segment
    let length := segment_getLength segment
    let strand := if segment_getStrand segment then "+" else "-"
    let sequenceLength := sequence_getLength sequence
    let instanceString := segment_getString segment
    [MafLine.row sequenceHeader start length strand sequenceLength instanceString]
  | none => []

mutual
/-- The function `getMAFBlockP`: the rows of the children of a segment, then its
own row. -/
def getMAFBlockP (cactusMisc_nameToString : Name → String) : SegmentTree → List MafLine
  | .node segment children =>
    getMAFBlockP.loop cactusMisc_nameToString children ++
      getMAFBlockP2 cactusMisc_nameToString segment
/-- The `for` loop of `getMAFBlockP` over the children of a segment. -/
def getMAFBlockP.loop (cactusMisc_nameToString : Name → String) :
    List SegmentTree → List MafLine
  | [] => []
  | child :: rest =>
    getMAFBlockP cactusMisc_nameToString child ++
      getMAFBlockP.loop cactusMisc_nameToString rest
end

/-- The `while` loop of `getMAFBlock` over the instance iterator. -/
def getMAFBlock.loop (cactusMisc_nameToString : Name → String) : List Segment → List MafLine
  | [] => []
  | segment :: rest =>
    getMAFBlockP2 cactusMisc_nameToString segment ++
      getMAFBlock.loop cactusMisc_nameToString rest

/-- The function `getMAFBlock`; `block_makeNewickString(block, 1, 0)` is a
parameter, `none` standing for `NULL`. -/
def getMAFBlock (block_makeNewickString : Block → Option String)
    (cactusMisc_nameToString : Name → String) (block : Block) : Except Fault (List MafLine) :=
  if block_getInstanceNumber block > 0 then
    match block_getRootInstance block with
    | some rootInstance =>
      match block_makeNewickString block with
      | some newickTreeString =>
        Except.ok
          ([MafLine.block (block_getLength block * block_getInstanceNumber block)
              (some newickTreeString)] ++
            getMAFBlockP cactusMisc_nameToString rootInstance ++ [MafLine.blank])
      | none => Except.error Fault.newickStringNull
    | none =>
      Except.ok
        ([MafLine.block (block_getLength block * block_getInstanceNumber block) none] ++
          getMAFBlock.loop cactusMisc_nameToString (block_getInstanceIterator block) ++
          [MafLine.blank])
  else
    Except.ok []

/-- The first `while` loop of `getMAFs`, over the block iterator. -/
def getMAFs.blockLoop (block_makeNewickString : Block → Option String)
    (cactusMisc_nameToString : Name → String) : List Block → Except Fault (List MafLine)
  | [] => Except.ok []
  | block :: rest => do
    let lines ← getMAFBlock block_makeNewickString cactusMisc_nameToString block
    let more ← getMAFs.blockLoop block_makeNewickString cactusMisc_nameToString rest
    Except.ok (lines ++ more)

mutual
/-- The function `getMAFs`: the lines it prints, in order. -/
def getMAFs (block_makeNewickString : Block → Option String)
    (cactusMisc_nameToString : Name → String) : Flower → Except Fault (List MafLine)
  | .mk _ _ blocks groups => do
    let own ← getMAFs.blockLoop block_makeNewickString cactusMisc_nameToString blocks
    let nested ← getMAFs.groupLoop block_makeNewickString cactusMisc_nameToString groups
    Except.ok (own ++ nested)
/-- The second `while` loop of `getMAFs`, over the group iterator. -/
def getMAFs.groupLoop (block_makeNewickString : Block → Option String)
    (cactusMisc_nameToString : Name → String) : List Group → Except Fault (List MafLine)
  | [] => Except.ok []
  | group :: rest => do
    let lines ← getMAFs.visit block_makeNewickString cactusMisc_nameToString group
    let more ← getMAFs.groupLoop block_makeNewickString cactusMisc_nameToString rest
    Except.ok (lines ++ more)
/-- The body of the second loop of `getMAFs`: recurse into the nested flower of
a group that is not a leaf. -/
def getMAFs.visit (block_makeNewickString : Block → Option String)
    (cactusMisc_nameToString : Name → String) : Group → Except Fault (List MafLine)
  | .mk data nested =>
    if !group_isLeaf (.mk data nested) then
      match nested with
      | some flower => getMAFs block_makeNewickString cactusMisc_nameToString flower
      | none => Except.error Fault.nullFlower
    else
      Except.ok []
end

/-- A line is a line `a score=...`, the record that opens a MAF block. -/
def MafLine.isBlock : MafLine → Bool
  | .block _ _ => true
  | _ => false

/-- The line `a score=...` that `getMAFBlock` prints for a block with at least
one instance. -/
def blockRecord (block_makeNewickString : Block → Option String) (block : Block) : MafLine :=
  MafLine.block (block_getLength block * block_getInstanceNumber block)
    (match block_getRootInstance block with
      | some _ => block_makeNewickString block
      | none => none)

mutual
/-- The blocks of a flower followed by the blocks of the nested flowers of its
groups that are not leaf groups, those of their nested flowers, and so on, in
the order of the iterators. -/
def nestedBlocks : Flower → List Block
  | .mk _ _ blocks groups => blocks ++ nestedBlocks.groups groups
/-- The blocks below a list of groups. -/
def nestedBlocks.groups : List Group → List Block
  | [] => []
  | group :: rest => nestedBlocks.group group ++ nestedBlocks.groups rest
/-- The blocks below one group. -/
def nestedBlocks.group : Group → List Block
  | .mk data nested =>
    if !group_isLeaf (.mk data nested) then
      match nested with
      | some flower => nestedBlocks flower
      | none => []
    else
      []
end

/-! ## Chunking sequences and converting coordinates (`blastAlignmentLib.c`)

The static variables of the file are the fields of `ChunkState`, which also
holds what the functions have written so far. A failed assertion aborts the
process: the run is then an `Except.error` and the state is lost.

The statics `chunkRemaining`, `chunkSize` and `chunkOverlapSize` are `int64_t`,
while the parameters and the results of `fn` and `fn2` and the local variables
of `processSequenceToChunk` are `int32_t`. Where an `int64_t` value is handed to
an `int32_t` it is reduced modulo `2^32` (`toInt32`). Sums and differences of
`int32_t` values are mathematical: their overflow is undefined in C, and the
statements about these functions carry a bound that excludes it. -/

/-- The value an `int32_t` takes when it is given the `int64_t` value `x`: the
integer between `-2^31` and `2^31 - 1` that differs from `x` by a multiple of
`2^32`. -/
def toInt32 (x : Int) : Int :=
  (x + 2147483648) % 4294967296 - 2147483648

/-- One call of `fn`: the file it wrote to, the text it wrote after `>` on the
header line, its `start` argument, the number of bases it wrote (the value it
returned) and the bases. -/
structure ChunkRecord where
  file : String
  name : String
  start : Int
  length : Int
  bases : String
  deriving DecidableEq, Repr

/-- The static variables of the chunking routines, the records written to the
chunk files, and the lines printed on `stdout`. For `chunkFileHandle`, `none`
is `NULL` and `some path` a handle on the file opened at `path`. -/
structure ChunkState where
  chunkRemaining : Int
  chunkFileHandle : Option String
  chunksDir : String
  chunkNo : Int
  tempChunkFile : Option String
  chunkSize : Int
  chunkOverlapSize : Int
  written : List ChunkRecord
  stdout : List String
  deriving DecidableEq, Repr

/-- The static variables as the program starts. -/
def ChunkState.initial : ChunkState :=
  { chunkRemaining := 0, chunkFileHandle := none, chunksDir := "", chunkNo := 0,
    tempChunkFile := none, chunkSize := 0, chunkOverlapSize := 0, written := [],
    stdout := [] }

/-- The `while` loop of `fn` that cuts the copy of the header at its first space
or tab. -/
def fn.cut : List Char → List Char
  | [] => []
  | c :: rest => if c == ' ' || c == '\t' then [] else c :: fn.cut rest

/-- The first statement of `fn`: open the next chunk file if none is open. -/
def fn.open (st : ChunkState) : ChunkState :=
  match st.chunkFileHandle with
  | none =>
    { st with
      tempChunkFile := some (st.chunksDir ++ "/" ++ toString st.chunkNo)
      chunkNo := st.chunkNo + 1
      chunkFileHandle := some (st.chunksDir ++ "/" ++ toString st.chunkNo) }
  | some _ => st

/-- The text `fn` prints after `>` on the header line: `%s|%i` of the cut header
and the start. -/
def fn.name (fastaHeader : String) (start : Int) : String :=
  String.mk (fn.cut fastaHeader.toList) ++ "|" ++ toString start

/-- The two `fprintf` of `fn` on the chunk file: the header line and the line of
the `length` bases of the sequence from `start` on. -/
def fn.write (st : ChunkState) (name : String) (start : Int) (sequence : String)
    (length : Int) : ChunkState :=
  { st with
    written := st.written ++
      [{ file := st.chunkFileHandle.getD "", name := name, start := start, length := length,
         bases := String.mk ((sequence.toList.drop start.toNat).take length.toNat) }] }

/-- The function `fn`: the value it returns and the static variables afterwards.
Its callers pass `int32_t` values for `start` and `seqLength`, and the
`int64_t` statics `chunkRemaining` and `chunkOverlapSize` for the `int32_t`
parameter `length`. -/
def fn (st : ChunkState) (fastaHeader : String) (start : Int) (sequence : String)
    (seqLength : Int) (length : Int) : Except Fault (Int × ChunkState) := do
  let length := toInt32 length
  let st := fn.open st
  let name := fn.name fastaHeader start
  assert (decide (length ≤ st.chunkSize)) Fault.chunkLengthTooLarge
  assert (decide (start ≥ 0)) Fault.chunkStartNegative
  let length := if start + length > seqLength then seqLength - start else length
  assert (decide (length > 0)) Fault.chunkLengthNotPositive
  Except.ok (length, fn.write st name start sequence length)

def finishChunkingSequences (st : ChunkState) : ChunkState :=
  match st.chunkFileHandle with
  | some _ =>
    { st with
      stdout := st.stdout ++ [st.tempChunkFile.getD ""]
      tempChunkFile := none
      chunkFileHandle := none }
  | none => st

/-- The function `fn2`: the value it returns and the static variables afterwards.
Its callers pass the `int64_t` static `chunkRemaining` for the `int32_t`
parameter `i` and an `int32_t` value for `seqLength`; the `int64_t` static
`chunkSize` is returned as an `int32_t`. -/
def fn2 (st : ChunkState) (i : Int) (seqLength : Int) : Except Fault (Int × ChunkState) := do
  let i := toInt32 i
  assert (decide (seqLength ≥ 0)) Fault.seqLengthNegative
  let i := i - seqLength
  if i ≤ 0 then
    Except.ok (toInt32 st.chunkSize, finishChunkingSequences st)
  else
    Except.ok (i, st)

/-- The `while (length - j > 0)` loop of `processSequenceToChunk`, with a bound
on the number of iterations. The `int32_t` variable `l` receives the value of
the `int64_t` expression `j - chunkOverlapSize / 2`. -/
def processSequenceToChunk.loop (fastaHeader : String) (sequence : String) (length : Int) :
    Nat → ChunkState → Int → Except Fault ChunkState
  | 0, st, j => if length - j > 0 then Except.error Fault.fuelExhausted else Except.ok st
  | fuel + 1, st, j =>
    if length - j > 0 then do
      let (k, st) ← fn st fastaHeader j sequence length st.chunkRemaining
      let (remaining, st) ← fn2 st st.chunkRemaining k
      let st := { st with chunkRemaining := remaining }
      let l := toInt32 (j - Int.tdiv st.chunkOverlapSize 2)
      let l := if l < 0 then 0 else l
      let (written, st) ← fn st fastaHeader l sequence length st.chunkOverlapSize
      let (remaining, st) ← fn2 st st.chunkRemaining written
      let st := { st with chunkRemaining := remaining }
      processSequenceToChunk.loop fastaHeader sequence length fuel st (j + k)
    else
      Except.ok st

/-- The function `processSequenceToChunk`. Every iteration of its loop advances
`j` by at least one, so `length` iterations are enough: the statements show
that the bound is not reached. -/
def processSequenceToChunk (st : ChunkState) (fastaHeader : String) (sequence : String)
    (length : Int) : Except Fault ChunkState :=
  if length > 0 then do
    let (j, st) ← fn st fastaHeader 0 sequence length st.chunkRemaining
    let (remaining, st) ← fn2 st st.chunkRemaining j
    let st := { st with chunkRemaining := remaining }
    processSequenceToChunk.loop fastaHeader sequence length length.toNat st j
  else
    Except.ok st

def setupToChunkSequences (st : ChunkState) (chunkSize2 : Int) (overlapSize2 : Int)
    (chunksDir2 : String) : Except Fault ChunkState := do
  let st := { st with chunkSize := chunkSize2 }
  assert (decide (st.chunkSize > 0)) Fault.chunkSizeNotPositive
  let st := { st with chunkOverlapSize := overlapSize2 }
  assert (decide (st.chunkOverlapSize ≥ 0)) Fault.overlapSizeNegative
  Except.ok { st with
    chunksDir := chunksDir2
    chunkNo := 0
    chunkRemaining := st.chunkSize
    chunkFileHandle := none }

/-- The function `convertCoordinatesP`: the new contig name, start and end. The
library functions `fastaDecodeHeader`, `fastaEncodeHeader` and `sscanf` with the
format `%i` are parameters; `stList_peek` and `stList_pop` take the last
element of the list. -/
def convertCoordinatesP (fastaDecodeHeader : String → List String)
    (fastaEncodeHeader : List String → String) (sscanf_i : String → Option Int)
    (contig : String) (start : Int) (end_ : Int) : Except Fault (String × Int × Int) :=
  let attributes := fastaDecodeHeader contig
  match attributes.getLast? with
  | none => Except.error Fault.noAttribute
  | some last =>
    match sscanf_i last with
    | none => Except.error Fault.startNotScanned
    | some startP =>
      let attributes := attributes.dropLast
      Except.ok (fastaEncodeHeader attributes, start + startP, end_ + startP)

/-- The fields of `struct PairwiseAlignment` that `convertCoordinatesOfPairwiseAlignment`
touches. -/
structure PairwiseAlignment where
  contig1 : String
  start1 : Int
  end1 : Int
  contig2 : String
  start2 : Int
  end2 : Int
  deriving DecidableEq, Repr

/-- The function `convertCoordinatesOfPairwiseAlignment`; `checkPairwiseAlignment`
is a parameter. -/
def convertCoordinatesOfPairwiseAlignment
    (checkPairwiseAlignment : PairwiseAlignment → Except Fault Unit)
    (fastaDecodeHeader : String → List String) (fastaEncodeHeader : List String → String)
    (sscanf_i : String → Option Int) (pairwiseAlignment : PairwiseAlignment) :
    Except Fault PairwiseAlignment := do
  checkPairwiseAlignment pairwiseAlignment
  let (contig1, start1, end1) ← convertCoordinatesP fastaDecodeHeader fastaEncodeHeader
    sscanf_i pairwiseAlignment.contig1 pairwiseAlignment.start1 pairwiseAlignment.end1
  let pairwiseAlignment :=
    { pairwiseAlignment with contig1 := contig1, start1 := start1, end1 := end1 }
  let (contig2, start2, end2) ← convertCoordinatesP fastaDecodeHeader fastaEncodeHeader
    sscanf_i pairwiseAlignment.contig2 pairwiseAlignment.start2 pairwiseAlignment.end2
  let pairwiseAlignment :=
    { pairwiseAlignment with contig2 := contig2, start2 := start2, end2 := end2 }
  checkPairwiseAlignment pairwiseAlignment
  Except.ok pairwiseAlignment

/-! ## Writing the sequences of a flower (`blastAlignmentLib.c`) -/

def end_getInstanceIterator (e : End) : List Cap :=
  e.caps

def cap_getName (cap : Cap) : Name :=
  cap.forward.data.name

def cap_getStrand (cap : Cap) : Bool :=
  cap.forward.data.strand

def cap_getSide (cap : Cap) : Bool :=
  cap.forward.data.side

def cap_getCoordinate (cap : Cap) : Int :=
  cap.forward.data.coordinate

def cap_getSequence (cap : Cap) : Option Sequence :=
  cap.forward.data.sequence

def cap_getReverse (cap : Cap) : Cap :=
  { forward := cap.reverse, reverse := cap.forward }

/-- The cap `cap_getAdjacency` returns, `none` for `NULL`; the accessors of the
cap API on it are the fields of `CapData`. -/
def cap_getAdjacency (cap : Cap) : Option CapData :=
  cap.forward.adjacency

/-- The arguments of one call of the `processSequence` callback. -/
structure SequenceCall where
  header : String
  string : String
  length : Int
  deriving DecidableEq, Repr

/-- The statement `cap = cap_getStrand(cap) ? cap : cap_getReverse(cap)`. -/
def positiveCap (cap : Cap) : Cap :=
  if cap_getStrand cap then cap else cap_getReverse cap

/-- The body of the inner `while` loop of `writeFlowerSequences` for one cap: the
call of `processSequence` it makes, if it makes one. The functions
`sequence_getString` and `cactusMisc_nameToStringStatic` are parameters. -/
def writeFlowerSequences.visit (sequence_getString : Sequence → Int → Int → Bool → String)
    (cactusMisc_nameToStringStatic : Name → String) (minimumSequenceLength : Int)
    (cap : Cap) : Except Fault (Option SequenceCall) :=
  let cap := positiveCap cap
  match cap_getAdjacency cap with
  | none => Except.error Fault.adjacencyNull
  | some cap2 => do
    assert cap2.strand Fault.adjacencyNotPositive
    if !cap_getSide cap then do
      assert cap2.side Fault.adjacencySideFalse
      let length := cap2.coordinate - cap_getCoordinate cap - 1
      assert (decide (length ≥ 0)) Fault.gapNegative
      if length ≥ minimumSequenceLength then
        match cap_getSequence cap with
        | none => Except.error Fault.capSequenceNull
        | some sequence =>
          let string := sequence_getString sequence (cap_getCoordinate cap + 1) length true
          let header := cactusMisc_nameToStringStatic (cap_getName cap) ++ "|" ++
            toString (cap_getCoordinate cap + 1)
          Except.ok (some { header := header, string := string, length := string.length })
      else
        Except.ok none
    else
      Except.ok none

/-- The inner `while` loop of `writeFlowerSequences` over the instance iterator of
an end; the state is the value of `sequencesWritten` and the calls of
`processSequence` made so far. -/
def writeFlowerSequences.capLoop (sequence_getString : Sequence → Int → Int → Bool → String)
    (cactusMisc_nameToStringStatic : Name → String) (minimumSequenceLength : Int) :
    List Cap → Int × List SequenceCall → Except Fault (Int × List SequenceCall)
  | [], state => Except.ok state
  | cap :: rest, state => do
    let call ← writeFlowerSequences.visit sequence_getString cactusMisc_nameToStringStatic
      minimumSequenceLength cap
    match call with
    | some call =>
      writeFlowerSequences.capLoop sequence_getString cactusMisc_nameToStringStatic
        minimumSequenceLength rest (state.1 + 1, state.2 ++ [call])
    | none =>
      writeFlowerSequences.capLoop sequence_getString cactusMisc_nameToStringStatic
        minimumSequenceLength rest state

/-- The outer `while` loop of `writeFlowerSequences` over the end iterator. -/
def writeFlowerSequences.endLoop (sequence_getString : Sequence → Int → Int → Bool → String)
    (cactusMisc_nameToStringStatic : Name → String) (minimumSequenceLength : Int) :
    List End → Int × List SequenceCall → Except Fault (Int × List SequenceCall)
  | [], state => Except.ok state
  | e :: rest, state => do
    let state ← writeFlowerSequences.capLoop sequence_getString cactusMisc_nameToStringStatic
      minimumSequenceLength (end_getInstanceIterator e) state
    writeFlowerSequences.endLoop sequence_getString cactusMisc_nameToStringStatic
      minimumSequenceLength rest state

/-- The function `writeFlowerSequences`: the value it returns and the calls of
`processSequence` it makes, in order. -/
def writeFlowerSequences (sequence_getString : Sequence → Int → Int → Bool → String)
    (cactusMisc_nameToStringStatic : Name → String) (flower : Flower)
    (minimumSequenceLength : Int) : Except Fault (Int × List SequenceCall) :=
  writeFlowerSequences.endLoop sequence_getString cactusMisc_nameToStringStatic
    minimumSequenceLength (flower_getEndIterator flower) (0, [])

/-- The caps of a flower, in the order in which `writeFlowerSequences` meets them. -/
def flowerCaps (flower : Flower) : List Cap :=
  (flower_getEndIterator flower).flatMap end_getInstanceIterator

/-- The gap between a cap, taken on the positive strand, and its adjacent cap:
`coordinate(adjacency(c)) - coordinate(c) - 1`. -/
def capGap (cap : Cap) : Option Int :=
  (cap_getAdjacency (positiveCap cap)).map
    (fun cap2 => cap2.coordinate - cap_getCoordinate (positiveCap cap) - 1)

/-- The cap, taken on the positive strand, has side false and a gap to its
adjacent cap of at least the minimum length. -/
def capEmits (minimumSequenceLength : Int) (cap : Cap) : Bool :=
  !cap_getSide (positiveCap cap) &&
    match capGap cap with
    | some gap => decide (gap ≥ minimumSequenceLength)
    | none => false

/-- The call of `processSequence` for a cap that satisfies `capEmits`: the header
is the name of the cap and the coordinate after it, the string is requested
from that coordinate with the length of the gap. -/
def expectedCall (sequence_getString : Sequence → Int → Int → Bool → String)
    (cactusMisc_nameToStringStatic : Name → String) (minimumSequenceLength : Int)
    (cap : Cap) : Option SequenceCall :=
  if capEmits minimumSequenceLength cap then
    match capGap cap, cap_getSequence (positiveCap cap) with
    | some gap, some sequence =>
      some
        { header := cactusMisc_nameToStringStatic (cap_getName (positiveCap cap)) ++ "|" ++
            toString (cap_getCoordinate (positiveCap cap) + 1)
          string := sequence_getString sequence (cap_getCoordinate (positiveCap cap) + 1) gap
            true
          length := (sequence_getString sequence (cap_getCoordinate (positiveCap cap) + 1) gap
            true).length }
    | _, _ => none
  else
    none

/-! ## Quantities and predicates the statements use -/

/-- The sum of `segment_getLength` over the segments of a block whose sequence
is non-null. -/
def sequencedLength (block : Block) : Int :=
  (((block_getInstanceIterator block).filter
    (fun segment => (segment_getSequence segment).isSome)).map segment_getLength).sum

/-- The sum of `segment_getLength` over every segment of every block of the
flower whose sequence is non-null. -/
def blockBasesOf (flower : Flower) : Int :=
  ((flower_getBlockIterator flower).map sequencedLength).sum

/-- The sum over the groups of the flower of `group_getTotalBaseLength`. -/
def childBasesOf (flower : Flower) : Int :=
  ((flower_getGroupIterator flower).map group_getTotalBaseLength).sum

/-- What the group loop of `checkBasesAccountedFor` asserts of one group. -/
def groupAccounted (group : Group) : Bool :=
  (match group_getNestedFlower group with
    | some nested =>
      !group_isLeaf group && flower_getTotalBaseLength nested == group_getTotalBaseLength group
    | none => group_isLeaf group)
  && decide (group_getTotalBaseLength group ≥ 0)

/-- What the end loop of `checkChainsAreMaximal` asserts of one end of `net`. -/
def endMaximal (net : Flower) (e : End) : Bool :=
  end_getOrientation e &&
    (!(end_isStubEnd e && end_isAttached e) ||
      match group_getLink (end_getGroup e) with
      | some link => flower_isLeaf net && chain_getLength (link_getChain link) == 1
      | none => true)

/-! ## The nesting tree -/

/-- The sequence `flower_check` and the six per-level checks, in the order in
which `checkNets` runs them on one flower. -/
def levelChecks (flower_check : Flower → Except Fault Unit) (net : Flower) :
    Except Fault Unit := do
  flower_check net
  checkNetIsNotEmpty net
  checkGroupsNotEmpty net
  checkBasesAccountedFor net
  checkTreeIsTerminalNormalised net
  checkChainsAreMaximal net
  checkNetIsNotRedundant net

/-- Each of `flower_check` and the six per-level checks completes on the flower. -/
def levelChecksPass (flower_check : Flower → Except Fault Unit) (net : Flower) : Bool :=
  completes (flower_check net) && completes (checkNetIsNotEmpty net) &&
    completes (checkGroupsNotEmpty net) && completes (checkBasesAccountedFor net) &&
    completes (checkTreeIsTerminalNormalised net) && completes (checkChainsAreMaximal net) &&
    completes (checkNetIsNotRedundant net)

/-- The flower `F'` is reachable from `F` by taking, any number of times, the
nested flower of a group that is not a leaf group. -/
inductive Reachable : Flower → Flower → Prop where
  | refl (F : Flower) : Reachable F F
  | step {F N F' : Flower} {group : Group} :
      group ∈ flower_getGroupIterator F → group_isLeaf group = false →
      group_getNestedFlower group = some N → Reachable N F' → Reachable F F'

mutual
/-- The flower `F'` is `F` with another enumeration order: the same attributes,
the ends and the blocks in a permuted order, and the groups in a permuted
order, each nested flower being reordered in the same way. -/
def Flower.Reordered : Flower → Flower → Prop
  | .mk data ends blocks groups, F' =>
    F'.data = data ∧ ends.Perm (flower_getEndIterator F') ∧
      blocks.Perm (flower_getBlockIterator F') ∧
      ∃ groups', Group.ReorderedEach groups groups' ∧
        groups'.Perm (flower_getGroupIterator F')
/-- The two lists of groups have the same length and each group of the second
is the group at the same position of the first, reordered. -/
def Group.ReorderedEach : List Group → List Group → Prop
  | [], groups' => groups' = []
  | group :: rest, groups' =>
    ∃ group' rest', groups' = group' :: rest' ∧ Group.Reordered group group' ∧
      Group.ReorderedEach rest rest'
/-- The group `group'` has the attributes of `group`, and its nested flower (if
any) is the nested flower of `group` in another enumeration order. -/
def Group.Reordered : Group → Group → Prop
  | .mk data none, group' => group'.data = data ∧ group_getNestedFlower group' = none
  | .mk data (some nested), group' =>
    group'.data = data ∧
      ∃ nested', group_getNestedFlower group' = some nested' ∧ Flower.Reordered nested nested'
end

/-- What the per-level checks of the flower that owns a group read of the group:
its attributes and, if it has a nested flower, the attributes of that flower. -/
def Group.summary (group : Group) : GroupData × Option FlowerData :=
  (group.data, (group_getNestedFlower group).map Flower.data)

/-! ## Pieces of a chunked sequence -/

/-- The first, third, fifth, ... element of a list of records. -/
def everyOther : List ChunkRecord → List ChunkRecord
  | [] => []
  | [piece] => [piece]
  | piece :: _ :: rest => piece :: everyOther rest

/-- Of the records of the calls of `fn` during one call of
`processSequenceToChunk`, those of the non-overlap pieces: the first call, and
the first call of each iteration of the loop. -/
def nonOverlapPieces : List ChunkRecord → List ChunkRecord
  | [] => []
  | first :: rest => first :: everyOther rest

/-- A list of records taken two by two. -/
def pairUp : List ChunkRecord → List (ChunkRecord × ChunkRecord)
  | piece :: overlap :: rest => (piece, overlap) :: pairUp rest
  | _ => []

/-- Of the records of the calls of `fn` during one call of
`processSequenceToChunk`, the two records of each iteration of the loop: the
non-overlap piece that begins at a boundary, and the overlap piece written
after it. -/
def boundaryPairs : List ChunkRecord → List (ChunkRecord × ChunkRecord)
  | [] => []
  | _ :: rest => pairUp rest

/-- The pieces follow one another from offset `a` to offset `b`: the first
starts at `a`, each has at least one base, each starts where the one before it
ends, and the last ends at `b`. -/
def Tiles (b : Int) : Int → List ChunkRecord → Prop
  | a, [] => a = b
  | a, piece :: rest => piece.start = a ∧ 1 ≤ piece.length ∧ Tiles b (a + piece.length) rest

/-- What the loop of `processSequenceToChunk` writes from offset `j` on, for chunk
size `c`, overlap size `o` and sequence length `n`: for each iteration a
non-overlap piece and an overlap piece, the latter described when the overlap
size is a non-negative `int32_t`. -/
def LoopLog (c o n : Int) : Int → List ChunkRecord → Prop
  | j, [] => j = n
  | _, [_] => False
  | j, piece :: overlap :: rest =>
    j < n ∧ piece.start = j ∧ 1 ≤ piece.length ∧ piece.length ≤ c ∧
      (0 ≤ o ∧ o < 2147483648 →
        overlap.start = max 0 (j - o / 2) ∧ overlap.length = min o (n - overlap.start) ∧
          1 ≤ o ∧ o ≤ c) ∧
      LoopLog c o n (j + piece.length) rest

/-! ## Attributes of a FASTA header -/

/-- The attributes of a FASTA header written one after the other with a `|`
between two of them. -/
def joinAttributes : List String → String
  | [] => ""
  | [entry] => entry
  | entry :: next :: rest => entry ++ "|" ++ joinAttributes (next :: rest)

/-- The fields of a list of characters: what stands before its first `|`,
between two `|` that follow one another, and after its last `|`. -/
def headerFields : List Char → List (List Char)
  | [] => [[]]
  | c :: rest =>
    if c == '|' then [] :: headerFields rest
    else
      match headerFields rest with
      | [] => [[c]]
      | field :: fields => (c :: field) :: fields

/-! ## Example flowers -/

/-- A sequence of 100 bases that starts at coordinate 0. -/
def exampleSequence : Sequence :=
  { name := 50, start := 0, length := 100, header := "chr1 human" }

/-- A chain with two links. -/
def twoLinkChain : Chain := { name := 30, linkNumber := 2, chainIndex := 0 }

/-- A chain with one link. -/
def oneLinkChain : Chain := { name := 31, linkNumber := 1, chainIndex := 0 }

/-- A leaf group of two ends that is spanned by a link of the two-link chain. -/
def groupInTwoLinkChain : GroupData :=
  { name := 20, leaf := true, link := some { chain := twoLinkChain }, ends := [1, 2],
    totalBaseLength := 0 }

/-- A leaf group of two ends that is spanned by the only link of a chain. -/
def groupInOneLinkChain : GroupData :=
  { name := 21, leaf := true, link := some { chain := oneLinkChain }, ends := [1, 2],
    totalBaseLength := 0 }

/-- An attached stub end, positively oriented, in the given group. -/
def attachedStub (name : Name) (group : GroupData) : End :=
  { name := name, orientation := true, isStubEnd := true, isAttached := true, group := group }

/-- A root flower (no parent group) with two attached stub ends in a group whose
link belongs to a chain of two links. -/
def rootWithTwoLinkChain : Flower :=
  Flower.mk { name := 1, parentGroup := none, totalBaseLength := 0, builtBlocks := true }
    [attachedStub 1 groupInTwoLinkChain, attachedStub 2 groupInTwoLinkChain] []
    [Group.mk groupInTwoLinkChain none]

/-- A nested flower (it has a parent group) with two attached stub ends in a
group whose link is the only link of its chain. -/
def nestedWithOneLinkChain : Flower :=
  Flower.mk { name := 2, parentGroup := some 7, totalBaseLength := 0, builtBlocks := true }
    [attachedStub 1 groupInOneLinkChain, attachedStub 2 groupInOneLinkChain] []
    [Group.mk groupInOneLinkChain none]

/-- The same flower as `rootWithTwoLinkChain`, but nested. -/
def nestedWithTwoLinkChain : Flower :=
  Flower.mk { name := 3, parentGroup := some 7, totalBaseLength := 0, builtBlocks := true }
    [attachedStub 1 groupInTwoLinkChain, attachedStub 2 groupInTwoLinkChain] []
    [Group.mk groupInTwoLinkChain none]

/-- A flower with one block and no group on which `flower_setBuiltBlocks` was
never called, so that `flower_builtBlocks` has its default value. -/
def blocksNotBuiltFlower : Flower :=
  Flower.mk { name := 4, parentGroup := none, totalBaseLength := 0, builtBlocks := false } []
    [{ name := 40, instances := [] }] []

/-- A flower of total base length 7: a block with a sequenced segment of length
3 and an unsequenced one of length 9, and a leaf group that records 4 bases. -/
def accountedFlower : Flower :=
  Flower.mk { name := 5, parentGroup := none, totalBaseLength := 7, builtBlocks := true } []
    [{ name := 41, instances := [{ sequence := some exampleSequence, length := 3 },
        { sequence := none, length := 9 }] }]
    [Group.mk { name := 22, leaf := true, link := none, ends := [1, 2], totalBaseLength := 4 }
      none]

/-- A leaf group of two free stub ends that records 4 bases. -/
def innerGroup : GroupData :=
  { name := 23, leaf := true, link := none, ends := [5, 6], totalBaseLength := 4 }

/-- A free stub end, positively oriented, in the given group. -/
def freeStub (name : Name) (group : GroupData) : End :=
  { name := name, orientation := true, isStubEnd := true, isAttached := false, group := group }

/-- A block end, positively oriented, in the given group. -/
def blockEnd (name : Name) (group : GroupData) : End :=
  { name := name, orientation := true, isStubEnd := false, isAttached := false,
    group := group }

/-- A terminal nested flower of total base length 4: two stub ends in one leaf
group, no block. -/
def innerFlower : Flower :=
  Flower.mk { name := 8, parentGroup := some 24, totalBaseLength := 4, builtBlocks := true }
    [freeStub 5 innerGroup, freeStub 6 innerGroup] [] [Group.mk innerGroup none]

/-- The flower `innerFlower` with its ends enumerated in the other order. -/
def innerFlowerReordered : Flower :=
  Flower.mk { name := 8, parentGroup := some 24, totalBaseLength := 4, builtBlocks := true }
    [freeStub 6 innerGroup, freeStub 5 innerGroup] [] [Group.mk innerGroup none]

/-- The group of the outer flower that holds the nested flower. -/
def outerNestingGroup : GroupData :=
  { name := 24, leaf := false, link := none, ends := [1, 2], totalBaseLength := 4 }

/-- The leaf group of the outer flower; it records 2 bases. -/
def outerLeafGroup : GroupData :=
  { name := 25, leaf := true, link := none, ends := [3, 4], totalBaseLength := 2 }

/-- A root flower of total base length 9 = 3 + 4 + 2: one block with a sequenced
segment of length 3, a group with the nested flower `innerFlower`, and a leaf
group. -/
def outerFlower : Flower :=
  Flower.mk { name := 9, parentGroup := none, totalBaseLength := 9, builtBlocks := true }
    [attachedStub 1 outerNestingGroup, blockEnd 2 outerNestingGroup,
      blockEnd 3 outerLeafGroup, attachedStub 4 outerLeafGroup]
    [{ name := 42, instances := [{ sequence := some exampleSequence, length := 3 }] }]
    [Group.mk outerNestingGroup (some innerFlower), Group.mk outerLeafGroup none]

/-- The flower `outerFlower` enumerated in another order, at both levels. -/
def outerFlowerReordered : Flower :=
  Flower.mk { name := 9, parentGroup := none, totalBaseLength := 9, builtBlocks := true }
    [attachedStub 4 outerLeafGroup, blockEnd 3 outerLeafGroup,
      blockEnd 2 outerNestingGroup, attachedStub 1 outerNestingGroup]
    [{ name := 42, instances := [{ sequence := some exampleSequence, length := 3 }] }]
    [Group.mk outerLeafGroup none, Group.mk outerNestingGroup (some innerFlowerReordered)]

/-- A leaf group of two ends with no link and no bases. -/
def stubPairGroup : GroupData :=
  { name := 26, leaf := true, link := none, ends := [1, 2], totalBaseLength := 0 }

/-- Scenario A after `flower_setBuiltBlocks(flower, 1)`: two stub ends, no block,
one leaf group that contains both ends. -/
def scenarioA : Flower :=
  Flower.mk { name := 6, parentGroup := none, totalBaseLength := 0, builtBlocks := true }
    [freeStub 1 stubPairGroup, freeStub 2 stubPairGroup] [] [Group.mk stubPairGroup none]

/-- Scenario A on a flower whose `builtBlocks` flag still has its default value. -/
def scenarioAFresh : Flower :=
  Flower.mk { name := 6, parentGroup := none, totalBaseLength := 0, builtBlocks := false }
    [freeStub 1 stubPairGroup, freeStub 2 stubPairGroup] [] [Group.mk stubPairGroup none]

/-- A segment of 10 bases at coordinate 20 of the positive strand of
`exampleSequence`. -/
def forwardSegment : Segment :=
  { sequence := some exampleSequence, length := 10, start := 20, strand := true,
    string := "ACGTACGTAC" }

/-- A segment of 10 bases on the negative strand of `exampleSequence`; its start,
29, is the highest forward coordinate it covers. -/
def reverseSegment : Segment :=
  { sequence := some exampleSequence, length := 10, start := 29, strand := false,
    string := "GTACGTACGT" }

/-- A block of length 10 with two instances and no root instance. -/
def twoInstanceBlock : Block :=
  { name := 43, instances := [forwardSegment, reverseSegment], length := 10 }

/-- A block without instances. -/
def emptyBlock : Block :=
  { name := 44, instances := [], length := 5 }

/-- A block of length 10 with one instance, which is its root instance. -/
def rootedBlock : Block :=
  { name := 45, instances := [forwardSegment], length := 10,
    rootInstance := some (SegmentTree.node forwardSegment []) }

/-- A nested flower with one block. -/
def mafInnerFlower : Flower :=
  Flower.mk { name := 11, parentGroup := some 27, totalBaseLength := 10, builtBlocks := true }
    [] [rootedBlock] []

/-- A flower with a block with instances, a block without, a leaf group and a
group whose nested flower is `mafInnerFlower`. -/
def mafFlower : Flower :=
  Flower.mk { name := 10, parentGroup := none, totalBaseLength := 30, builtBlocks := true }
    [] [emptyBlock, twoInstanceBlock]
    [Group.mk outerLeafGroup none,
      Group.mk { name := 27, leaf := false, link := none, ends := [], totalBaseLength := 10 }
        (some mafInnerFlower)]

/-- A `block_makeNewickString` that returns the same tree for every block. -/
def exampleNewick (_ : Block) : Option String :=
  some "(a,b);"

/-- A `cactusMisc_nameToString` that prints the name in decimal. -/
def exampleNameToString (name : Name) : String :=
  toString name

/-- The static variables after `setupToChunkSequences(4, 2, "chunks")`. -/
def chunkSetup : ChunkState :=
  { chunkRemaining := 4, chunkFileHandle := none, chunksDir := "chunks", chunkNo := 0,
    tempChunkFile := none, chunkSize := 4, chunkOverlapSize := 2, written := [],
    stdout := [] }

/-- The static variables after `setupToChunkSequences(2, 0, "chunks")`. -/
def chunkSetupNoOverlap : ChunkState :=
  { chunkRemaining := 2, chunkFileHandle := none, chunksDir := "chunks", chunkNo := 0,
    tempChunkFile := none, chunkSize := 2, chunkOverlapSize := 0, written := [],
    stdout := [] }

/-- The static variables after `setupToChunkSequences(2, 3, "chunks")`. -/
def chunkSetupWideOverlap : ChunkState :=
  { chunkRemaining := 2, chunkFileHandle := none, chunksDir := "chunks", chunkNo := 0,
    tempChunkFile := none, chunkSize := 2, chunkOverlapSize := 3, written := [],
    stdout := [] }

/-- The static variables after `setupToChunkSequences(4294967296, 1, "chunks")`:
the chunk size is `2^32`. -/
def chunkSetupHuge : ChunkState :=
  { chunkRemaining := 4294967296, chunkFileHandle := none, chunksDir := "chunks", chunkNo := 0,
    tempChunkFile := none, chunkSize := 4294967296, chunkOverlapSize := 1, written := [],
    stdout := [] }

/-- The static variables of `chunkSetupHuge` when 3 bases remain in the chunk. -/
def chunkHugePartFilled : ChunkState :=
  { chunkRemaining := 3, chunkFileHandle := none, chunksDir := "chunks", chunkNo := 0,
    tempChunkFile := none, chunkSize := 4294967296, chunkOverlapSize := 1, written := [],
    stdout := [] }

/-- The static variables after `setupToChunkSequences(4, 4294967298, "chunks")`:
the overlap size is `2^32 + 2`. -/
def chunkSetupHugeOverlap : ChunkState :=
  { chunkRemaining := 4, chunkFileHandle := none, chunksDir := "chunks", chunkNo := 0,
    tempChunkFile := none, chunkSize := 4, chunkOverlapSize := 4294967298, written := [],
    stdout := [] }

/-- The cap 100 on the positive strand: side false, at coordinate 9 of
`exampleSequence`. -/
def leftCapData : CapData :=
  { name := 100, strand := true, side := false, coordinate := 9,
    sequence := some exampleSequence }

/-- The cap 101 on the positive strand: side true, at coordinate 20 of
`exampleSequence`. -/
def rightCapData : CapData :=
  { name := 101, strand := true, side := true, coordinate := 20,
    sequence := some exampleSequence }

/-- The cap 100 as its end yields it, on the positive strand; its adjacent cap is
the cap 101. -/
def leftCap : Cap :=
  { forward := { data := leftCapData, adjacency := some rightCapData }
    reverse :=
      { data := { leftCapData with strand := false, side := true }
        adjacency := some { rightCapData with strand := false, side := false } } }

/-- The cap 101 as its end yields it, on the negative strand; its adjacent cap is
the cap 100. -/
def rightCap : Cap :=
  { forward :=
      { data := { rightCapData with strand := false, side := false }
        adjacency := some { leftCapData with strand := false, side := true } }
    reverse := { data := rightCapData, adjacency := some leftCapData } }

/-- A flower with two stub ends, one cap each, the two caps being adjacent with a
gap of 10 bases between them. -/
def adjacencyFlower : Flower :=
  Flower.mk { name := 12, parentGroup := none, totalBaseLength := 10, builtBlocks := true }
    [{ name := 1, orientation := true, isStubEnd := true, isAttached := true,
       group := stubPairGroup, caps := [leftCap] },
     { name := 2, orientation := true, isStubEnd := true, isAttached := true,
       group := stubPairGroup, caps := [rightCap] }]
    [] [Group.mk stubPairGroup none]

/-- A `sequence_getString` for the examples: as many `N` as bases are asked for. -/
def exampleGetString (_ : Sequence) (_ : Int) (length : Int) (_ : Bool) : String :=
  String.mk (List.replicate length.toNat 'N')

/-- A `flower_check` that finds nothing wrong. -/
def flowerCheckPasses (_ : Flower) : Except Fault Unit :=
  Except.ok ()

/-! ## Basic facts about faults -/

theorem completes_assert (c : Bool) (fault : Fault) : completes (assert c fault) = c := by
  cases c <;> rfl

theorem completes_seq {α : Type} (x : Except Fault Unit) (y : Except Fault α) :
    completes (do x; y) = (completes x && completes y) := by
  cases x <;> rfl

theorem completes_ok {α : Type} (a : α) : completes (Except.ok a : Except Fault α) = true := rfl

theorem completes_error {α : Type} (fault : Fault) :
    completes (Except.error fault : Except Fault α) = false := rfl

/-! ## `checkTreeIsTerminalNormalised` -/

theorem terminalNormalised_loop (groups : List Group) :
    completes (checkTreeIsTerminalNormalised.loop groups) = groups.all group_isLeaf := by
  induction groups with
  | nil => rfl
  | cons group rest ih =>
    simp only [checkTreeIsTerminalNormalised.loop, completes_seq, completes_assert, ih,
      List.all_cons]

theorem terminalNormalised_eq (net : Flower) :
    completes (checkTreeIsTerminalNormalised net) =
      (!flower_isLeaf net ||
        (flower_getBlockNumber net == 0 && flower_isTerminal net &&
          (flower_getGroupIterator net).all group_isLeaf)) := by
  unfold checkTreeIsTerminalNormalised
  cases h : flower_isLeaf net
  · simp [completes_ok]
  · simp only [if_true, completes_seq, completes_assert, terminalNormalised_loop,
      Bool.not_true, Bool.false_or, Bool.and_assoc]

/-- C3. `checkTreeIsTerminalNormalised` completes without a fault exactly when the
flower is not a leaf, or it has zero blocks, is terminal and every one of its
groups is a leaf group. -/
theorem checkTreeIsTerminalNormalised_completes_iff (F : Flower) :
    completes (checkTreeIsTerminalNormalised F) = true ↔
      flower_isLeaf F = false ∨
        (flower_getBlockNumber F = 0 ∧ flower_isTerminal F = true ∧
          ∀ group ∈ flower_getGroupIterator F, group_isLeaf group = true) := by
  rw [terminalNormalised_eq]
  cases flower_isLeaf F <;> simp [and_assoc]

/-! ## `checkNetIsNotRedundant` -/

theorem notRedundant_eq (net : Flower) :
    completes (checkNetIsNotRedundant net) =
      (flower_builtBlocks net &&
        (!(flower_getBlockNumber net == 0 && flower_getGroupNumber net == 1) ||
          flower_isLeaf net)) := by
  unfold checkNetIsNotRedundant
  cases h : (flower_getBlockNumber net == 0 && flower_getGroupNumber net == 1)
  · simp [completes_seq, completes_assert, completes_ok]
  · simp [completes_seq, completes_assert]

/-- C4 (amended). `checkNetIsNotRedundant` raises a fault exactly when
`flower_builtBlocks` is false, or the flower has zero blocks, exactly one group
and is not a leaf; on every other flower it completes without a fault. -/
theorem checkNetIsNotRedundant_faults_iff (F : Flower) :
    completes (checkNetIsNotRedundant F) = false ↔
      flower_builtBlocks F = false ∨
        (flower_getBlockNumber F = 0 ∧ flower_getGroupNumber F = 1 ∧
          flower_isLeaf F = false) := by
  rw [notRedundant_eq]
  cases flower_builtBlocks F <;> cases flower_isLeaf F <;> simp

/-! ## `checkNetIsNotEmpty` -/

theorem notEmpty_eq (net : Flower) :
    completes (checkNetIsNotEmpty net) =
      ((flower_getParentGroup net).isNone || decide (flower_getEndNumber net > 0)) := by
  unfold checkNetIsNotEmpty
  cases flower_getParentGroup net <;> simp [completes_assert, completes_ok]

/-- C10. `checkNetIsNotEmpty` completes without a fault exactly when the flower
has no parent group or has at least one end; so a root flower with zero ends
passes and a nested flower with zero ends faults. -/
theorem checkNetIsNotEmpty_completes_iff (F : Flower) :
    (completes (checkNetIsNotEmpty F) = true ↔
      flower_getParentGroup F = none ∨ flower_getEndNumber F > 0) ∧
    (flower_getParentGroup F = none → flower_getEndNumber F = 0 →
      completes (checkNetIsNotEmpty F) = true) ∧
    (flower_getParentGroup F ≠ none → flower_getEndNumber F = 0 →
      completes (checkNetIsNotEmpty F) = false) := by
  rw [notEmpty_eq]
  cases h : flower_getParentGroup F <;> simp

/-! ## `checkGroupsNotEmpty` -/

theorem groupsNotEmpty_loop (groups : List Group) :
    completes (checkGroupsNotEmpty.loop groups) =
      groups.all (fun group => decide (group_getEndNumber group > 0)) := by
  induction groups with
  | nil => rfl
  | cons group rest ih =>
    simp only [checkGroupsNotEmpty.loop, completes_seq, completes_assert, ih, List.all_cons]

/-- C9. `checkGroupsNotEmpty` completes without a fault exactly when every group
of the flower contains at least one end. -/
theorem checkGroupsNotEmpty_completes_iff (F : Flower) :
    completes (checkGroupsNotEmpty F) = true ↔
      ∀ group ∈ flower_getGroupIterator F, group_getEndNumber group > 0 := by
  unfold checkGroupsNotEmpty
  rw [groupsNotEmpty_loop]
  simp

/-! ## `checkBasesAccountedFor` -/

theorem segmentLoop_eq (segments : List Segment) (blockBases : Int) :
    checkBasesAccountedFor.segmentLoop segments blockBases =
      blockBases + ((segments.filter
        (fun segment => (segment_getSequence segment).isSome)).map segment_getLength).sum := by
  induction segments generalizing blockBases with
  | nil => simp [checkBasesAccountedFor.segmentLoop]
  | cons segment rest ih =>
    unfold checkBasesAccountedFor.segmentLoop
    cases h : (segment_getSequence segment).isSome
    · simp [ih, h]
    · simp [ih, h, add_assoc]

theorem blockLoop_eq (blocks : List Block) (blockBases : Int) :
    checkBasesAccountedFor.blockLoop blocks blockBases =
      blockBases + (blocks.map sequencedLength).sum := by
  induction blocks generalizing blockBases with
  | nil => simp [checkBasesAccountedFor.blockLoop]
  | cons block rest ih =>
    unfold checkBasesAccountedFor.blockLoop
    rw [ih, segmentLoop_eq]
    simp [sequencedLength, add_assoc]

theorem groupLoop_step (group : Group) (rest : List Group) (childBases : Int) :
    checkBasesAccountedFor.groupLoop (group :: rest) childBases =
      if groupAccounted group then
        checkBasesAccountedFor.groupLoop rest (childBases + group_getTotalBaseLength group)
      else
        Except.error
          (match group_getNestedFlower group with
            | some nested =>
              if group_isLeaf group then Fault.groupWithNestedFlowerIsLeaf
              else if flower_getTotalBaseLength nested == group_getTotalBaseLength group then
                Fault.negativeGroupSize
              else Fault.nestedBaseLengthMismatch
            | none =>
              if group_isLeaf group then Fault.negativeGroupSize
              else Fault.groupWithoutNestedFlowerNotLeaf) := by
  obtain ⟨data, nested⟩ := group
  cases nested with
  | none =>
    cases hl : group_isLeaf (Group.mk data none) <;>
      by_cases h : group_getTotalBaseLength (Group.mk data none) ≥ 0 <;>
      simp [checkBasesAccountedFor.groupLoop, groupAccounted, group_getNestedFlower,
        assert, hl, h, bind, Except.bind]
  | some nested =>
    cases hl : group_isLeaf (Group.mk data (some nested)) <;>
      by_cases h : group_getTotalBaseLength (Group.mk data (some nested)) ≥ 0 <;>
      by_cases h2 : flower_getTotalBaseLength nested =
        group_getTotalBaseLength (Group.mk data (some nested)) <;>
      simp [checkBasesAccountedFor.groupLoop, groupAccounted, group_getNestedFlower,
        assert, hl, h, h2, bind, Except.bind]

theorem groupLoop_completes (groups : List Group) (childBases : Int) :
    completes (checkBasesAccountedFor.groupLoop groups childBases) =
      groups.all groupAccounted := by
  induction groups generalizing childBases with
  | nil => rfl
  | cons group rest ih =>
    rw [groupLoop_step]
    cases h : groupAccounted group
    · simp [completes_error, h]
    · simp [ih, h]

theorem groupLoop_value (groups : List Group) (childBases r : Int)
    (h : checkBasesAccountedFor.groupLoop groups childBases = Except.ok r) :
    r = childBases + (groups.map group_getTotalBaseLength).sum := by
  induction groups generalizing childBases with
  | nil =>
    simp only [checkBasesAccountedFor.groupLoop, Except.ok.injEq] at h
    simp [h]
  | cons group rest ih =>
    rw [groupLoop_step] at h
    cases hg : groupAccounted group
    · simp [hg] at h
    · simp only [hg, if_true] at h
      rw [ih _ h]
      simp [add_assoc]

theorem basesAccountedFor_iff (net : Flower) :
    completes (checkBasesAccountedFor net) = true ↔
      (∀ group ∈ flower_getGroupIterator net, groupAccounted group = true) ∧
        blockBasesOf net + childBasesOf net = flower_getTotalBaseLength net := by
  unfold checkBasesAccountedFor
  have hc := groupLoop_completes (flower_getGroupIterator net) 0
  cases h : checkBasesAccountedFor.groupLoop (flower_getGroupIterator net) 0 with
  | error fault =>
    rw [h, completes_error] at hc
    have hne : ¬ ∀ group ∈ flower_getGroupIterator net, groupAccounted group = true := by
      intro hall
      rw [Eq.comm, List.all_eq_false] at hc
      obtain ⟨g, hg, hng⟩ := hc
      exact hng (hall g hg)
    simp [bind, Except.bind, completes_error, hne]
  | ok childBases =>
    rw [h, completes_ok] at hc
    have hall : ∀ group ∈ flower_getGroupIterator net, groupAccounted group = true := by
      intro g hg
      exact List.all_eq_true.mp hc.symm g hg
    have hv := groupLoop_value _ _ _ h
    simp only [bind, Except.bind, completes_assert, blockLoop_eq, hv, zero_add, beq_iff_eq]
    simp only [blockBasesOf, childBasesOf]
    constructor
    · intro heq
      exact ⟨hall, heq⟩
    · intro hboth
      exact hboth.2

/-- C1. When `checkBasesAccountedFor` completes without a fault on a flower, the
flower's total base length equals the sum of the lengths of the segments of its
blocks that have a sequence, plus the sum over its groups of the total base
length recorded for the group. -/
theorem checkBasesAccountedFor_total (F : Flower)
    (h : completes (checkBasesAccountedFor F) = true) :
    flower_getTotalBaseLength F =
      ((flower_getBlockIterator F).map (fun block =>
          (((block_getInstanceIterator block).filter
            (fun segment => (segment_getSequence segment).isSome)).map
              segment_getLength).sum)).sum +
        ((flower_getGroupIterator F).map group_getTotalBaseLength).sum := by
  have h2 := ((basesAccountedFor_iff F).mp h).2
  simpa [blockBasesOf, childBasesOf, sequencedLength] using h2.symm

/-- C1 at `accountedFlower`: the check completes and 7 = 3 + 4. -/
theorem checkBasesAccountedFor_total_witness :
    completes (checkBasesAccountedFor accountedFlower) = true ∧
      flower_getTotalBaseLength accountedFlower =
        ((flower_getBlockIterator accountedFlower).map (fun block =>
            (((block_getInstanceIterator block).filter
              (fun segment => (segment_getSequence segment).isSome)).map
                segment_getLength).sum)).sum +
          ((flower_getGroupIterator accountedFlower).map group_getTotalBaseLength).sum :=
  ⟨by decide, checkBasesAccountedFor_total accountedFlower (by decide)⟩

/-- C8 (amended). When `checkBasesAccountedFor` completes without a fault on a
flower, every group of the flower has a nested flower exactly when it is not a
leaf group; if it has a nested flower, its total base length is that of the
nested flower; if it has none, its total base length is non-negative. -/
theorem checkBasesAccountedFor_groups (F : Flower)
    (h : completes (checkBasesAccountedFor F) = true) :
    ∀ group ∈ flower_getGroupIterator F,
      ((group_getNestedFlower group).isSome = true ↔ group_isLeaf group = false) ∧
      (∀ nested, group_getNestedFlower group = some nested →
        group_getTotalBaseLength group = flower_getTotalBaseLength nested) ∧
      (group_getNestedFlower group = none → group_getTotalBaseLength group ≥ 0) := by
  intro group hg
  have hacc := ((basesAccountedFor_iff F).mp h).1 group hg
  unfold groupAccounted at hacc
  cases hn : group_getNestedFlower group with
  | none =>
    rw [hn] at hacc
    simp only [Bool.and_eq_true, decide_eq_true_eq] at hacc
    simp [hacc.1, hacc.2]
  | some nested =>
    rw [hn] at hacc
    simp only [Bool.and_eq_true, decide_eq_true_eq, Bool.not_eq_true', beq_iff_eq] at hacc
    simp [hacc.1.1, hacc.1.2]

/-- C8 (amended) at `accountedFlower`. -/
theorem checkBasesAccountedFor_groups_witness :
    completes (checkBasesAccountedFor accountedFlower) = true ∧
      ∀ group ∈ flower_getGroupIterator accountedFlower,
        ((group_getNestedFlower group).isSome = true ↔ group_isLeaf group = false) ∧
        (∀ nested, group_getNestedFlower group = some nested →
          group_getTotalBaseLength group = flower_getTotalBaseLength nested) ∧
        (group_getNestedFlower group = none → group_getTotalBaseLength group ≥ 0) :=
  ⟨by decide, checkBasesAccountedFor_groups accountedFlower (by decide)⟩

/-- C8 as stated fails at `accountedFlower`: the check completes, yet its group
has no nested flower and records 4 bases, not zero. -/
theorem checkBasesAccountedFor_leaf_group_nonzero :
    completes (checkBasesAccountedFor accountedFlower) = true ∧
      ∃ group ∈ flower_getGroupIterator accountedFlower,
        group_getNestedFlower group = none ∧ group_getTotalBaseLength group = 4 ∧
          group_getTotalBaseLength group ≠ 0 := by
  refine ⟨by decide, _, List.mem_singleton_self _, rfl, rfl, ?_⟩
  decide

/-- C4 as stated fails at `blocksNotBuiltFlower`: the check faults although the
flower has one block and no group. -/
theorem checkNetIsNotRedundant_faults_with_blocks :
    checkNetIsNotRedundant blocksNotBuiltFlower = Except.error Fault.blocksNotBuilt ∧
      completes (checkNetIsNotRedundant blocksNotBuiltFlower) = false ∧
      ¬ (flower_getBlockNumber blocksNotBuiltFlower = 0 ∧
          flower_getGroupNumber blocksNotBuiltFlower = 1 ∧
          flower_isLeaf blocksNotBuiltFlower = false) :=
  ⟨rfl, by decide, by decide⟩

/-! ## `checkChainsAreMaximal` -/

theorem chainsAreMaximal_loop (net : Flower) (ends : List End) :
    completes (checkChainsAreMaximal.loop net ends) = ends.all (endMaximal net) := by
  induction ends with
  | nil => rfl
  | cons e rest ih =>
    simp only [checkChainsAreMaximal.loop, List.all_cons, endMaximal]
    cases end_getOrientation e <;> cases (end_isStubEnd e && end_isAttached e) <;>
      cases group_getLink (end_getGroup e) with
      | none => simp [assert, bind, Except.bind, completes_error, ih]
      | some link =>
        cases flower_isLeaf net <;>
          by_cases hc : chain_getLength (link_getChain link) = 1 <;>
          simp [assert, bind, Except.bind, completes_error, ih, hc]

theorem chainsAreMaximal_eq (net : Flower) :
    completes (checkChainsAreMaximal net) =
      ((flower_getParentGroup net).isNone ||
        (flower_getEndIterator net).all (endMaximal net)) := by
  unfold checkChainsAreMaximal
  cases flower_getParentGroup net <;> simp [completes_ok, chainsAreMaximal_loop]

/-- C2 (amended). On a root flower (one without a parent group)
`checkChainsAreMaximal` checks nothing and completes. On a nested flower (one
with a parent group) on which it completes without a fault, every attached stub
end whose group has a link lies in a leaf flower and that link's chain has
length 1; so a nested flower with an attached stub end whose group's link
belongs to a chain of 2 links makes the check fault. -/
theorem checkChainsAreMaximal_parent_guard (F : Flower) :
    (flower_getParentGroup F = none → checkChainsAreMaximal F = Except.ok ()) ∧
    (flower_getParentGroup F ≠ none →
      (completes (checkChainsAreMaximal F) = true →
        ∀ e ∈ flower_getEndIterator F, end_isStubEnd e = true → end_isAttached e = true →
          ∀ link, group_getLink (end_getGroup e) = some link →
            flower_isLeaf F = true ∧ chain_getLength (link_getChain link) = 1) ∧
      ((∃ e ∈ flower_getEndIterator F, end_isStubEnd e = true ∧ end_isAttached e = true ∧
          ∃ link, group_getLink (end_getGroup e) = some link ∧
            chain_getLength (link_getChain link) = 2) →
        completes (checkChainsAreMaximal F) = false)) := by
  refine ⟨?_, ?_⟩
  · intro hroot
    unfold checkChainsAreMaximal
    rw [hroot]
  intro hp
  have key : completes (checkChainsAreMaximal F) = true →
      ∀ e ∈ flower_getEndIterator F, end_isStubEnd e = true → end_isAttached e = true →
        ∀ link, group_getLink (end_getGroup e) = some link →
          flower_isLeaf F = true ∧ chain_getLength (link_getChain link) = 1 := by
    intro h e he hs ha link hl
    rw [chainsAreMaximal_eq] at h
    cases hpg : flower_getParentGroup F with
    | none => exact absurd hpg hp
    | some parent =>
      rw [hpg] at h
      simp only [Option.isNone_some, Bool.false_or] at h
      have hm := List.all_eq_true.mp h e he
      simp only [endMaximal, hs, ha, hl, Bool.and_self, Bool.not_true, Bool.false_or,
        Bool.and_eq_true, beq_iff_eq] at hm
      exact hm.2
  refine ⟨key, ?_⟩
  rintro ⟨e, he, hs, ha, link, hl, h2⟩
  cases hc : completes (checkChainsAreMaximal F) with
  | false => rfl
  | true =>
    have h1 := (key hc e he hs ha link hl).2
    rw [h1] at h2
    exact absurd h2 (by decide)

/-- C2 (amended) at `rootWithTwoLinkChain`, a root flower, where the check
returns at once; at `nestedWithOneLinkChain`, where it completes; and at
`nestedWithTwoLinkChain`, where it faults. -/
theorem checkChainsAreMaximal_parent_guard_witness :
    checkChainsAreMaximal rootWithTwoLinkChain = Except.ok () ∧
    (completes (checkChainsAreMaximal nestedWithOneLinkChain) = true ∧
      ∀ e ∈ flower_getEndIterator nestedWithOneLinkChain,
        end_isStubEnd e = true → end_isAttached e = true →
        ∀ link, group_getLink (end_getGroup e) = some link →
          flower_isLeaf nestedWithOneLinkChain = true ∧
            chain_getLength (link_getChain link) = 1) ∧
    completes (checkChainsAreMaximal nestedWithTwoLinkChain) = false :=
  ⟨(checkChainsAreMaximal_parent_guard rootWithTwoLinkChain).1 rfl,
    ⟨by decide,
      ((checkChainsAreMaximal_parent_guard nestedWithOneLinkChain).2 (by decide)).1 (by decide)⟩,
    ((checkChainsAreMaximal_parent_guard nestedWithTwoLinkChain).2 (by decide)).2
      ⟨attachedStub 1 groupInTwoLinkChain, by decide, rfl, rfl,
        { chain := twoLinkChain }, rfl, rfl⟩⟩

/-- C2 as stated fails at `rootWithTwoLinkChain`: the flower has no parent
group, so the check completes, although it holds an attached stub end whose
group's link belongs to a chain of two links. -/
theorem checkChainsAreMaximal_root_unchecked :
    flower_getParentGroup rootWithTwoLinkChain = none ∧
    completes (checkChainsAreMaximal rootWithTwoLinkChain) = true ∧
      ∃ e ∈ flower_getEndIterator rootWithTwoLinkChain,
        end_isStubEnd e = true ∧ end_isAttached e = true ∧
        ∃ link, group_getLink (end_getGroup e) = some link ∧
          chain_getLength (link_getChain link) = 2 ∧
          ¬ (flower_isLeaf rootWithTwoLinkChain = true ∧
              chain_getLength (link_getChain link) = 1) :=
  ⟨rfl, by decide, attachedStub 1 groupInTwoLinkChain, by decide, rfl, rfl,
    { chain := twoLinkChain }, rfl, rfl, by decide⟩

/-! ## Induction over the nesting tree -/

mutual
theorem Flower.nested_induction_flower {P : Flower → Prop}
    (step : ∀ F, (∀ group ∈ flower_getGroupIterator F, ∀ N,
      group_getNestedFlower group = some N → P N) → P F) : ∀ F, P F
  | .mk data ends blocks groups =>
    step (.mk data ends blocks groups) (Flower.nested_induction_groups step groups)
theorem Flower.nested_induction_groups {P : Flower → Prop}
    (step : ∀ F, (∀ group ∈ flower_getGroupIterator F, ∀ N,
      group_getNestedFlower group = some N → P N) → P F) :
    ∀ groups : List Group, ∀ group ∈ groups, ∀ N, group_getNestedFlower group = some N → P N
  | [] => fun _ h => absurd h (List.not_mem_nil _)
  | head :: rest => fun group h N hN =>
    (List.mem_cons.mp h).elim
      (fun heq => Flower.nested_induction_group step head N (heq ▸ hN))
      (fun hmem => Flower.nested_induction_groups step rest group hmem N hN)
theorem Flower.nested_induction_group {P : Flower → Prop}
    (step : ∀ F, (∀ group ∈ flower_getGroupIterator F, ∀ N,
      group_getNestedFlower group = some N → P N) → P F) :
    ∀ group : Group, ∀ N, group_getNestedFlower group = some N → P N
  | .mk _ none => fun _ h => absurd h (by simp [group_getNestedFlower])
  | .mk _ (some nested) => fun N h =>
    (Option.some.inj h) ▸ Flower.nested_induction_flower step nested
end

/-! ## `checkNets` -/

theorem levelChecks_completes (flower_check : Flower → Except Fault Unit) (net : Flower) :
    completes (levelChecks flower_check net) = levelChecksPass flower_check net := by
  simp only [levelChecks, levelChecksPass, completes_seq, Bool.and_assoc]

theorem bind_ok_unit (x : Except Fault Unit) : (do x; Except.ok ()) = x := by
  cases x <;> rfl

theorem checkNets_zero (flower_check : Flower → Except Fault Unit) (net : Flower) :
    checkNets flower_check net 0 = levelChecks flower_check net := by
  obtain ⟨data, ends, blocks, groups⟩ := net
  simp only [checkNets, levelChecks, ne_eq, not_true_eq_false, if_false, bind_ok_unit]

theorem checkNets_completes (flower_check : Flower → Except Fault Unit) (net : Flower)
    (recursive : Int) :
    completes (checkNets flower_check net recursive) =
      (levelChecksPass flower_check net &&
        (decide (recursive = 0) ||
          completes (checkNets.loop flower_check (flower_getGroupIterator net)))) := by
  obtain ⟨data, ends, blocks, groups⟩ := net
  by_cases hr : recursive = 0
  · simp [checkNets, levelChecksPass, completes_seq, hr, completes_ok, Bool.and_assoc]
  · simp [checkNets, levelChecksPass, completes_seq, hr, flower_getGroupIterator,
      Bool.and_assoc]

theorem checkNets_loop_completes (flower_check : Flower → Except Fault Unit)
    (groups : List Group) :
    completes (checkNets.loop flower_check groups) =
      groups.all (fun group => completes (checkNets.visit flower_check group)) := by
  induction groups with
  | nil => simp [checkNets.loop, completes_ok]
  | cons group rest ih => simp only [checkNets.loop, completes_seq, ih, List.all_cons]

theorem checkNets_visit_completes (flower_check : Flower → Except Fault Unit)
    (group : Group) :
    completes (checkNets.visit flower_check group) =
      (group_isLeaf group ||
        match group_getNestedFlower group with
        | some nested => completes (checkNets flower_check nested 1)
        | none => false) := by
  obtain ⟨data, nested⟩ := group
  cases nested <;> cases h : group_isLeaf (Group.mk data _) <;>
    simp [checkNets.visit, h, group_getNestedFlower, completes_ok, completes_error]

theorem checkNets_reachable (flower_check : Flower → Except Fault Unit) (F F' : Flower)
    (hreach : Reachable F F') (h : completes (checkNets flower_check F 1) = true) :
    levelChecksPass flower_check F' = true := by
  induction hreach with
  | refl F =>
    rw [checkNets_completes] at h
    exact (Bool.and_eq_true_iff.mp h).1
  | @step F N F' group hmem hleaf hnested _ ih =>
    apply ih
    rw [checkNets_completes, checkNets_loop_completes] at h
    have hloop := (Bool.and_eq_true_iff.mp h).2
    simp only [show decide ((1 : Int) = 0) = false by decide, Bool.false_or] at hloop
    have hvisit := List.all_eq_true.mp hloop group hmem
    rw [checkNets_visit_completes, hleaf, hnested] at hvisit
    simpa using hvisit

theorem checkNets_of_reachable (flower_check : Flower → Except Fault Unit) :
    ∀ F : Flower, (∀ F', Reachable F F' → levelChecksPass flower_check F' = true) →
      completes (checkNets flower_check F 1) = true := by
  apply Flower.nested_induction_flower
  intro F ih hall
  have hlevel := hall F (Reachable.refl F)
  rw [checkNets_completes, checkNets_loop_completes, hlevel]
  simp only [show decide ((1 : Int) = 0) = false by decide, Bool.false_or, Bool.true_and,
    List.all_eq_true]
  intro group hmem
  rw [checkNets_visit_completes]
  cases hleaf : group_isLeaf group with
  | true => rfl
  | false =>
    have hbases : completes (checkBasesAccountedFor F) = true := by
      simp only [levelChecksPass, Bool.and_eq_true] at hlevel
      exact hlevel.1.1.1.2
    have hacc := ((basesAccountedFor_iff F).mp hbases).1 group hmem
    cases hn : group_getNestedFlower group with
    | none => simp [groupAccounted, hn, hleaf] at hacc
    | some nested =>
      simp only [Bool.false_or]
      exact ih group hmem nested hn
        (fun F' hr => hall F' (Reachable.step hmem hleaf hn hr))

/-- C5. The driver `checkNets` is a total function on flowers with a finite
nesting tree. It completes without a fault exactly when `flower_check` and the
six per-level checks all pass on the flower and, when the recursive flag is
non-zero, also on every flower reachable from it through nested flowers of
non-leaf groups; with the flag zero it is the run of the checks on the flower
alone. -/
theorem checkNets_completes_iff (flower_check : Flower → Except Fault Unit) (F : Flower)
    (r : Int) :
    (completes (checkNets flower_check F r) = true ↔
      levelChecksPass flower_check F = true ∧
        (r ≠ 0 → ∀ F', Reachable F F' → levelChecksPass flower_check F' = true)) ∧
    checkNets flower_check F 0 = levelChecks flower_check F := by
  refine ⟨?_, checkNets_zero flower_check F⟩
  by_cases hr : r = 0
  · subst hr
    rw [checkNets_completes]
    simp
  · have h1 : completes (checkNets flower_check F r) =
        completes (checkNets flower_check F 1) := by
      rw [checkNets_completes, checkNets_completes]
      simp [hr]
    rw [h1]
    constructor
    · intro h
      exact ⟨checkNets_reachable flower_check F F (Reachable.refl F) h,
        fun _ F' hreach => checkNets_reachable flower_check F F' hreach h⟩
    · intro h
      exact checkNets_of_reachable flower_check F (h.2 hr)

/-! ## Independence of the enumeration order -/

theorem perm_all_eq {α : Type} (p : α → Bool) {l l' : List α} (h : l.Perm l') :
    l.all p = l'.all p := by
  rw [Bool.eq_iff_iff]
  simp only [List.all_eq_true]
  exact ⟨fun H x hx => H x (h.mem_iff.mpr hx), fun H x hx => H x (h.mem_iff.mp hx)⟩

theorem all_of_summary (p : GroupData × Option FlowerData → Bool) {groups groups' : List Group}
    (h : (groups.map Group.summary).Perm (groups'.map Group.summary)) :
    groups.all (fun group => p group.summary) = groups'.all (fun group => p group.summary) := by
  have key : ∀ l l' : List Group, (l.map Group.summary).Perm (l'.map Group.summary) →
      (∀ group ∈ l, p group.summary = true) → ∀ group ∈ l', p group.summary = true := by
    intro l l' hperm H group hmem
    have h1 : group.summary ∈ l.map Group.summary :=
      hperm.mem_iff.mpr (List.mem_map_of_mem _ hmem)
    obtain ⟨g0, hg0, heq⟩ := List.mem_map.mp h1
    rw [← heq]
    exact H g0 hg0
  rw [Bool.eq_iff_iff]
  simp only [List.all_eq_true]
  exact ⟨key groups groups' h, key groups' groups h.symm⟩

theorem sum_of_summary (f : GroupData × Option FlowerData → Int) {groups groups' : List Group}
    (h : (groups.map Group.summary).Perm (groups'.map Group.summary)) :
    (groups.map (fun group => f group.summary)).sum =
      (groups'.map (fun group => f group.summary)).sum := by
  have := (h.map f).sum_eq
  simpa [List.map_map] using this

theorem groupAccounted_summary (group : Group) :
    groupAccounted group =
      (fun s : GroupData × Option FlowerData =>
        (match s.2 with
          | some nested => !s.1.leaf && nested.totalBaseLength == s.1.totalBaseLength
          | none => s.1.leaf) && decide (s.1.totalBaseLength ≥ 0)) group.summary := by
  obtain ⟨data, nested⟩ := group
  cases nested <;> rfl

theorem basesAccountedFor_eq (net : Flower) :
    completes (checkBasesAccountedFor net) =
      ((flower_getGroupIterator net).all groupAccounted &&
        decide (blockBasesOf net + childBasesOf net = flower_getTotalBaseLength net)) := by
  rw [Bool.eq_iff_iff, basesAccountedFor_iff]
  simp

theorem levelChecksPass_congr (flower_check : Flower → Except Fault Unit) (F F' : Flower)
    (hfc : completes (flower_check F) = completes (flower_check F'))
    (hd : F'.data = F.data)
    (he : (flower_getEndIterator F).Perm (flower_getEndIterator F'))
    (hb : (flower_getBlockIterator F).Perm (flower_getBlockIterator F'))
    (hg : ((flower_getGroupIterator F).map Group.summary).Perm
      ((flower_getGroupIterator F').map Group.summary)) :
    levelChecksPass flower_check F = levelChecksPass flower_check F' := by
  have hparent : flower_getParentGroup F = flower_getParentGroup F' := by
    simp only [flower_getParentGroup, hd]
  have htotal : flower_getTotalBaseLength F = flower_getTotalBaseLength F' := by
    simp only [flower_getTotalBaseLength, hd]
  have hbuilt : flower_builtBlocks F = flower_builtBlocks F' := by
    simp only [flower_builtBlocks, hd]
  have hendn : flower_getEndNumber F = flower_getEndNumber F' := he.length_eq
  have hblockn : flower_getBlockNumber F = flower_getBlockNumber F' := hb.length_eq
  have hgroupn : flower_getGroupNumber F = flower_getGroupNumber F' := by
    have := hg.length_eq
    simpa [flower_getGroupNumber] using this
  have hleaf : flower_isLeaf F = flower_isLeaf F' := by
    have h1 : ∀ G : Flower, flower_isLeaf G =
        (flower_getGroupIterator G).all (fun group =>
          (fun s : GroupData × Option FlowerData => s.2.isNone) group.summary) := by
      intro G
      simp only [flower_isLeaf, Group.summary]
      congr 1
      funext group
      cases group_getNestedFlower group <;> rfl
    rw [h1 F, h1 F']
    exact all_of_summary (fun s => s.2.isNone) hg
  have hterminal : flower_isTerminal F = flower_isTerminal F' := by
    simp only [flower_isTerminal, hleaf, perm_all_eq end_isStubEnd he]
  have hgroupsLeaf : (flower_getGroupIterator F).all group_isLeaf =
      (flower_getGroupIterator F').all group_isLeaf :=
    all_of_summary (fun s => s.1.leaf) hg
  have hgroupsEnds :
      (flower_getGroupIterator F).all (fun group => decide (group_getEndNumber group > 0)) =
      (flower_getGroupIterator F').all (fun group => decide (group_getEndNumber group > 0)) :=
    all_of_summary (fun s => decide (s.1.ends.length > 0)) hg
  have hgroupsAcc : (flower_getGroupIterator F).all groupAccounted =
      (flower_getGroupIterator F').all groupAccounted := by
    have h1 : groupAccounted = fun group =>
        (fun s : GroupData × Option FlowerData =>
          (match s.2 with
            | some nested => !s.1.leaf && nested.totalBaseLength == s.1.totalBaseLength
            | none => s.1.leaf) && decide (s.1.totalBaseLength ≥ 0)) group.summary :=
      funext groupAccounted_summary
    rw [h1]
    exact all_of_summary (fun s =>
      (match s.2 with
        | some nested => !s.1.leaf && nested.totalBaseLength == s.1.totalBaseLength
        | none => s.1.leaf) && decide (s.1.totalBaseLength ≥ 0)) hg
  have hchild : childBasesOf F = childBasesOf F' :=
    sum_of_summary (fun s => s.1.totalBaseLength) hg
  have hblock : blockBasesOf F = blockBasesOf F' := (hb.map sequencedLength).sum_eq
  have hmax : (flower_getEndIterator F).all (endMaximal F) =
      (flower_getEndIterator F').all (endMaximal F') := by
    have h1 : endMaximal F = endMaximal F' := by
      funext e
      simp only [endMaximal, hleaf]
    rw [h1]
    exact perm_all_eq _ he
  simp only [levelChecksPass, notEmpty_eq, checkGroupsNotEmpty, groupsNotEmpty_loop,
    basesAccountedFor_eq, terminalNormalised_eq, chainsAreMaximal_eq, notRedundant_eq,
    hfc, hparent, htotal, hbuilt, hendn, hblockn, hgroupn, hleaf, hterminal, hgroupsLeaf,
    hgroupsEnds, hgroupsAcc, hchild, hblock, hmax]

theorem reordered_data (F F' : Flower) (h : Flower.Reordered F F') : F'.data = F.data := by
  obtain ⟨data, ends, blocks, groups⟩ := F
  simp only [Flower.Reordered] at h
  exact h.1

theorem data_mk (data : GroupData) (nested : Option Flower) :
    (Group.mk data nested).data = data := rfl

theorem getNestedFlower_mk (data : GroupData) (nested : Option Flower) :
    group_getNestedFlower (Group.mk data nested) = nested := rfl

theorem reordered_summary (group group' : Group) (h : Group.Reordered group group') :
    group'.summary = group.summary := by
  obtain ⟨data, nested⟩ := group
  cases nested with
  | none =>
    simp only [Group.Reordered] at h
    simp [Group.summary, h.1, h.2, data_mk, getNestedFlower_mk]
  | some nested =>
    simp only [Group.Reordered] at h
    obtain ⟨hd, nested', hn, hr⟩ := h
    simp [Group.summary, hd, hn, reordered_data nested nested' hr, data_mk,
      getNestedFlower_mk]

theorem reorderedEach_summary :
    ∀ groups groups' : List Group, Group.ReorderedEach groups groups' →
      groups'.map Group.summary = groups.map Group.summary
  | [], groups', h => by
    simp only [Group.ReorderedEach] at h
    simp [h]
  | group :: rest, groups', h => by
    simp only [Group.ReorderedEach] at h
    obtain ⟨group', rest', heq, hg, hrest⟩ := h
    subst heq
    simp [reordered_summary group group' hg, reorderedEach_summary rest rest' hrest]

theorem reorderedEach_all (p : Group → Bool) :
    ∀ groups groups' : List Group, Group.ReorderedEach groups groups' →
      (∀ group ∈ groups, ∀ group', Group.Reordered group group' → p group = p group') →
      groups.all p = groups'.all p
  | [], groups', h, _ => by
    simp only [Group.ReorderedEach] at h
    simp [h]
  | group :: rest, groups', h, hp => by
    simp only [Group.ReorderedEach] at h
    obtain ⟨group', rest', heq, hg, hrest⟩ := h
    subst heq
    simp only [List.all_cons]
    rw [hp group (List.mem_cons_self _ _) group' hg,
      reorderedEach_all p rest rest' hrest
        (fun g hmem g' hr => hp g (List.mem_cons_of_mem _ hmem) g' hr)]

theorem checkNets_reordered (flower_check : Flower → Except Fault Unit)
    (hfc : ∀ A B, Flower.Reordered A B →
      completes (flower_check A) = completes (flower_check B)) :
    ∀ F F' : Flower, Flower.Reordered F F' →
      completes (checkNets flower_check F 1) = completes (checkNets flower_check F' 1) := by
  apply Flower.nested_induction_flower
  intro F ih F' hre
  have hfcF := hfc F F' hre
  have hd := reordered_data F F' hre
  obtain ⟨data, ends, blocks, groups⟩ := F
  simp only [Flower.Reordered] at hre
  obtain ⟨-, he, hb, groups'', heach, hperm⟩ := hre
  have hg : ((flower_getGroupIterator (Flower.mk data ends blocks groups)).map
      Group.summary).Perm ((flower_getGroupIterator F').map Group.summary) := by
    have h1 := reorderedEach_summary groups groups'' heach
    have h2 := hperm.map Group.summary
    rw [h1] at h2
    exact h2
  have hlevel := levelChecksPass_congr flower_check _ F' hfcF hd he hb hg
  rw [checkNets_completes, checkNets_completes, checkNets_loop_completes,
    checkNets_loop_completes, hlevel]
  congr 2
  have hvisit : groups.all (fun group => completes (checkNets.visit flower_check group)) =
      groups''.all (fun group => completes (checkNets.visit flower_check group)) := by
    apply reorderedEach_all _ groups groups'' heach
    intro group hmem group' hr
    rw [checkNets_visit_completes, checkNets_visit_completes]
    obtain ⟨gdata, nested⟩ := group
    cases nested with
    | none =>
      simp only [Group.Reordered] at hr
      simp [group_isLeaf, getNestedFlower_mk, hr.1, hr.2, data_mk]
    | some nested =>
      simp only [Group.Reordered] at hr
      obtain ⟨hgd, nested', hn, hrn⟩ := hr
      have := ih (Group.mk gdata (some nested)) hmem nested rfl nested' hrn
      simp [group_isLeaf, getNestedFlower_mk, hgd, hn, data_mk, this]
  exact hvisit.trans (perm_all_eq _ hperm)

/-- C6. Whether `checkNets(F, 1)` completes without a fault does not depend on
the order in which the group, end and block iterators enumerate the groups,
ends and blocks of the flower or of any nested flower, provided the outcome of
`flower_check` does not depend on it either. -/
theorem checkNets_order_independent (flower_check : Flower → Except Fault Unit)
    (hfc : ∀ A B, Flower.Reordered A B →
      completes (flower_check A) = completes (flower_check B))
    (F F' : Flower) (h : Flower.Reordered F F') :
    completes (checkNets flower_check F 1) = completes (checkNets flower_check F' 1) :=
  checkNets_reordered flower_check hfc F F' h

theorem innerFlower_reordered : Flower.Reordered innerFlower innerFlowerReordered := by
  simp only [innerFlower, innerFlowerReordered, Flower.Reordered]
  refine ⟨rfl, List.Perm.swap _ _ _, List.Perm.refl _, [Group.mk innerGroup none], ?_,
    List.Perm.refl _⟩
  simp [Group.ReorderedEach, Group.Reordered, data_mk, getNestedFlower_mk]

theorem outerFlower_reordered : Flower.Reordered outerFlower outerFlowerReordered := by
  simp only [outerFlower, outerFlowerReordered, Flower.Reordered]
  refine ⟨rfl, by decide, List.Perm.refl _,
    [Group.mk outerNestingGroup (some innerFlowerReordered), Group.mk outerLeafGroup none],
    ?_, List.Perm.swap _ _ _⟩
  simp only [Group.ReorderedEach, Group.Reordered]
  exact ⟨_, _, rfl, ⟨rfl, _, rfl, innerFlower_reordered⟩, _, _, rfl, ⟨rfl, rfl⟩, rfl⟩

/-- C6 at `outerFlower` and `outerFlowerReordered`: both runs complete. -/
theorem checkNets_order_independent_witness :
    Flower.Reordered outerFlower outerFlowerReordered ∧
      completes (checkNets flowerCheckPasses outerFlower 1) = true ∧
      completes (checkNets flowerCheckPasses outerFlower 1) =
        completes (checkNets flowerCheckPasses outerFlowerReordered 1) :=
  ⟨outerFlower_reordered, by decide,
    checkNets_order_independent flowerCheckPasses (fun _ _ _ => rfl) outerFlower
      outerFlowerReordered outerFlower_reordered⟩

/-! ## Scenario A -/

/-- C7 (amended). On a flower with exactly two ends, both stub ends, no block and
exactly one group, a leaf group without a nested flower that contains both
ends, `flower_isTerminal` is true, and `checkNets` completes, for either value
of the recursive flag, exactly when `flower_check` passes, `flower_builtBlocks`
is set, the group's total base length is non-negative and is the flower's, and
the flower has no parent group or both ends are positively oriented and any
attached one lies in no link or in a link whose chain has length 1. -/
theorem checkNets_scenarioA (flower_check : Flower → Except Fault Unit) (F : Flower)
    (e1 e2 : End) (group : Group) (r : Int)
    (hends : flower_getEndIterator F = [e1, e2])
    (hstub1 : end_isStubEnd e1 = true) (hstub2 : end_isStubEnd e2 = true)
    (hblocks : flower_getBlockNumber F = 0)
    (hgroups : flower_getGroupIterator F = [group])
    (hin1 : end_getGroup e1 = group.data) (hin2 : end_getGroup e2 = group.data)
    (hcontains : group.data.ends = [e1.name, e2.name])
    (hleaf : group_isLeaf group = true) (hnested : group_getNestedFlower group = none) :
    flower_isTerminal F = true ∧
    (completes (checkNets flower_check F r) = true ↔
      completes (flower_check F) = true ∧ flower_builtBlocks F = true ∧
      0 ≤ group_getTotalBaseLength group ∧
      flower_getTotalBaseLength F = group_getTotalBaseLength group ∧
      (flower_getParentGroup F = none ∨
        ∀ e ∈ [e1, e2], end_getOrientation e = true ∧
          (end_isAttached e = true → ∀ link, group_getLink group.data = some link →
            chain_getLength (link_getChain link) = 1))) := by
  have hisLeaf : flower_isLeaf F = true := by
    simp [flower_isLeaf, hgroups, hnested]
  have hterm : flower_isTerminal F = true := by
    simp [flower_isTerminal, hisLeaf, hends, hstub1, hstub2]
  have hnil : flower_getBlockIterator F = [] := List.length_eq_zero.mp hblocks
  refine ⟨hterm, ?_⟩
  have hloop : completes (checkNets.loop flower_check [group]) = true := by
    simp [checkNets_loop_completes, checkNets_visit_completes, hleaf]
  have hendn : flower_getEndNumber F = 2 := by simp [flower_getEndNumber, hends]
  have hgroupn : flower_getGroupNumber F = 1 := by simp [flower_getGroupNumber, hgroups]
  have hgends : group_getEndNumber group = 2 := by simp [group_getEndNumber, hcontains]
  have hbb : blockBasesOf F = 0 := by simp [blockBasesOf, hnil]
  have hcb : childBasesOf F = group_getTotalBaseLength group := by
    simp [childBasesOf, hgroups]
  have hacc : groupAccounted group = decide (group_getTotalBaseLength group ≥ 0) := by
    simp [groupAccounted, hnested, hleaf]
  have hmax : ∀ e, end_isStubEnd e = true → end_getGroup e = group.data →
      (endMaximal F e = true ↔ end_getOrientation e = true ∧
        (end_isAttached e = true → ∀ link, group_getLink group.data = some link →
          chain_getLength (link_getChain link) = 1)) := by
    intro e hs hin
    simp only [endMaximal, hs, hin, hisLeaf, Bool.true_and, Bool.and_eq_true,
      Bool.or_eq_true, Bool.not_eq_true']
    cases end_isAttached e <;> cases group_getLink group.data <;> simp
  rw [checkNets_completes, hgroups, hloop]
  simp only [levelChecksPass, notEmpty_eq, checkGroupsNotEmpty, groupsNotEmpty_loop,
    basesAccountedFor_eq, terminalNormalised_eq, chainsAreMaximal_eq, notRedundant_eq,
    hisLeaf, hterm, hblocks, hgroups, hends, hendn, hgroupn, hgends, hbb, hcb, hacc,
    List.all_cons, List.all_nil, hleaf, Bool.and_eq_true, Bool.or_eq_true,
    decide_eq_true_eq, List.mem_cons, forall_eq_or_imp, hmax e1 hstub1 hin1,
    hmax e2 hstub2 hin2]
  simp
  constructor
  · rintro ⟨⟨⟨h1, h2, h3⟩, h4⟩, h5⟩
    exact ⟨h1, h5, h2, h3.symm, h4⟩
  · rintro ⟨h1, h5, h2, h3, h4⟩
    exact ⟨⟨⟨h1, h2, h3.symm⟩, h4⟩, h5⟩

/-- C7 (amended) at `scenarioA`, with a `flower_check` that passes: the flower is
terminal and `checkNets` completes for both values of the recursive flag. -/
theorem checkNets_scenarioA_witness :
    flower_isTerminal scenarioA = true ∧
      completes (checkNets flowerCheckPasses scenarioA 0) = true ∧
      completes (checkNets flowerCheckPasses scenarioA 1) = true :=
  ⟨(checkNets_scenarioA flowerCheckPasses scenarioA (freeStub 1 stubPairGroup)
      (freeStub 2 stubPairGroup) (Group.mk stubPairGroup none) 0
      rfl rfl rfl rfl rfl rfl rfl rfl rfl rfl).1,
    ((checkNets_scenarioA flowerCheckPasses scenarioA (freeStub 1 stubPairGroup)
      (freeStub 2 stubPairGroup) (Group.mk stubPairGroup none) 0
      rfl rfl rfl rfl rfl rfl rfl rfl rfl rfl).2).mpr
      ⟨rfl, rfl, by decide, rfl, Or.inl rfl⟩,
    ((checkNets_scenarioA flowerCheckPasses scenarioA (freeStub 1 stubPairGroup)
      (freeStub 2 stubPairGroup) (Group.mk stubPairGroup none) 1
      rfl rfl rfl rfl rfl rfl rfl rfl rfl rfl).2).mpr
      ⟨rfl, rfl, by decide, rfl, Or.inl rfl⟩⟩

/-- C7 as stated fails at `scenarioAFresh`: the flower has two stub ends, no
block and one leaf group without a nested flower that contains both ends, and
it is terminal, yet `checkNets` stops at `assert(flower_builtBlocks(net))` for
both values of the recursive flag, even with a `flower_check` that passes. -/
theorem checkNets_scenarioA_blocks_not_built :
    flower_getEndIterator scenarioAFresh =
        [freeStub 1 stubPairGroup, freeStub 2 stubPairGroup] ∧
      end_isStubEnd (freeStub 1 stubPairGroup) = true ∧
      end_isStubEnd (freeStub 2 stubPairGroup) = true ∧
      flower_getBlockNumber scenarioAFresh = 0 ∧
      flower_getGroupIterator scenarioAFresh = [Group.mk stubPairGroup none] ∧
      end_getGroup (freeStub 1 stubPairGroup) = stubPairGroup ∧
      end_getGroup (freeStub 2 stubPairGroup) = stubPairGroup ∧
      stubPairGroup.ends = [(freeStub 1 stubPairGroup).name, (freeStub 2 stubPairGroup).name] ∧
      group_isLeaf (Group.mk stubPairGroup none) = true ∧
      group_getNestedFlower (Group.mk stubPairGroup none) = none ∧
      flower_isTerminal scenarioAFresh = true ∧
      checkNets flowerCheckPasses scenarioAFresh 0 = Except.error Fault.blocksNotBuilt ∧
      checkNets flowerCheckPasses scenarioAFresh 1 = Except.error Fault.blocksNotBuilt :=
  ⟨rfl, rfl, rfl, rfl, rfl, rfl, rfl, rfl, rfl, rfl, rfl, rfl, rfl⟩

/-! ## The terminal normaliser -/

theorem makeTerminalNormal_loop_calls (newFlower : Group → Flower) (groups : List Group) :
    (makeTerminalNormal.loop newFlower groups).2 = groups.filter group_isLeaf := by
  induction groups with
  | nil => rfl
  | cons group rest ih =>
    cases h : group_isLeaf group <;> simp [makeTerminalNormal.loop, h, ih]

theorem makeTerminalNormal_loop_groups (newFlower : Group → Flower) (groups : List Group) :
    (makeTerminalNormal.loop newFlower groups).1 =
      groups.map (fun group =>
        if group_isLeaf group then
          makeTerminalNormal.setBuilt (group_makeNestedFlower newFlower group)
        else group) := by
  induction groups with
  | nil => rfl
  | cons group rest ih =>
    cases h : group_isLeaf group <;> simp [makeTerminalNormal.loop, h, ih]

theorem makeTerminalNormal_made (newFlower : Group → Flower) (group : Group) :
    group_isLeaf (makeTerminalNormal.setBuilt (group_makeNestedFlower newFlower group)) = false ∧
      group_getNestedFlower (makeTerminalNormal.setBuilt (group_makeNestedFlower newFlower group)) =
        some (flower_setBuiltBlocks (newFlower group) true) ∧
      flower_builtBlocks (flower_setBuiltBlocks (newFlower group) true) = true := by
  obtain ⟨data, nested⟩ := group
  refine ⟨rfl, rfl, ?_⟩
  generalize newFlower (Group.mk data nested) = N
  obtain ⟨d, es, bs, gs⟩ := N
  rfl

/-- C11. The body of the terminal normaliser leaves a terminal flower as it is.
On a flower that is not terminal it calls `group_makeNestedFlower` on the leaf
groups, once each and in the order of the iterator, and on no other group; it
sets the `builtBlocks` flag of every nested flower so created; the other
groups, the ends, the blocks and the attributes of the flower are unchanged;
and afterwards no group of the flower is a leaf group. -/
theorem makeTerminalNormal_body_spec (newFlower : Group → Flower) (F : Flower) :
    (flower_isTerminal F = true → makeTerminalNormal.body newFlower F = (F, [])) ∧
    (flower_isTerminal F = false →
      (makeTerminalNormal.body newFlower F).2 =
        (flower_getGroupIterator F).filter group_isLeaf ∧
      flower_getGroupIterator (makeTerminalNormal.body newFlower F).1 =
        (flower_getGroupIterator F).map (fun group =>
          if group_isLeaf group then
            makeTerminalNormal.setBuilt (group_makeNestedFlower newFlower group)
          else group) ∧
      (∀ group ∈ flower_getGroupIterator F, group_isLeaf group = true →
        group_getNestedFlower
            (makeTerminalNormal.setBuilt (group_makeNestedFlower newFlower group)) =
          some (flower_setBuiltBlocks (newFlower group) true) ∧
        flower_builtBlocks (flower_setBuiltBlocks (newFlower group) true) = true) ∧
      (∀ group ∈ flower_getGroupIterator (makeTerminalNormal.body newFlower F).1,
        group_isLeaf group = false) ∧
      (makeTerminalNormal.body newFlower F).1.data = F.data ∧
      flower_getEndIterator (makeTerminalNormal.body newFlower F).1 =
        flower_getEndIterator F ∧
      flower_getBlockIterator (makeTerminalNormal.body newFlower F).1 =
        flower_getBlockIterator F) := by
  constructor
  · intro h
    simp [makeTerminalNormal.body, h]
  · intro h
    have hgroups : flower_getGroupIterator (makeTerminalNormal.body newFlower F).1 =
        (flower_getGroupIterator F).map (fun group =>
          if group_isLeaf group then
            makeTerminalNormal.setBuilt (group_makeNestedFlower newFlower group)
          else group) := by
      simp [makeTerminalNormal.body, h, flower_getGroupIterator,
        makeTerminalNormal_loop_groups]
    refine ⟨?_, hgroups, ?_, ?_, ?_, ?_, ?_⟩
    · simp [makeTerminalNormal.body, h, makeTerminalNormal_loop_calls]
    · intro group _ _
      exact (makeTerminalNormal_made newFlower group).2
    · intro group hmem
      rw [hgroups] at hmem
      obtain ⟨g0, _, hg0⟩ := List.mem_map.mp hmem
      cases hl : group_isLeaf g0 with
      | true =>
        simp only [hl, if_true] at hg0
        rw [← hg0]
        exact (makeTerminalNormal_made newFlower g0).1
      | false =>
        simp only [hl] at hg0
        rw [← hg0]
        exact hl
    · simp [makeTerminalNormal.body, h, Flower.data]
    · simp [makeTerminalNormal.body, h, flower_getEndIterator]
    · simp [makeTerminalNormal.body, h, flower_getBlockIterator]

/-! ## The MAF generator -/

theorem getMAFBlockP2_rows (nameToString : Name → String) (segment : Segment) :
    ∀ line ∈ getMAFBlockP2 nameToString segment, line.isBlock = false := by
  intro line h
  unfold getMAFBlockP2 at h
  cases hs : segment_getSequence segment with
  | none => simp [hs] at h
  | some sequence =>
    simp only [hs, List.mem_singleton] at h
    rw [h]
    rfl

mutual
theorem getMAFBlockP_rows (nameToString : Name → String) :
    ∀ tree : SegmentTree, ∀ line ∈ getMAFBlockP nameToString tree, line.isBlock = false
  | .node segment children => fun line h =>
    (List.mem_append.mp (by simpa [getMAFBlockP] using h)).elim
      (fun h1 => getMAFBlockP_loop_rows nameToString children line h1)
      (fun h2 => getMAFBlockP2_rows nameToString segment line h2)
theorem getMAFBlockP_loop_rows (nameToString : Name → String) :
    ∀ children : List SegmentTree, ∀ line ∈ getMAFBlockP.loop nameToString children,
      line.isBlock = false
  | [] => fun line h => absurd h (by simp [getMAFBlockP.loop])
  | child :: rest => fun line h =>
    (List.mem_append.mp (by simpa [getMAFBlockP.loop] using h)).elim
      (fun h1 => getMAFBlockP_rows nameToString child line h1)
      (fun h2 => getMAFBlockP_loop_rows nameToString rest line h2)
end

theorem getMAFBlock_loop_rows (nameToString : Name → String) (segments : List Segment) :
    ∀ line ∈ getMAFBlock.loop nameToString segments, line.isBlock = false := by
  induction segments with
  | nil => intro line h; simp [getMAFBlock.loop] at h
  | cons segment rest ih =>
    intro line h
    simp only [getMAFBlock.loop, List.mem_append] at h
    rcases h with h | h
    · exact getMAFBlockP2_rows nameToString segment line h
    · exact ih line h

theorem filter_rows (lines : List MafLine) (h : ∀ line ∈ lines, line.isBlock = false) :
    lines.filter MafLine.isBlock = [] := by
  rw [List.filter_eq_nil_iff]
  intro line hmem
  simp [h line hmem]

theorem getMAFBlock_records (newick : Block → Option String) (nameToString : Name → String)
    (block : Block) (lines : List MafLine)
    (h : getMAFBlock newick nameToString block = Except.ok lines) :
    lines.filter MafLine.isBlock =
      if block_getInstanceNumber block > 0 then [blockRecord newick block] else [] := by
  unfold getMAFBlock at h
  by_cases hi : block_getInstanceNumber block > 0
  · simp only [hi, if_true] at h ⊢
    cases hr : block_getRootInstance block with
    | none =>
      simp only [hr, Except.ok.injEq] at h
      rw [← h]
      simp [List.filter_append, List.filter_cons, MafLine.isBlock, blockRecord, hr,
        filter_rows _ (getMAFBlock_loop_rows nameToString _)]
    | some root =>
      simp only [hr] at h
      cases hn : newick block with
      | none => simp [hn] at h
      | some tree =>
        simp only [hn, Except.ok.injEq] at h
        rw [← h]
        simp [List.filter_append, List.filter_cons, MafLine.isBlock, blockRecord, hr, hn,
          filter_rows _ (getMAFBlockP_rows nameToString root)]
  · simp only [hi, if_false, Except.ok.injEq] at h ⊢
    rw [← h]
    rfl

theorem getMAFs_blockLoop_records (newick : Block → Option String)
    (nameToString : Name → String) (blocks : List Block) :
    ∀ lines, getMAFs.blockLoop newick nameToString blocks = Except.ok lines →
      lines.filter MafLine.isBlock =
        (blocks.filter (fun block => decide (block_getInstanceNumber block > 0))).map
          (blockRecord newick) := by
  induction blocks with
  | nil =>
    intro lines h
    simp only [getMAFs.blockLoop, Except.ok.injEq] at h
    simp [← h]
  | cons block rest ih =>
    intro lines h
    simp only [getMAFs.blockLoop] at h
    cases h1 : getMAFBlock newick nameToString block with
    | error e => simp [h1, bind, Except.bind] at h
    | ok first =>
      cases h2 : getMAFs.blockLoop newick nameToString rest with
      | error e => simp [h1, h2, bind, Except.bind] at h
      | ok more =>
        simp only [h1, h2, bind, Except.bind, Except.ok.injEq] at h
        rw [← h, List.filter_append, getMAFBlock_records newick nameToString block first h1,
          ih more h2]
        by_cases hi : block_getInstanceNumber block > 0 <;> simp [hi, List.filter_cons]

theorem getMAFs_unfold (newick : Block → Option String) (nameToString : Name → String)
    (net : Flower) :
    getMAFs newick nameToString net = (do
      let own ← getMAFs.blockLoop newick nameToString (flower_getBlockIterator net)
      let nested ← getMAFs.groupLoop newick nameToString (flower_getGroupIterator net)
      Except.ok (own ++ nested)) := by
  obtain ⟨data, ends, blocks, groups⟩ := net
  rfl

theorem nestedBlocks_unfold (net : Flower) :
    nestedBlocks net =
      flower_getBlockIterator net ++ nestedBlocks.groups (flower_getGroupIterator net) := by
  obtain ⟨data, ends, blocks, groups⟩ := net
  rfl

theorem getMAFs_visit_eq (newick : Block → Option String) (nameToString : Name → String)
    (group : Group) :
    getMAFs.visit newick nameToString group =
      if group_isLeaf group then Except.ok []
      else match group_getNestedFlower group with
        | some flower => getMAFs newick nameToString flower
        | none => Except.error Fault.nullFlower := by
  obtain ⟨data, nested⟩ := group
  cases h : group_isLeaf (Group.mk data nested) <;> cases nested <;>
    simp [getMAFs.visit, h, getNestedFlower_mk]

theorem nestedBlocks_group_eq (group : Group) :
    nestedBlocks.group group =
      if group_isLeaf group then []
      else match group_getNestedFlower group with
        | some flower => nestedBlocks flower
        | none => [] := by
  obtain ⟨data, nested⟩ := group
  cases h : group_isLeaf (Group.mk data nested) <;> cases nested <;>
    simp [nestedBlocks.group, h, getNestedFlower_mk]

theorem getMAFs_groupLoop_records (newick : Block → Option String)
    (nameToString : Name → String) (groups : List Group)
    (ih : ∀ group ∈ groups, ∀ N, group_getNestedFlower group = some N →
      ∀ out, getMAFs newick nameToString N = Except.ok out →
        out.filter MafLine.isBlock =
          ((nestedBlocks N).filter
            (fun block => decide (block_getInstanceNumber block > 0))).map
              (blockRecord newick)) :
    ∀ lines, getMAFs.groupLoop newick nameToString groups = Except.ok lines →
      lines.filter MafLine.isBlock =
        ((nestedBlocks.groups groups).filter
          (fun block => decide (block_getInstanceNumber block > 0))).map
            (blockRecord newick) := by
  induction groups with
  | nil =>
    intro lines h
    simp only [getMAFs.groupLoop, Except.ok.injEq] at h
    simp [← h, nestedBlocks.groups]
  | cons group rest ihr =>
    intro lines h
    simp only [getMAFs.groupLoop] at h
    cases h1 : getMAFs.visit newick nameToString group with
    | error e => simp [h1, bind, Except.bind] at h
    | ok first =>
      cases h2 : getMAFs.groupLoop newick nameToString rest with
      | error e => simp [h1, h2, bind, Except.bind] at h
      | ok more =>
        simp only [h1, h2, bind, Except.bind, Except.ok.injEq] at h
        have hrest := ihr (fun g hg => ih g (List.mem_cons_of_mem _ hg)) more h2
        have hfirst : first.filter MafLine.isBlock =
            ((nestedBlocks.group group).filter
              (fun block => decide (block_getInstanceNumber block > 0))).map
                (blockRecord newick) := by
          rw [getMAFs_visit_eq] at h1
          rw [nestedBlocks_group_eq]
          cases hl : group_isLeaf group with
          | true =>
            simp only [hl, if_true, Except.ok.injEq] at h1
            simp [← h1]
          | false =>
            cases hn : group_getNestedFlower group with
            | none => simp [hl, hn] at h1
            | some N =>
              simp only [hl, hn] at h1
              simpa [hl] using ih group (List.mem_cons_self _ _) N hn first h1
        rw [← h, List.filter_append, hfirst, hrest]
        simp [nestedBlocks.groups, List.filter_append]

theorem getMAFs_records (newick : Block → Option String) (nameToString : Name → String) :
    ∀ F : Flower, ∀ out, getMAFs newick nameToString F = Except.ok out →
      out.filter MafLine.isBlock =
        ((nestedBlocks F).filter
          (fun block => decide (block_getInstanceNumber block > 0))).map
            (blockRecord newick) := by
  apply Flower.nested_induction_flower
  intro F ih out h
  rw [getMAFs_unfold] at h
  cases h1 : getMAFs.blockLoop newick nameToString (flower_getBlockIterator F) with
  | error e => simp [h1, bind, Except.bind] at h
  | ok own =>
    cases h2 : getMAFs.groupLoop newick nameToString (flower_getGroupIterator F) with
    | error e => simp [h1, h2, bind, Except.bind] at h
    | ok nested =>
      simp only [h1, h2, bind, Except.bind, Except.ok.injEq] at h
      rw [← h, nestedBlocks_unfold, List.filter_append, List.filter_append, List.map_append,
        getMAFs_blockLoop_records newick nameToString _ own h1,
        getMAFs_groupLoop_records newick nameToString _ ih nested h2]

theorem nestedBlocks_groups_mem (groups : List Group) (block : Block) :
    block ∈ nestedBlocks.groups groups ↔
      ∃ group ∈ groups, block ∈ nestedBlocks.group group := by
  induction groups with
  | nil => simp [nestedBlocks.groups]
  | cons group rest ih => simp [nestedBlocks.groups, ih]

theorem nestedBlocks_of_reachable (F F' : Flower) (hreach : Reachable F F') (block : Block)
    (hmem : block ∈ flower_getBlockIterator F') : block ∈ nestedBlocks F := by
  induction hreach with
  | refl F =>
    rw [nestedBlocks_unfold]
    exact List.mem_append_left _ hmem
  | @step F N F' group hg hleaf hnested _ ih =>
    rw [nestedBlocks_unfold]
    apply List.mem_append_right
    rw [nestedBlocks_groups_mem]
    refine ⟨group, hg, ?_⟩
    rw [nestedBlocks_group_eq, hleaf, hnested]
    simpa using ih hmem

theorem reachable_of_nestedBlocks (block : Block) :
    ∀ F : Flower, block ∈ nestedBlocks F →
      ∃ F', Reachable F F' ∧ block ∈ flower_getBlockIterator F' := by
  apply Flower.nested_induction_flower
  intro F ih hmem
  rw [nestedBlocks_unfold, List.mem_append] at hmem
  rcases hmem with hown | hnested
  · exact ⟨F, Reachable.refl F, hown⟩
  · rw [nestedBlocks_groups_mem] at hnested
    obtain ⟨group, hg, hb⟩ := hnested
    rw [nestedBlocks_group_eq] at hb
    cases hl : group_isLeaf group with
    | true => simp [hl] at hb
    | false =>
      cases hn : group_getNestedFlower group with
      | none => simp [hl, hn] at hb
      | some N =>
        simp only [hl, hn] at hb
        obtain ⟨F', hreach, hmem'⟩ := ih group hg N hn (by simpa using hb)
        exact ⟨F', Reachable.step hg hl hn hreach, hmem'⟩

theorem getMAFBlock_returns (newick : Block → Option String) (nameToString : Name → String)
    (block : Block)
    (hnewick : block_getRootInstance block ≠ none → (newick block).isSome = true) :
    ∃ lines, getMAFBlock newick nameToString block = Except.ok lines := by
  unfold getMAFBlock
  by_cases hi : block_getInstanceNumber block > 0
  · cases hr : block_getRootInstance block with
    | none => simp [hi]
    | some root =>
      have := hnewick (by simp [hr])
      obtain ⟨tree, ht⟩ := Option.isSome_iff_exists.mp this
      simp [hi, ht]
  · simp [hi]

theorem getMAFs_blockLoop_returns (newick : Block → Option String)
    (nameToString : Name → String) (blocks : List Block)
    (hnewick : ∀ block ∈ blocks, block_getRootInstance block ≠ none →
      (newick block).isSome = true) :
    ∃ lines, getMAFs.blockLoop newick nameToString blocks = Except.ok lines := by
  induction blocks with
  | nil => exact ⟨[], rfl⟩
  | cons block rest ih =>
    obtain ⟨first, h1⟩ := getMAFBlock_returns newick nameToString block
      (hnewick block (List.mem_cons_self _ _))
    obtain ⟨more, h2⟩ := ih (fun b hb => hnewick b (List.mem_cons_of_mem _ hb))
    exact ⟨first ++ more, by simp [getMAFs.blockLoop, h1, h2, bind, Except.bind]⟩

theorem getMAFs_groupLoop_returns (newick : Block → Option String)
    (nameToString : Name → String) (groups : List Group)
    (h : ∀ group ∈ groups, group_isLeaf group = false →
      ∃ N, group_getNestedFlower group = some N ∧
        ∃ out, getMAFs newick nameToString N = Except.ok out) :
    ∃ lines, getMAFs.groupLoop newick nameToString groups = Except.ok lines := by
  induction groups with
  | nil => exact ⟨[], rfl⟩
  | cons group rest ih =>
    obtain ⟨more, h2⟩ := ih (fun g hg => h g (List.mem_cons_of_mem _ hg))
    have h1 : ∃ first, getMAFs.visit newick nameToString group = Except.ok first := by
      rw [getMAFs_visit_eq]
      cases hl : group_isLeaf group with
      | true => exact ⟨[], by simp⟩
      | false =>
        obtain ⟨N, hN, out, hout⟩ := h group (List.mem_cons_self _ _) hl
        exact ⟨out, by simp [hN, hout]⟩
    obtain ⟨first, h1⟩ := h1
    exact ⟨first ++ more, by simp [getMAFs.groupLoop, h1, h2, bind, Except.bind]⟩

theorem getMAFs_returns (newick : Block → Option String) (nameToString : Name → String) :
    ∀ F : Flower,
      (∀ F', Reachable F F' →
        (∀ block ∈ flower_getBlockIterator F', block_getRootInstance block ≠ none →
          (newick block).isSome = true) ∧
        (∀ group ∈ flower_getGroupIterator F', group_isLeaf group = false →
          (group_getNestedFlower group).isSome = true)) →
      ∃ out, getMAFs newick nameToString F = Except.ok out := by
  apply Flower.nested_induction_flower
  intro F ih hwell
  obtain ⟨own, h1⟩ := getMAFs_blockLoop_returns newick nameToString
    (flower_getBlockIterator F) (hwell F (Reachable.refl F)).1
  obtain ⟨nested, h2⟩ := getMAFs_groupLoop_returns newick nameToString
    (flower_getGroupIterator F) (by
      intro group hg hl
      obtain ⟨N, hN⟩ := Option.isSome_iff_exists.mp ((hwell F (Reachable.refl F)).2 group hg hl)
      exact ⟨N, hN, ih group hg N hN
        (fun F' hr => hwell F' (Reachable.step hg hl hN hr))⟩)
  exact ⟨own ++ nested, by rw [getMAFs_unfold]; simp [h1, h2, bind, Except.bind]⟩

/-- C12. On a flower with a finite nesting tree in which every group that is not
a leaf has its nested flower (and `block_makeNewickString` returns a string for
the blocks that have a root instance), `getMAFs` returns. Among the lines it
prints, the lines `a score=` are, in order, those of the blocks with at least
one instance among the blocks of the flower followed by the blocks of the
flowers reachable from it through nested flowers of non-leaf groups: one line
for each such block, none for a block without instances, and the lines of the
flower's own blocks before those of any nested flower. -/
theorem getMAFs_emits_blocks (block_makeNewickString : Block → Option String)
    (cactusMisc_nameToString : Name → String) (F : Flower)
    (hwell : ∀ F', Reachable F F' →
      (∀ block ∈ flower_getBlockIterator F', block_getRootInstance block ≠ none →
        (block_makeNewickString block).isSome = true) ∧
      (∀ group ∈ flower_getGroupIterator F', group_isLeaf group = false →
        (group_getNestedFlower group).isSome = true)) :
    ∃ own nested,
      getMAFs.blockLoop block_makeNewickString cactusMisc_nameToString
        (flower_getBlockIterator F) = Except.ok own ∧
      getMAFs.groupLoop block_makeNewickString cactusMisc_nameToString
        (flower_getGroupIterator F) = Except.ok nested ∧
      getMAFs block_makeNewickString cactusMisc_nameToString F = Except.ok (own ++ nested) ∧
      own.filter MafLine.isBlock =
        ((flower_getBlockIterator F).filter
          (fun block => decide (block_getInstanceNumber block > 0))).map
            (blockRecord block_makeNewickString) ∧
      nested.filter MafLine.isBlock =
        ((nestedBlocks.groups (flower_getGroupIterator F)).filter
          (fun block => decide (block_getInstanceNumber block > 0))).map
            (blockRecord block_makeNewickString) ∧
      (own ++ nested).filter MafLine.isBlock =
        ((nestedBlocks F).filter
          (fun block => decide (block_getInstanceNumber block > 0))).map
            (blockRecord block_makeNewickString) ∧
      ∀ block, block ∈ nestedBlocks F ↔
        ∃ F', Reachable F F' ∧ block ∈ flower_getBlockIterator F' := by
  obtain ⟨out, hout⟩ := getMAFs_returns block_makeNewickString cactusMisc_nameToString F hwell
  have hout' := hout
  rw [getMAFs_unfold] at hout'
  cases h1 : getMAFs.blockLoop block_makeNewickString cactusMisc_nameToString
      (flower_getBlockIterator F) with
  | error e => simp [h1, bind, Except.bind] at hout'
  | ok own =>
    cases h2 : getMAFs.groupLoop block_makeNewickString cactusMisc_nameToString
        (flower_getGroupIterator F) with
    | error e => simp [h1, h2, bind, Except.bind] at hout'
    | ok nested =>
      simp only [h1, h2, bind, Except.bind, Except.ok.injEq] at hout'
      rw [← hout'] at hout
      refine ⟨own, nested, rfl, rfl, hout,
        getMAFs_blockLoop_records _ _ _ own h1,
        getMAFs_groupLoop_records _ _ _
          (fun group _ N _ out' h => getMAFs_records _ _ N out' h) nested h2,
        getMAFs_records _ _ F _ hout, ?_⟩
      intro block
      exact ⟨reachable_of_nestedBlocks block F,
        fun ⟨F', hr, hm⟩ => nestedBlocks_of_reachable F F' hr block hm⟩

theorem reachable_cases (F F' : Flower) (h : Reachable F F') :
    F' = F ∨ ∃ group ∈ flower_getGroupIterator F, group_isLeaf group = false ∧
      ∃ N, group_getNestedFlower group = some N ∧ Reachable N F' := by
  cases h with
  | refl => exact Or.inl rfl
  | step hg hl hn hr => exact Or.inr ⟨_, hg, hl, _, hn, hr⟩

theorem mafFlower_reachable (F' : Flower) (h : Reachable mafFlower F') :
    F' = mafFlower ∨ F' = mafInnerFlower := by
  rcases reachable_cases _ _ h with h0 | ⟨group, hg, hl, N, hn, hr⟩
  · exact Or.inl h0
  · right
    simp only [mafFlower, flower_getGroupIterator, List.mem_cons, List.mem_singleton,
      List.not_mem_nil, or_false] at hg
    rcases hg with rfl | rfl
    · exact absurd hl (by decide)
    · simp only [getNestedFlower_mk, Option.some.injEq] at hn
      subst hn
      rcases reachable_cases _ _ hr with h1 | ⟨group', hg', _⟩
      · exact h1
      · simp [mafInnerFlower, flower_getGroupIterator] at hg'

theorem mafFlower_well (F' : Flower) (h : Reachable mafFlower F') :
    (∀ block ∈ flower_getBlockIterator F', block_getRootInstance block ≠ none →
      (exampleNewick block).isSome = true) ∧
    (∀ group ∈ flower_getGroupIterator F', group_isLeaf group = false →
      (group_getNestedFlower group).isSome = true) := by
  refine ⟨fun _ _ _ => rfl, ?_⟩
  rcases mafFlower_reachable F' h with rfl | rfl
  · intro group hg hl
    simp only [mafFlower, flower_getGroupIterator, List.mem_cons, List.mem_singleton,
      List.not_mem_nil, or_false] at hg
    rcases hg with rfl | rfl
    · exact absurd hl (by decide)
    · rfl
  · intro group hg
    simp [mafInnerFlower, flower_getGroupIterator] at hg

/-- C12 at `mafFlower`: `getMAFs` prints the block of the flower that has
instances, then the block of the nested flower, and nothing for the block
without instances. -/
theorem getMAFs_emits_blocks_witness :
    (∃ out, getMAFs exampleNewick exampleNameToString mafFlower = Except.ok out ∧
      out.filter MafLine.isBlock =
        [MafLine.block 20 none, MafLine.block 10 (some "(a,b);")]) ∧
    ∃ own nested,
      getMAFs.blockLoop exampleNewick exampleNameToString
        (flower_getBlockIterator mafFlower) = Except.ok own ∧
      getMAFs.groupLoop exampleNewick exampleNameToString
        (flower_getGroupIterator mafFlower) = Except.ok nested ∧
      getMAFs exampleNewick exampleNameToString mafFlower = Except.ok (own ++ nested) ∧
      own.filter MafLine.isBlock =
        ((flower_getBlockIterator mafFlower).filter
          (fun block => decide (block_getInstanceNumber block > 0))).map
            (blockRecord exampleNewick) ∧
      nested.filter MafLine.isBlock =
        ((nestedBlocks.groups (flower_getGroupIterator mafFlower)).filter
          (fun block => decide (block_getInstanceNumber block > 0))).map
            (blockRecord exampleNewick) ∧
      (own ++ nested).filter MafLine.isBlock =
        ((nestedBlocks mafFlower).filter
          (fun block => decide (block_getInstanceNumber block > 0))).map
            (blockRecord exampleNewick) ∧
      ∀ block, block ∈ nestedBlocks mafFlower ↔
        ∃ F', Reachable mafFlower F' ∧ block ∈ flower_getBlockIterator F' :=
  ⟨⟨_, rfl, by decide⟩,
    getMAFs_emits_blocks exampleNewick exampleNameToString mafFlower mafFlower_well⟩

/-- C17. For a segment with a sequence of start `S` and length `L`,
`getMAFBlockP2` prints one row whose start is `segStart - S` on the positive
strand and `(S + L - 1) - segStart` on the negative strand. If the segment lies
inside its sequence, the start is not negative and start plus length is at most
`L`; and on the negative strand a position `x` of the reverse complement lies
in `[start, start + len)` exactly when the forward position `L - 1 - x` lies in
`[segStart - len + 1 - S, segStart - S + 1)`. -/
theorem getMAFBlockP2_start (cactusMisc_nameToString : Name → String) (segment : Segment)
    (sequence : Sequence) (hlen : 1 ≤ segment_getLength segment)
    (hseq : segment_getSequence segment = some sequence) :
    ∃ start : Int,
      getMAFBlockP2 cactusMisc_nameToString segment =
        [MafLine.row (formatSequenceHeader cactusMisc_nameToString sequence) start
          (segment_getLength segment) (if segment_getStrand segment then "+" else "-")
          (sequence_getLength sequence) (segment_getString segment)] ∧
      0 < segment_getLength segment ∧
      (segment_getStrand segment = true →
        start = segment_getStart segment - sequence_getStart sequence) ∧
      (segment_getStrand segment = false →
        start = (sequence_getStart sequence + sequence_getLength sequence - 1) -
          segment_getStart segment) ∧
      (segment_getStrand segment = true →
        sequence_getStart sequence ≤ segment_getStart segment →
        segment_getStart segment + segment_getLength segment ≤
          sequence_getStart sequence + sequence_getLength sequence →
        0 ≤ start ∧ start + segment_getLength segment ≤ sequence_getLength sequence) ∧
      (segment_getStrand segment = false →
        sequence_getStart sequence ≤ segment_getStart segment - segment_getLength segment + 1 →
        segment_getStart segment ≤ sequence_getStart sequence + sequence_getLength sequence - 1 →
        0 ≤ start ∧ start + segment_getLength segment ≤ sequence_getLength sequence) ∧
      (segment_getStrand segment = false → ∀ x : Int,
        (start ≤ x ∧ x < start + segment_getLength segment ↔
          segment_getStart segment - segment_getLength segment + 1 - sequence_getStart sequence ≤
              sequence_getLength sequence - 1 - x ∧
            sequence_getLength sequence - 1 - x <
              segment_getStart segment - sequence_getStart sequence + 1)) := by
  cases hs : segment_getStrand segment with
  | true =>
    refine ⟨segment_getStart segment - sequence_getStart sequence, ?_, by omega, ?_⟩
    · simp [getMAFBlockP2, hseq, hs]
    · refine ⟨fun _ => rfl, fun h => absurd h (by simp), ?_, fun h => absurd h (by simp),
        fun h => absurd h (by simp)⟩
      intro _ h1 h2
      omega
  | false =>
    refine ⟨(sequence_getStart sequence + sequence_getLength sequence - 1) -
      segment_getStart segment, ?_, by omega, ?_⟩
    · simp [getMAFBlockP2, hseq, hs]
    · refine ⟨fun h => absurd h (by simp), fun _ => rfl, fun h => absurd h (by simp), ?_, ?_⟩
      · intro _ h1 h2
        omega
      · intro _ x
        omega

/-- C17 at `forwardSegment`, whose row starts at 20, and at `reverseSegment`, whose
row starts at 70: the forward positions 20 to 29 of a sequence of 100 bases are
the positions 70 to 79 of its reverse complement. -/
theorem getMAFBlockP2_start_witness :
    getMAFBlockP2 exampleNameToString forwardSegment =
        [MafLine.row "chr1" 20 10 "+" 100 "ACGTACGTAC"] ∧
      getMAFBlockP2 exampleNameToString reverseSegment =
        [MafLine.row "chr1" 70 10 "-" 100 "GTACGTACGT"] ∧
      ∃ start : Int,
        getMAFBlockP2 exampleNameToString reverseSegment =
          [MafLine.row (formatSequenceHeader exampleNameToString exampleSequence) start
            (segment_getLength reverseSegment)
            (if segment_getStrand reverseSegment then "+" else "-")
            (sequence_getLength exampleSequence) (segment_getString reverseSegment)] ∧
        0 < segment_getLength reverseSegment ∧
        (segment_getStrand reverseSegment = true →
          start = segment_getStart reverseSegment - sequence_getStart exampleSequence) ∧
        (segment_getStrand reverseSegment = false →
          start = (sequence_getStart exampleSequence + sequence_getLength exampleSequence - 1) -
            segment_getStart reverseSegment) ∧
        (segment_getStrand reverseSegment = true →
          sequence_getStart exampleSequence ≤ segment_getStart reverseSegment →
          segment_getStart reverseSegment + segment_getLength reverseSegment ≤
            sequence_getStart exampleSequence + sequence_getLength exampleSequence →
          0 ≤ start ∧
            start + segment_getLength reverseSegment ≤ sequence_getLength exampleSequence) ∧
        (segment_getStrand reverseSegment = false →
          sequence_getStart exampleSequence ≤
            segment_getStart reverseSegment - segment_getLength reverseSegment + 1 →
          segment_getStart reverseSegment ≤
            sequence_getStart exampleSequence + sequence_getLength exampleSequence - 1 →
          0 ≤ start ∧
            start + segment_getLength reverseSegment ≤ sequence_getLength exampleSequence) ∧
        (segment_getStrand reverseSegment = false → ∀ x : Int,
          (start ≤ x ∧ x < start + segment_getLength reverseSegment ↔
            segment_getStart reverseSegment - segment_getLength reverseSegment + 1 -
                sequence_getStart exampleSequence ≤
                sequence_getLength exampleSequence - 1 - x ∧
              sequence_getLength exampleSequence - 1 - x <
                segment_getStart reverseSegment - sequence_getStart exampleSequence + 1)) :=
  ⟨by decide, by decide,
    getMAFBlockP2_start exampleNameToString reverseSegment exampleSequence (by decide) rfl⟩

/-! ## Chunking sequences -/

theorem toInt32_fits (x : Int) (h0 : -2147483648 ≤ x) (h1 : x < 2147483648) :
    toInt32 x = x := by
  unfold toInt32
  omega

theorem toInt32_range (x : Int) : -2147483648 ≤ toInt32 x ∧ toInt32 x < 2147483648 := by
  unfold toInt32
  omega

theorem fn_open_fields (st : ChunkState) :
    (fn.open st).chunkSize = st.chunkSize ∧
      (fn.open st).chunkOverlapSize = st.chunkOverlapSize ∧
      (fn.open st).chunkRemaining = st.chunkRemaining ∧
      (fn.open st).written = st.written := by
  unfold fn.open
  cases st.chunkFileHandle <;> simp

theorem fn_eq (st : ChunkState) (fastaHeader : String) (start : Int) (sequence : String)
    (seqLength length : Int) :
    fn st fastaHeader start sequence seqLength length =
      if toInt32 length ≤ st.chunkSize then
        if 0 ≤ start then
          if 0 < (if start + toInt32 length > seqLength then seqLength - start
              else toInt32 length) then
            Except.ok
              (if start + toInt32 length > seqLength then seqLength - start else toInt32 length,
                fn.write (fn.open st) (fn.name fastaHeader start) start sequence
                  (if start + toInt32 length > seqLength then seqLength - start
                    else toInt32 length))
          else Except.error Fault.chunkLengthNotPositive
        else Except.error Fault.chunkStartNegative
      else Except.error Fault.chunkLengthTooLarge := by
  unfold fn
  simp only [(fn_open_fields st).1, assert, bind, Except.bind, ge_iff_le, gt_iff_lt,
    decide_eq_true_eq]
  split_ifs <;> rfl

theorem fn_succeeds (st : ChunkState) (fastaHeader : String) (start : Int) (sequence : String)
    (seqLength length : Int) (h1 : length ≤ st.chunkSize) (h2 : 0 ≤ start)
    (h3 : start < seqLength) (h4 : 0 < length) (h5 : length < 2147483648) :
    ∃ st' piece,
      fn st fastaHeader start sequence seqLength length =
        Except.ok (min length (seqLength - start), st') ∧
      st'.written = st.written ++ [piece] ∧ piece.start = start ∧
      piece.length = min length (seqLength - start) ∧
      piece.name = fn.name fastaHeader start ∧
      st'.chunkSize = st.chunkSize ∧ st'.chunkOverlapSize = st.chunkOverlapSize ∧
      st'.chunkRemaining = st.chunkRemaining := by
  have hclip : (if start + length > seqLength then seqLength - start else length) =
      min length (seqLength - start) := by
    split_ifs with h <;> omega
  have hpos : 0 < min length (seqLength - start) := by omega
  refine ⟨fn.write (fn.open st) (fn.name fastaHeader start) start sequence
      (min length (seqLength - start)),
    { file := (fn.open st).chunkFileHandle.getD "", name := fn.name fastaHeader start,
      start := start, length := min length (seqLength - start),
      bases := String.mk ((sequence.toList.drop start.toNat).take
        (min length (seqLength - start)).toNat) },
    ?_, ?_, rfl, rfl, rfl, ?_, ?_, ?_⟩
  · rw [fn_eq, toInt32_fits length (by omega) h5, hclip]
    simp [h1, h2, hpos]
  · simp only [fn.write, (fn_open_fields st).2.2.2]
  · simp only [fn.write, (fn_open_fields st).1]
  · simp only [fn.write, (fn_open_fields st).2.1]
  · simp only [fn.write, (fn_open_fields st).2.2.1]

theorem fn_inversion (st : ChunkState) (fastaHeader : String) (start : Int)
    (sequence : String) (seqLength length k : Int) (st' : ChunkState)
    (h : fn st fastaHeader start sequence seqLength length = Except.ok (k, st')) :
    toInt32 length ≤ st.chunkSize ∧ 0 ≤ start ∧ 0 < k ∧
      k = (if start + toInt32 length > seqLength then seqLength - start else toInt32 length) ∧
      st' = fn.write (fn.open st) (fn.name fastaHeader start) start sequence k := by
  rw [fn_eq] at h
  by_cases h1 : toInt32 length ≤ st.chunkSize
  · by_cases h2 : 0 ≤ start
    · by_cases h3 : 0 < (if start + toInt32 length > seqLength then seqLength - start
          else toInt32 length)
      · simp only [h1, h2, h3, if_true, Except.ok.injEq, Prod.mk.injEq] at h
        refine ⟨h1, h2, ?_, h.1.symm, ?_⟩
        · rw [← h.1]; exact h3
        · rw [← h.2, ← h.1]
      · simp [h1, h2, h3] at h
    · simp [h1, h2] at h
  · simp [h1] at h

theorem fn_error (st : ChunkState) (fastaHeader : String) (start : Int) (sequence : String)
    (seqLength length : Int) (e : Fault)
    (h : fn st fastaHeader start sequence seqLength length = Except.error e) :
    e ≠ Fault.fuelExhausted := by
  rw [fn_eq] at h
  split_ifs at h <;> simp only [Except.error.injEq] at h <;> subst h <;> decide

theorem fn_result (st : ChunkState) (fastaHeader : String) (start : Int)
    (sequence : String) (seqLength length k : Int) (st' : ChunkState)
    (h : fn st fastaHeader start sequence seqLength length = Except.ok (k, st')) :
    ∃ piece, st'.written = st.written ++ [piece] ∧ piece.start = start ∧ piece.length = k ∧
      piece.name = fn.name fastaHeader start ∧
      st'.chunkSize = st.chunkSize ∧ st'.chunkOverlapSize = st.chunkOverlapSize ∧
      st'.chunkRemaining = st.chunkRemaining := by
  obtain ⟨-, -, -, -, hst'⟩ := fn_inversion st fastaHeader start sequence seqLength length k st' h
  refine ⟨ChunkRecord.mk ((fn.open st).chunkFileHandle.getD "") (fn.name fastaHeader start)
      start k (String.mk ((sequence.toList.drop start.toNat).take k.toNat)),
    ?_, rfl, rfl, rfl, ?_, ?_, ?_⟩
  · rw [hst']
    simp only [fn.write, (fn_open_fields st).2.2.2]
  · rw [hst']
    simp only [fn.write, (fn_open_fields st).1]
  · rw [hst']
    simp only [fn.write, (fn_open_fields st).2.1]
  · rw [hst']
    simp only [fn.write, (fn_open_fields st).2.2.1]

theorem finish_fields (st : ChunkState) :
    (finishChunkingSequences st).chunkSize = st.chunkSize ∧
      (finishChunkingSequences st).chunkOverlapSize = st.chunkOverlapSize ∧
      (finishChunkingSequences st).written = st.written := by
  unfold finishChunkingSequences
  cases st.chunkFileHandle <;> simp

theorem fn2_succeeds (st : ChunkState) (i seqLength : Int) (hlen : 0 ≤ seqLength)
    (hc : 0 < st.chunkSize) (hc32 : st.chunkSize < 2147483648) (hi1 : 1 ≤ i)
    (hi : i ≤ st.chunkSize) :
    ∃ r st', fn2 st i seqLength = Except.ok (r, st') ∧ 1 ≤ r ∧ r ≤ st.chunkSize ∧
      st'.written = st.written ∧ st'.chunkSize = st.chunkSize ∧
      st'.chunkOverlapSize = st.chunkOverlapSize := by
  unfold fn2
  rw [toInt32_fits i (by omega) (by omega), toInt32_fits st.chunkSize (by omega) hc32]
  by_cases h : i - seqLength ≤ 0
  · exact ⟨st.chunkSize, finishChunkingSequences st,
      by simp [assert, hlen, h, bind, Except.bind], by omega, le_refl _,
      (finish_fields st).2.2, (finish_fields st).1, (finish_fields st).2.1⟩
  · exact ⟨i - seqLength, st, by simp [assert, hlen, h, bind, Except.bind], by omega,
      by omega, rfl, rfl, rfl⟩

theorem loop_step (hd seq : String) (n : Int) (fuel : Nat) (st : ChunkState) (j : Int)
    (hc : 0 < st.chunkSize) (hfit : n + st.chunkSize ≤ 2147483648)
    (hr1 : 1 ≤ st.chunkRemaining) (hr2 : st.chunkRemaining ≤ st.chunkSize)
    (hj0 : 0 ≤ j) (hjn : j < n) :
    (∃ e, e ≠ Fault.fuelExhausted ∧
        processSequenceToChunk.loop hd seq n (fuel + 1) st j = Except.error e ∧
        ¬ (1 ≤ st.chunkOverlapSize ∧ st.chunkOverlapSize ≤ st.chunkSize)) ∨
    ∃ st' piece overlap,
      processSequenceToChunk.loop hd seq n (fuel + 1) st j =
        processSequenceToChunk.loop hd seq n fuel st' (j + piece.length) ∧
      st'.written = st.written ++ [piece, overlap] ∧
      st'.chunkSize = st.chunkSize ∧ st'.chunkOverlapSize = st.chunkOverlapSize ∧
      1 ≤ st'.chunkRemaining ∧ st'.chunkRemaining ≤ st.chunkSize ∧
      piece.start = j ∧ 1 ≤ piece.length ∧ piece.length ≤ st.chunkSize ∧
      piece.length ≤ n - j ∧
      (0 ≤ st.chunkOverlapSize ∧ st.chunkOverlapSize < 2147483648 →
        overlap.start = max 0 (j - st.chunkOverlapSize / 2) ∧
        overlap.length = min st.chunkOverlapSize (n - overlap.start) ∧
        1 ≤ st.chunkOverlapSize ∧ st.chunkOverlapSize ≤ st.chunkSize) := by
  have hpos : n - j > 0 := by omega
  obtain ⟨st1, piece, hfn1, hw1, hps, hpl, -, hc1, ho1, hrem1⟩ :=
    fn_succeeds st hd j seq n st.chunkRemaining hr2 hj0 hjn (by omega) (by omega)
  obtain ⟨r1, st2, hfn2, hr1a, hr1b, hw2, hc2, ho2⟩ :=
    fn2_succeeds st1 st1.chunkRemaining (min st.chunkRemaining (n - j)) (by omega)
      (by rw [hc1]; exact hc) (by rw [hc1]; omega) (by rw [hrem1]; exact hr1)
      (by rw [hrem1, hc1]; exact hr2)
  rw [processSequenceToChunk.loop]
  simp only [hpos, if_true, hfn1, hfn2, bind, Except.bind]
  obtain ⟨st3, hst3⟩ : ∃ st3 : ChunkState, st3 = { st2 with chunkRemaining := r1 } :=
    ⟨_, rfl⟩
  have hc3 : st3.chunkSize = st.chunkSize := by rw [hst3]; exact hc2.trans hc1
  have ho3 : st3.chunkOverlapSize = st.chunkOverlapSize := by rw [hst3]; exact ho2.trans ho1
  have hw3 : st3.written = st.written ++ [piece] := by rw [hst3]; exact hw2.trans hw1
  have hrem3 : st3.chunkRemaining = r1 := by rw [hst3]
  have ho2' : st2.chunkOverlapSize = st.chunkOverlapSize := ho2.trans ho1
  rw [← hst3, ho2']
  obtain ⟨l, hl⟩ : ∃ l : Int, l = (if toInt32 (j - st.chunkOverlapSize.tdiv 2) < 0 then 0
      else toInt32 (j - st.chunkOverlapSize.tdiv 2)) := ⟨_, rfl⟩
  rw [← hl]
  have hl0 : 0 ≤ l := by
    rw [hl]
    split_ifs with h <;> omega
  cases hX : fn st3 hd l seq n st.chunkOverlapSize with
  | error e =>
    left
    refine ⟨e, fn_error _ _ _ _ _ _ e hX, rfl, ?_⟩
    intro hyes
    have hl1 : l < n := by
      have hdiv : st.chunkOverlapSize.tdiv 2 = st.chunkOverlapSize / 2 :=
        Int.tdiv_eq_ediv (by omega) (by decide)
      rw [hl, hdiv, toInt32_fits (j - st.chunkOverlapSize / 2) (by omega) (by omega)]
      split_ifs with h <;> omega
    obtain ⟨st4, overlap, hfn3, -⟩ :=
      fn_succeeds st3 hd l seq n st.chunkOverlapSize (by rw [hc3]; exact hyes.2) hl0 hl1
        hyes.1 (by omega)
    rw [hfn3] at hX
    simp at hX
  | ok res =>
    obtain ⟨k, st4⟩ := res
    right
    obtain ⟨hk1, -, hk3, hk4, -⟩ := fn_inversion st3 hd l seq n st.chunkOverlapSize k st4 hX
    obtain ⟨overlap, hw4, hos, hol, -, hc4, ho4, hrem4⟩ :=
      fn_result st3 hd l seq n st.chunkOverlapSize k st4 hX
    have hk32 : k < 2147483648 := by
      have := (toInt32_range st.chunkOverlapSize).2
      rw [hk4]
      split_ifs with h <;> omega
    obtain ⟨r2, st5, hfn4, hr2a, hr2b, hw5, hc5, ho5⟩ :=
      fn2_succeeds st4 st4.chunkRemaining k (by omega)
        (by rw [hc4, hc3]; exact hc) (by rw [hc4, hc3]; omega)
        (by rw [hrem4, hrem3]; exact hr1a)
        (by rw [hrem4, hrem3, hc4, hc3, ← hc1]; exact hr1b)
    refine ⟨{ st5 with chunkRemaining := r2 }, piece, overlap, ?_, ?_, ?_, ?_, hr2a, ?_, hps,
      ?_, ?_, ?_, ?_⟩
    · simp only [hfn4, hpl]
    · show st5.written = _
      rw [hw5, hw4, hw3]
      simp
    · show st5.chunkSize = _
      rw [hc5, hc4, hc3]
    · show st5.chunkOverlapSize = _
      rw [ho5, ho4, ho3]
    · show r2 ≤ _
      rw [← hc3, ← hc4]
      exact hr2b
    · rw [hpl]; omega
    · rw [hpl]; omega
    · rw [hpl]; omega
    · rintro ⟨ho0, ho32⟩
      have hdiv : st.chunkOverlapSize.tdiv 2 = st.chunkOverlapSize / 2 :=
        Int.tdiv_eq_ediv ho0 (by decide)
      have hlmax : l = max 0 (j - st.chunkOverlapSize / 2) := by
        rw [hl, hdiv, toInt32_fits (j - st.chunkOverlapSize / 2) (by omega) (by omega)]
        split_ifs with h <;> omega
      rw [toInt32_fits st.chunkOverlapSize (by omega) ho32] at hk1 hk4
      rw [hc3] at hk1
      refine ⟨by rw [hos]; exact hlmax, ?_, ?_, hk1⟩
      · rw [hol, hos, hk4]
        split_ifs with h <;> omega
      · rw [hk4] at hk3
        split_ifs at hk3 with h <;> omega

theorem loop_done (hd seq : String) (n : Int) (fuel : Nat) (st : ChunkState) (j : Int)
    (h : ¬ n - j > 0) : processSequenceToChunk.loop hd seq n fuel st j = Except.ok st := by
  cases fuel <;> simp [processSequenceToChunk.loop, h]

theorem loop_spec (hd seq : String) (n : Int) :
    ∀ (fuel : Nat) (st : ChunkState) (j : Int), 0 < st.chunkSize →
      n + st.chunkSize ≤ 2147483648 → 1 ≤ st.chunkRemaining →
      st.chunkRemaining ≤ st.chunkSize → 0 ≤ j → j ≤ n → n - j ≤ fuel →
      processSequenceToChunk.loop hd seq n fuel st j ≠ Except.error Fault.fuelExhausted ∧
      ((1 ≤ st.chunkOverlapSize ∧ st.chunkOverlapSize ≤ st.chunkSize) →
        ∃ st', processSequenceToChunk.loop hd seq n fuel st j = Except.ok st') ∧
      ∀ st', processSequenceToChunk.loop hd seq n fuel st j = Except.ok st' →
        ∃ new, st'.written = st.written ++ new ∧
          LoopLog st.chunkSize st.chunkOverlapSize n j new ∧
          1 ≤ st'.chunkRemaining ∧ st'.chunkRemaining ≤ st.chunkSize ∧
          st'.chunkSize = st.chunkSize ∧ st'.chunkOverlapSize = st.chunkOverlapSize := by
  intro fuel
  induction fuel with
  | zero =>
    intro st j hc hfit hr1 hr2 hj0 hjn hfuel
    have hdone : ¬ n - j > 0 := by
      have : n - j ≤ 0 := by exact_mod_cast hfuel
      omega
    rw [loop_done hd seq n 0 st j hdone]
    refine ⟨by simp, fun _ => ⟨st, rfl⟩, ?_⟩
    intro st' h
    simp only [Except.ok.injEq] at h
    subst h
    exact ⟨[], by simp, by simp only [LoopLog]; omega, hr1, hr2, rfl, rfl⟩
  | succ fuel ih =>
    intro st j hc hfit hr1 hr2 hj0 hjn hfuel
    by_cases hdone : ¬ n - j > 0
    · rw [loop_done hd seq n (fuel + 1) st j hdone]
      refine ⟨by simp, fun _ => ⟨st, rfl⟩, ?_⟩
      intro st' h
      simp only [Except.ok.injEq] at h
      subst h
      exact ⟨[], by simp, by simp only [LoopLog]; omega, hr1, hr2, rfl, rfl⟩
    · have hlt : j < n := by omega
      rcases loop_step hd seq n fuel st j hc hfit hr1 hr2 hj0 hlt with
        ⟨e, he, hfail, hno⟩ | ⟨st1, piece, overlap, hstep, hw, hc1, ho1, hra, hrb, hps, hpl1,
          hplc, hpln, hov⟩
      · rw [hfail]
        refine ⟨?_, fun h => absurd h hno, ?_⟩
        · intro hcon
          simp only [Except.error.injEq] at hcon
          exact he hcon
        · intro st' hcon
          simp at hcon
      · have hfuel' : n - (j + piece.length) ≤ (fuel : Int) := by
          have : n - j ≤ (fuel : Int) + 1 := by exact_mod_cast hfuel
          omega
        obtain ⟨h1, h2, h3⟩ := ih st1 (j + piece.length) (by rw [hc1]; exact hc)
          (by rw [hc1]; exact hfit) hra (by rw [hc1]; exact hrb) (by omega) (by omega) hfuel'
        rw [hstep]
        refine ⟨h1, fun ho => h2 (by rw [hc1, ho1]; exact ho), ?_⟩
        intro st' hok
        obtain ⟨new, hw', hlog, hr1', hr2', hc', ho'⟩ := h3 st' hok
        refine ⟨piece :: overlap :: new, ?_, ?_, hr1', ?_, ?_, ?_⟩
        · rw [hw', hw]; simp
        · rw [hc1, ho1] at hlog
          exact ⟨hlt, hps, hpl1, hplc, hov, hlog⟩
        · rw [← hc1]; exact hr2'
        · rw [hc', hc1]
        · rw [ho', ho1]

theorem loopLog_tiles (c o n : Int) :
    ∀ (log : List ChunkRecord) (j : Int), LoopLog c o n j log →
      Tiles n j (everyOther log) ∧ ∀ piece ∈ everyOther log, piece.length ≤ c
  | [], j, h => by
    simp only [LoopLog] at h
    simp [everyOther, Tiles, h]
  | [_], j, h => by simp [LoopLog] at h
  | piece :: overlap :: rest, j, h => by
    simp only [LoopLog] at h
    obtain ⟨_, hps, hpl1, hplc, _, hrest⟩ := h
    obtain ⟨ht, hb⟩ := loopLog_tiles c o n rest (j + piece.length) hrest
    simp only [everyOther, Tiles, List.mem_cons, forall_eq_or_imp]
    exact ⟨⟨hps, hpl1, ht⟩, hplc, hb⟩

theorem loopLog_pairs (c o n : Int) (ho : 0 ≤ o ∧ o < 2147483648) :
    ∀ (log : List ChunkRecord) (j : Int), LoopLog c o n j log →
      log.length = 2 * (pairUp log).length ∧
      (pairUp log).map Prod.fst = everyOther log ∧
      ∀ pair ∈ pairUp log, j ≤ pair.1.start ∧ pair.1.start < n ∧
        pair.2.start = max 0 (pair.1.start - o / 2) ∧
        pair.2.length = min o (n - pair.2.start) ∧ 1 ≤ o
  | [], j, _ => by simp [pairUp, everyOther]
  | [_], j, h => by simp [LoopLog] at h
  | piece :: overlap :: rest, j, h => by
    simp only [LoopLog] at h
    obtain ⟨hjn, hps, hpl1, _, hov, hrest⟩ := h
    obtain ⟨hos, hol, ho1, -⟩ := hov ho
    obtain ⟨hlen, hfst, hall⟩ := loopLog_pairs c o n ho rest (j + piece.length) hrest
    refine ⟨?_, ?_, ?_⟩
    · simp only [pairUp, List.length_cons, hlen]
      omega
    · simp only [pairUp, List.map_cons, everyOther, hfst]
    · intro pair hmem
      simp only [pairUp, List.mem_cons] at hmem
      rcases hmem with rfl | hmem
      · exact ⟨by simp only; omega, by simp only; omega, by simp only; rw [hps]; exact hos,
          hol, ho1⟩
      · obtain ⟨h1, h2⟩ := hall pair hmem
        exact ⟨by omega, h2⟩

theorem tiles_bounds (b : Int) :
    ∀ (pieces : List ChunkRecord) (a : Int), Tiles b a pieces →
      a ≤ b ∧ ∀ piece ∈ pieces, a ≤ piece.start ∧ piece.start + piece.length ≤ b
  | [], a, h => by
    simp only [Tiles] at h
    simp [h]
  | piece :: rest, a, h => by
    simp only [Tiles] at h
    obtain ⟨hs, hl, hrest⟩ := h
    obtain ⟨hab, hall⟩ := tiles_bounds b rest (a + piece.length) hrest
    refine ⟨by omega, ?_⟩
    intro q hq
    simp only [List.mem_cons] at hq
    rcases hq with rfl | hq
    · exact ⟨by omega, by omega⟩
    · have := hall q hq
      exact ⟨by omega, this.2⟩

theorem tiles_cover (b : Int) :
    ∀ (pieces : List ChunkRecord) (a : Int), Tiles b a pieces →
      ∀ x, a ≤ x → x < b →
        ∃! piece, piece ∈ pieces ∧ piece.start ≤ x ∧ x < piece.start + piece.length
  | [], a, h => by
    intro x h1 h2
    simp only [Tiles] at h
    omega
  | piece :: rest, a, h => by
    intro x h1 h2
    simp only [Tiles] at h
    obtain ⟨hs, hl, hrest⟩ := h
    by_cases hx : x < a + piece.length
    · refine ⟨piece, ⟨List.mem_cons_self _ _, by omega, by omega⟩, ?_⟩
      rintro q ⟨hq, hq1, hq2⟩
      simp only [List.mem_cons] at hq
      rcases hq with rfl | hq
      · rfl
      · have := (tiles_bounds b rest (a + piece.length) hrest).2 q hq
        omega
    · obtain ⟨q, ⟨hq, hq1, hq2⟩, huniq⟩ :=
        tiles_cover b rest (a + piece.length) hrest x (by omega) h2
      refine ⟨q, ⟨List.mem_cons_of_mem _ hq, hq1, hq2⟩, ?_⟩
      rintro q' ⟨hq', hq1', hq2'⟩
      simp only [List.mem_cons] at hq'
      rcases hq' with rfl | hq'
      · omega
      · exact huniq q' ⟨hq', hq1', hq2'⟩

theorem process_spec (st : ChunkState) (hd seq : String) (n : Int)
    (hc : 0 < st.chunkSize) (hfit : n + st.chunkSize ≤ 2147483648)
    (hr1 : 1 ≤ st.chunkRemaining) (hr2 : st.chunkRemaining ≤ st.chunkSize) (hn : 0 < n) :
    processSequenceToChunk st hd seq n ≠ Except.error Fault.fuelExhausted ∧
    ((1 ≤ st.chunkOverlapSize ∧ st.chunkOverlapSize ≤ st.chunkSize) →
      ∃ st', processSequenceToChunk st hd seq n = Except.ok st') ∧
    ∀ st', processSequenceToChunk st hd seq n = Except.ok st' →
      ∃ first log, st'.written = st.written ++ first :: log ∧ first.start = 0 ∧
        1 ≤ first.length ∧ first.length ≤ st.chunkSize ∧ first.name = fn.name hd 0 ∧
        LoopLog st.chunkSize st.chunkOverlapSize n first.length log ∧
        1 ≤ st'.chunkRemaining ∧ st'.chunkRemaining ≤ st.chunkSize ∧
        st'.chunkSize = st.chunkSize := by
  obtain ⟨st1, first, hfn1, hw1, hfs, hfl, hfname, hc1, ho1, hrem1⟩ :=
    fn_succeeds st hd 0 seq n st.chunkRemaining hr2 (le_refl 0) hn (by omega) (by omega)
  obtain ⟨r1, st2, hfn2, hr1a, hr1b, hw2, hc2, ho2⟩ :=
    fn2_succeeds st1 st1.chunkRemaining (min st.chunkRemaining (n - 0)) (by omega)
      (by rw [hc1]; exact hc) (by rw [hc1]; omega) (by rw [hrem1]; exact hr1)
      (by rw [hrem1, hc1]; exact hr2)
  unfold processSequenceToChunk
  simp only [gt_iff_lt, hn, if_true, hfn1, hfn2, bind, Except.bind]
  obtain ⟨st3, hst3⟩ : ∃ st3 : ChunkState, st3 = { st2 with chunkRemaining := r1 } :=
    ⟨_, rfl⟩
  have hc3 : st3.chunkSize = st.chunkSize := by rw [hst3]; exact hc2.trans hc1
  have ho3 : st3.chunkOverlapSize = st.chunkOverlapSize := by rw [hst3]; exact ho2.trans ho1
  have hw3 : st3.written = st.written ++ [first] := by rw [hst3]; exact hw2.trans hw1
  have hrem3 : st3.chunkRemaining = r1 := by rw [hst3]
  rw [← hst3]
  have hfuel : n - min st.chunkRemaining (n - 0) ≤ (n.toNat : Int) := by
    rw [Int.toNat_of_nonneg (le_of_lt hn)]
    omega
  obtain ⟨h1, h2, h3⟩ := loop_spec hd seq n n.toNat st3 (min st.chunkRemaining (n - 0))
    (by rw [hc3]; exact hc) (by rw [hc3]; exact hfit) (by rw [hrem3]; exact hr1a)
    (by rw [hrem3, hc3, ← hc1]; exact hr1b) (by omega) (by omega) hfuel
  refine ⟨h1, fun ho => h2 (by rw [hc3, ho3]; exact ho), ?_⟩
  intro st' hok
  obtain ⟨new, hw', hlog, hra, hrb, hc', ho'⟩ := h3 st' hok
  refine ⟨first, new, ?_, hfs, ?_, ?_, hfname, ?_, hra, ?_, ?_⟩
  · rw [hw', hw3]; simp
  · rw [hfl]; omega
  · rw [hfl]; omega
  · rw [hc3, ho3, ← hfl] at hlog
    exact hlog
  · rw [← hc3]; exact hrb
  · rw [hc', hc3]

/-- C13 (amended). With a chunk size `c > 0`, `chunkRemaining` between 1 and `c`
and a sequence of length `n > 0` with `n + c ≤ 2^31`, `processSequenceToChunk`
terminates: the bound `n` on the iterations of its loop is never reached, and
it completes whenever the overlap size is between 1 and `c`. When it completes,
the non-overlap pieces it has written follow one another from offset 0 to
offset `n`, each with between 1 and `c` bases, so that every base of the
sequence lies in exactly one of them; and `chunkRemaining` is again between 1
and `c`. -/
theorem processSequenceToChunk_tiles (st : ChunkState) (fastaHeader sequence : String)
    (n : Int) (hc : 0 < st.chunkSize) (hfit : n + st.chunkSize ≤ 2147483648)
    (hr1 : 1 ≤ st.chunkRemaining) (hr2 : st.chunkRemaining ≤ st.chunkSize) (hn : 0 < n) :
    processSequenceToChunk st fastaHeader sequence n ≠ Except.error Fault.fuelExhausted ∧
    ((1 ≤ st.chunkOverlapSize ∧ st.chunkOverlapSize ≤ st.chunkSize) →
      ∃ st', processSequenceToChunk st fastaHeader sequence n = Except.ok st') ∧
    ∀ st', processSequenceToChunk st fastaHeader sequence n = Except.ok st' →
      ∃ new, st'.written = st.written ++ new ∧
        Tiles n 0 (nonOverlapPieces new) ∧
        (∀ piece ∈ nonOverlapPieces new, 1 ≤ piece.length ∧ piece.length ≤ st.chunkSize) ∧
        (∀ base : Int, 0 ≤ base → base < n →
          ∃! piece, piece ∈ nonOverlapPieces new ∧ piece.start ≤ base ∧
            base < piece.start + piece.length) ∧
        1 ≤ st'.chunkRemaining ∧ st'.chunkRemaining ≤ st.chunkSize ∧
        st'.chunkSize = st.chunkSize := by
  obtain ⟨h1, h2, h3⟩ := process_spec st fastaHeader sequence n hc hfit hr1 hr2 hn
  refine ⟨h1, h2, ?_⟩
  intro st' hok
  obtain ⟨first, log, hw, hfs, hfl1, hflc, -, hlog, hra, hrb, hc'⟩ := h3 st' hok
  obtain ⟨ht, hb⟩ := loopLog_tiles _ _ _ log first.length hlog
  have htiles : Tiles n 0 (nonOverlapPieces (first :: log)) := by
    simp only [nonOverlapPieces, Tiles]
    exact ⟨hfs, hfl1, by simpa using ht⟩
  refine ⟨first :: log, hw, htiles, ?_, tiles_cover n _ 0 htiles, hra, hrb, hc'⟩
  intro piece hmem
  simp only [nonOverlapPieces, List.mem_cons] at hmem
  rcases hmem with rfl | hmem
  · exact ⟨hfl1, hflc⟩
  · have hge : ∀ (pieces : List ChunkRecord) (a : Int), Tiles n a pieces →
        ∀ q ∈ pieces, 1 ≤ q.length := by
      intro pieces
      induction pieces with
      | nil => intro a _ q hq; simp at hq
      | cons p rest ih =>
        intro a hT q hq
        simp only [Tiles] at hT
        simp only [List.mem_cons] at hq
        rcases hq with rfl | hq
        · exact hT.2.1
        · exact ih _ hT.2.2 q hq
    exact ⟨hge _ _ ht piece hmem, hb piece hmem⟩

/-- C13 (amended) at a sequence of 10 bases after
`setupToChunkSequences(4, 2, "chunks")`: the run completes, and its non-overlap
pieces are `[0, 4)`, `[4, 8)` and `[8, 10)`. -/
theorem processSequenceToChunk_tiles_witness :
    setupToChunkSequences ChunkState.initial 4 2 "chunks" = Except.ok chunkSetup ∧
    (∃ st', processSequenceToChunk chunkSetup "chr1 x" "ACGTACGTAC" 10 = Except.ok st' ∧
      (nonOverlapPieces st'.written).map (fun piece => (piece.start, piece.length)) =
        [(0, 4), (4, 4), (8, 2)] ∧ st'.chunkRemaining = 2) ∧
    ∀ st', processSequenceToChunk chunkSetup "chr1 x" "ACGTACGTAC" 10 = Except.ok st' →
      ∃ new, st'.written = chunkSetup.written ++ new ∧
        Tiles 10 0 (nonOverlapPieces new) ∧
        (∀ piece ∈ nonOverlapPieces new,
          1 ≤ piece.length ∧ piece.length ≤ chunkSetup.chunkSize) ∧
        (∀ base : Int, 0 ≤ base → base < 10 →
          ∃! piece, piece ∈ nonOverlapPieces new ∧ piece.start ≤ base ∧
            base < piece.start + piece.length) ∧
        1 ≤ st'.chunkRemaining ∧ st'.chunkRemaining ≤ chunkSetup.chunkSize ∧
        st'.chunkSize = chunkSetup.chunkSize :=
  ⟨rfl, ⟨_, rfl, by decide, by decide⟩,
    (processSequenceToChunk_tiles chunkSetup "chr1 x" "ACGTACGTAC" 10 (by decide) (by decide)
      (by decide) (by decide) (by decide)).2.2⟩

/-- C13 as stated fails for the chunk size `2^32`, which
`setupToChunkSequences` accepts. Right after the setup `chunkRemaining` is
`2^32`, between 1 and the chunk size; the `int32_t` parameter `length` of `fn`
receives 0, and the first call of `fn` on a sequence of 3 bases stops at
`assert(length > 0)` before any piece is written. With 3 bases remaining in
the chunk, the run on the same sequence completes without a failed
assertion, writes the one piece `[0, 3)`, and leaves `chunkRemaining` at 0,
the `int32_t` value that `fn2` returns for the chunk size, which is not
between 1 and the chunk size. -/
theorem processSequenceToChunk_chunk_size_narrowed :
    setupToChunkSequences ChunkState.initial 4294967296 1 "chunks" =
        Except.ok chunkSetupHuge ∧
      (1 ≤ chunkSetupHuge.chunkRemaining ∧
        chunkSetupHuge.chunkRemaining ≤ chunkSetupHuge.chunkSize) ∧
      processSequenceToChunk chunkSetupHuge "h" "ACG" 3 =
        Except.error Fault.chunkLengthNotPositive ∧
      (1 ≤ chunkHugePartFilled.chunkRemaining ∧
        chunkHugePartFilled.chunkRemaining ≤ chunkHugePartFilled.chunkSize) ∧
      ∃ st', processSequenceToChunk chunkHugePartFilled "h" "ACG" 3 = Except.ok st' ∧
        st'.written.map (fun piece => (piece.start, piece.length)) = [(0, 3)] ∧
        st'.chunkRemaining = 0 ∧ ¬ 1 ≤ st'.chunkRemaining :=
  ⟨rfl, by decide, rfl, by decide, _, rfl, by decide, by decide, by decide⟩

/-- C14 (amended). With a chunk size `c > 0`, `chunkRemaining` between 1 and `c`,
a sequence of length `n > 0` with `n + c ≤ 2^31` and an overlap size that is a
non-negative `int32_t`, `processSequenceToChunk` completes whenever the overlap
size is between 1 and `c`. When it completes, it has written after the first
piece, for each non-overlap piece that begins at a boundary `j` with
`0 < j < n`, exactly one overlap piece; that piece starts at
`max(0, j - overlap/2)` and has `min(overlap, n - start)` bases, and when the
overlap size is at least 2 it contains the bases `j - 1` and `j`. -/
theorem processSequenceToChunk_overlaps (st : ChunkState) (fastaHeader sequence : String)
    (n : Int) (hc : 0 < st.chunkSize) (hfit : n + st.chunkSize ≤ 2147483648)
    (hr1 : 1 ≤ st.chunkRemaining) (hr2 : st.chunkRemaining ≤ st.chunkSize) (hn : 0 < n)
    (ho0 : 0 ≤ st.chunkOverlapSize) (ho32 : st.chunkOverlapSize < 2147483648) :
    ((1 ≤ st.chunkOverlapSize ∧ st.chunkOverlapSize ≤ st.chunkSize) →
      ∃ st', processSequenceToChunk st fastaHeader sequence n = Except.ok st') ∧
    ∀ st', processSequenceToChunk st fastaHeader sequence n = Except.ok st' →
      ∃ new, st'.written = st.written ++ new ∧
        new.length = 1 + 2 * (boundaryPairs new).length ∧
        (boundaryPairs new).map Prod.fst = (nonOverlapPieces new).tail ∧
        ∀ pair ∈ boundaryPairs new,
          0 < pair.1.start ∧ pair.1.start < n ∧
          pair.2.start = max 0 (pair.1.start - st.chunkOverlapSize / 2) ∧
          pair.2.length = min st.chunkOverlapSize (n - pair.2.start) ∧
          (2 ≤ st.chunkOverlapSize →
            (pair.2.start ≤ pair.1.start - 1 ∧
              pair.1.start - 1 < pair.2.start + pair.2.length) ∧
            (pair.2.start ≤ pair.1.start ∧ pair.1.start < pair.2.start + pair.2.length)) := by
  obtain ⟨-, h2, h3⟩ := process_spec st fastaHeader sequence n hc hfit hr1 hr2 hn
  refine ⟨h2, ?_⟩
  intro st' hok
  obtain ⟨first, log, hw, -, hfl1, -, -, hlog, -, -, -⟩ := h3 st' hok
  obtain ⟨hlen, hfst, hall⟩ := loopLog_pairs _ _ _ ⟨ho0, ho32⟩ log first.length hlog
  refine ⟨first :: log, hw, ?_, ?_, ?_⟩
  · simp only [boundaryPairs, List.length_cons, hlen]
    omega
  · simp only [boundaryPairs, nonOverlapPieces, List.tail_cons, hfst]
  · intro pair hmem
    simp only [boundaryPairs] at hmem
    obtain ⟨hj, hjn, hos, hol, ho⟩ := hall pair hmem
    refine ⟨by omega, hjn, hos, hol, ?_⟩
    intro ho2
    have hj1 : 1 ≤ pair.1.start := by omega
    rw [hol]
    have hs : pair.2.start = max 0 (pair.1.start - st.chunkOverlapSize / 2) := hos
    omega

/-- C14 (amended) at a sequence of 10 bases after
`setupToChunkSequences(4, 2, "chunks")`: the boundaries are 4 and 8, and the
overlap pieces are `[3, 5)` and `[7, 9)`. -/
theorem processSequenceToChunk_overlaps_witness :
    (∃ st', processSequenceToChunk chunkSetup "chr1 x" "ACGTACGTAC" 10 = Except.ok st' ∧
      (boundaryPairs st'.written).map
          (fun pair => (pair.1.start, pair.2.start, pair.2.length)) =
        [(4, 3, 2), (8, 7, 2)]) ∧
    ∀ st', processSequenceToChunk chunkSetup "chr1 x" "ACGTACGTAC" 10 = Except.ok st' →
      ∃ new, st'.written = chunkSetup.written ++ new ∧
        new.length = 1 + 2 * (boundaryPairs new).length ∧
        (boundaryPairs new).map Prod.fst = (nonOverlapPieces new).tail ∧
        ∀ pair ∈ boundaryPairs new,
          0 < pair.1.start ∧ pair.1.start < 10 ∧
          pair.2.start = max 0 (pair.1.start - chunkSetup.chunkOverlapSize / 2) ∧
          pair.2.length = min chunkSetup.chunkOverlapSize (10 - pair.2.start) ∧
          (2 ≤ chunkSetup.chunkOverlapSize →
            (pair.2.start ≤ pair.1.start - 1 ∧
              pair.1.start - 1 < pair.2.start + pair.2.length) ∧
            (pair.2.start ≤ pair.1.start ∧ pair.1.start < pair.2.start + pair.2.length)) :=
  ⟨⟨_, rfl, by decide⟩,
    (processSequenceToChunk_overlaps chunkSetup "chr1 x" "ACGTACGTAC" 10 (by decide)
      (by decide) (by decide) (by decide) (by decide) (by decide) (by decide)).2⟩

/-- C14 as stated fails in two ways. On a sequence of 3 bases after
`setupToChunkSequences(2, 0, "chunks")` the non-overlap pieces `[0, 2)` and
`[2, 3)` are written, so 2 is a boundary, but the call of `fn` for the overlap
piece at that boundary stops at `assert(length > 0)` and the run is aborted.
On a sequence of 6 bases after `setupToChunkSequences(4, 4294967298, "chunks")`
the run completes and 4 is its one boundary; the `int32_t` parameter `length`
of `fn` receives 2 for the overlap size `2^32 + 2`, and the overlap piece
written at the boundary is `[0, 2)`: it has 2 bases, not
`min(overlap, n - start) = 6`, and holds neither base 3 nor base 4. -/
theorem processSequenceToChunk_no_overlap_piece :
    (∃ st1 st2 st3 st4,
      fn chunkSetupNoOverlap "h" 0 "ACG" 3 2 = Except.ok (2, st1) ∧
      fn2 st1 2 2 = Except.ok (2, st2) ∧
      fn { st2 with chunkRemaining := 2 } "h" 2 "ACG" 3 2 = Except.ok (1, st3) ∧
      fn2 st3 2 1 = Except.ok (1, st4) ∧
      fn { st4 with chunkRemaining := 1 } "h" 2 "ACG" 3 0 =
        Except.error Fault.chunkLengthNotPositive ∧
      processSequenceToChunk chunkSetupNoOverlap "h" "ACG" 3 =
        Except.error Fault.chunkLengthNotPositive) ∧
    setupToChunkSequences ChunkState.initial 4 4294967298 "chunks" =
      Except.ok chunkSetupHugeOverlap ∧
    ∃ st', processSequenceToChunk chunkSetupHugeOverlap "h" "ACGTAC" 6 = Except.ok st' ∧
      (nonOverlapPieces st'.written).map (fun piece => (piece.start, piece.length)) =
        [(0, 4), (4, 2)] ∧
      (boundaryPairs st'.written).map
          (fun pair => (pair.1.start, pair.2.start, pair.2.length)) = [(4, 0, 2)] ∧
      max 0 (4 - chunkSetupHugeOverlap.chunkOverlapSize / 2) = 0 ∧
      min chunkSetupHugeOverlap.chunkOverlapSize (6 - 0) = 6 :=
  ⟨⟨_, _, _, _, rfl, rfl, rfl, rfl, rfl, rfl⟩, rfl, _, rfl, by decide, by decide, by decide,
    by decide⟩

/-- C15 fails on the code. `setupToChunkSequences` accepts the overlap size 0 and
the overlap size 3 with the chunk size 2; on a sequence of 3 bases the call of
`fn` for the overlap piece then stops at `assert(length > 0)` in the first case
and at `assert(length <= chunkSize)` in the second. -/
theorem processSequenceToChunk_assertion_fails :
    setupToChunkSequences ChunkState.initial 2 0 "chunks" = Except.ok chunkSetupNoOverlap ∧
      processSequenceToChunk chunkSetupNoOverlap "h" "ACG" 3 =
        Except.error Fault.chunkLengthNotPositive ∧
      setupToChunkSequences ChunkState.initial 2 3 "chunks" =
        Except.ok chunkSetupWideOverlap ∧
      processSequenceToChunk chunkSetupWideOverlap "h" "ACG" 3 =
        Except.error Fault.chunkLengthTooLarge :=
  ⟨rfl, rfl, rfl, rfl⟩

/-! ## Chunk headers and coordinate conversion -/

theorem join_cons_data (entry : String) (rest : List String) (hrest : rest ≠ []) :
    (joinAttributes (entry :: rest)).data =
      entry.data ++ '|' :: (joinAttributes rest).data := by
  cases rest with
  | nil => exact absurd rfl hrest
  | cons next rest =>
    simp only [joinAttributes, String.data_append]
    simp

theorem join_concat (attributes : List String) (last : String) (h : attributes ≠ []) :
    joinAttributes (attributes ++ [last]) = joinAttributes attributes ++ "|" ++ last := by
  induction attributes with
  | nil => exact absurd rfl h
  | cons entry rest ih =>
    apply String.ext
    cases rest with
    | nil =>
      simp only [List.cons_append, List.nil_append, joinAttributes]
    | cons next rest =>
      have ih' := ih (by simp)
      rw [List.cons_append, join_cons_data entry _ (by simp), ih',
        String.data_append, String.data_append, String.data_append, String.data_append,
        join_cons_data entry _ (by simp)]
      simp

theorem split_ne_nil (header : List Char) : headerFields header ≠ [] := by
  induction header with
  | nil => simp [headerFields]
  | cons c rest ih =>
    unfold headerFields
    split_ifs with h
    · simp
    · cases hsplit : headerFields rest with
      | nil => simp
      | cons field fields => simp

theorem split_no_bar (header : List Char) : ∀ field ∈ headerFields header, '|' ∉ field := by
  induction header with
  | nil => simp [headerFields]
  | cons c rest ih =>
    unfold headerFields
    split_ifs with h
    · intro field hfield
      simp only [List.mem_cons] at hfield
      rcases hfield with rfl | hfield
      · simp
      · exact ih field hfield
    · have hc : c ≠ '|' := by simpa using h
      cases hsplit : headerFields rest with
      | nil => simp [hc.symm]
      | cons first fields =>
        rw [hsplit] at ih
        intro field hfield
        simp only [List.mem_cons] at hfield
        rcases hfield with rfl | hfield
        · have := ih first (List.mem_cons_self _ _)
          simp [hc.symm, this]
        · exact ih field (List.mem_cons_of_mem _ hfield)

theorem join_split (header : List Char) :
    joinAttributes ((headerFields header).map String.mk) = String.mk header := by
  induction header with
  | nil => rfl
  | cons c rest ih =>
    apply String.ext
    unfold headerFields
    split_ifs with h
    · have hc : c = '|' := by simpa using h
      rw [List.map_cons, join_cons_data _ _ (by simpa using split_ne_nil rest), ih, hc]
      rfl
    · cases hsplit : headerFields rest with
      | nil => exact absurd hsplit (split_ne_nil rest)
      | cons first fields =>
        rw [hsplit] at ih
        have ih' := congrArg String.data ih
        cases fields with
        | nil =>
          simp only [List.map_cons, List.map_nil, joinAttributes] at ih' ⊢
          rw [ih']
        | cons second fields =>
          rw [List.map_cons, join_cons_data _ _ (by simp)] at ih' ⊢
          simp only [List.cons_append, List.cons.injEq, true_and]
          exact ih'

theorem digitChar_facts (d : Nat) (h : d < 10) :
    Nat.digitChar d ≠ '|' ∧ (Nat.digitChar d).isDigit = true ∧
      (Nat.digitChar d).toNat - '0'.toNat = d := by
  interval_cases d <;> decide

theorem toDigitsCore_no_bar :
    ∀ (fuel n : Nat) (ds : List Char), '|' ∉ ds → '|' ∉ Nat.toDigitsCore 10 fuel n ds
  | 0, _, ds, h => by simpa [Nat.toDigitsCore] using h
  | fuel + 1, n, ds, h => by
    have hd : '|' ∉ Nat.digitChar (n % 10) :: ds := by
      intro hcon
      simp only [List.mem_cons] at hcon
      rcases hcon with hcon | hcon
      · exact (digitChar_facts (n % 10) (Nat.mod_lt _ (by decide))).1 hcon.symm
      · exact h hcon
    simp only [Nat.toDigitsCore]
    split_ifs with h0
    · exact hd
    · exact toDigitsCore_no_bar fuel (n / 10) _ hd

theorem toDigitsCore_ne_nil :
    ∀ (fuel n : Nat) (ds : List Char), ds ≠ [] → Nat.toDigitsCore 10 fuel n ds ≠ []
  | 0, _, ds, h => by simpa [Nat.toDigitsCore] using h
  | fuel + 1, n, ds, _ => by
    simp only [Nat.toDigitsCore]
    split_ifs with h0
    · simp
    · exact toDigitsCore_ne_nil fuel (n / 10) _ (by simp)

theorem toString_no_bar (k : Int) (h : 0 ≤ k) : '|' ∉ (toString k).toList := by
  obtain ⟨m, rfl⟩ := Int.eq_ofNat_of_zero_le h
  show '|' ∉ Nat.toDigits 10 m
  exact toDigitsCore_no_bar _ _ _ (by simp)

theorem convertCoordinatesP_last (fastaDecodeHeader : String → List String)
    (fastaEncodeHeader : List String → String) (sscanf_i : String → Option Int)
    (contig : String) (attributes : List String) (last : String) (startP start end_ : Int)
    (hdecode : fastaDecodeHeader contig = attributes ++ [last])
    (hscan : sscanf_i last = some startP) :
    convertCoordinatesP fastaDecodeHeader fastaEncodeHeader sscanf_i contig start end_ =
      Except.ok (fastaEncodeHeader attributes, start + startP, end_ + startP) := by
  simp [convertCoordinatesP, hdecode, hscan]

theorem roundtrip_of_fields (fastaDecodeHeader : String → List String)
    (fastaEncodeHeader : List String → String) (sscanf_i : String → Option Int)
    (h : String) (s start end_ : Int)
    (hencode : fastaEncodeHeader ((headerFields (fn.cut h.toList)).map String.mk) =
      joinAttributes ((headerFields (fn.cut h.toList)).map String.mk))
    (hdecode : fastaDecodeHeader
        (joinAttributes ((headerFields (fn.cut h.toList)).map String.mk ++ [toString s])) =
      (headerFields (fn.cut h.toList)).map String.mk ++ [toString s])
    (hscan : sscanf_i (toString s) = some s) :
    fastaDecodeHeader (fn.name h s) =
        (headerFields (fn.cut h.toList)).map String.mk ++ [toString s] ∧
      fastaEncodeHeader ((headerFields (fn.cut h.toList)).map String.mk) =
        String.mk (fn.cut h.toList) ∧
      convertCoordinatesP fastaDecodeHeader fastaEncodeHeader sscanf_i (fn.name h s)
          start end_ =
        Except.ok (String.mk (fn.cut h.toList), start + s, end_ + s) := by
  have hname : fn.name h s =
      joinAttributes ((headerFields (fn.cut h.toList)).map String.mk ++ [toString s]) := by
    rw [join_concat _ _ (by simpa using split_ne_nil (fn.cut h.toList)), join_split]
    rfl
  have hattributes : fastaDecodeHeader (fn.name h s) =
      (headerFields (fn.cut h.toList)).map String.mk ++ [toString s] := by
    rw [hname]
    exact hdecode
  have hcut : fastaEncodeHeader ((headerFields (fn.cut h.toList)).map String.mk) =
      String.mk (fn.cut h.toList) := by
    rw [hencode, join_split]
  refine ⟨hattributes, hcut, ?_⟩
  rw [convertCoordinatesP_last fastaDecodeHeader fastaEncodeHeader sscanf_i _ _ _ s start
    end_ hattributes hscan, hcut]

/-- The round trip of a chunk header when less is asked of `fastaDecodeHeader`:
that it gives back the attributes of a join of attributes that are free of `|`
and not empty, as a decoder that drops empty attributes also does. The name
`fn` writes is then turned into the cut header for every header whose cut part
has no empty field. -/
theorem chunk_header_roundtrip_nonempty (fastaDecodeHeader : String → List String)
    (fastaEncodeHeader : List String → String) (sscanf_i : String → Option Int)
    (hencode : ∀ attributes, (∀ a ∈ attributes, '|' ∉ a.toList) →
      fastaEncodeHeader attributes = joinAttributes attributes)
    (hdecode : ∀ attributes, attributes ≠ [] →
      (∀ a ∈ attributes, a ≠ "" ∧ '|' ∉ a.toList) →
      fastaDecodeHeader (joinAttributes attributes) = attributes)
    (hscan : ∀ k : Int, 0 ≤ k → k < 2147483648 → sscanf_i (toString k) = some k)
    (h : String) (s start end_ : Int) (hs0 : 0 ≤ s) (hs32 : s < 2147483648)
    (hfull : ∀ field ∈ headerFields (fn.cut h.toList), field ≠ []) :
    convertCoordinatesP fastaDecodeHeader fastaEncodeHeader sscanf_i (fn.name h s)
        start end_ =
      Except.ok (String.mk (fn.cut h.toList), start + s, end_ + s) := by
  have hfields : ∀ a ∈ (headerFields (fn.cut h.toList)).map String.mk,
      a ≠ "" ∧ '|' ∉ a.toList := by
    intro a ha
    simp only [List.mem_map] at ha
    obtain ⟨field, hfield, rfl⟩ := ha
    refine ⟨?_, split_no_bar _ field hfield⟩
    intro hcon
    exact hfull field hfield (congrArg String.data hcon)
  have hdigits : toString s ≠ "" := by
    obtain ⟨m, rfl⟩ := Int.eq_ofNat_of_zero_le hs0
    intro hcon
    have hdata : Nat.toDigits 10 m = [] := congrArg String.data hcon
    unfold Nat.toDigits at hdata
    simp only [Nat.toDigitsCore] at hdata
    split_ifs at hdata with h0
    exact toDigitsCore_ne_nil _ _ _ (by simp) hdata
  refine (roundtrip_of_fields fastaDecodeHeader fastaEncodeHeader sscanf_i h s start end_
    (hencode _ (fun a ha => (hfields a ha).2)) (hdecode _ (by simp) ?_)
    (hscan s hs0 hs32)).2.2
  intro a ha
  simp only [List.mem_append, List.mem_singleton] at ha
  rcases ha with ha | rfl
  · exact hfields a ha
  · exact ⟨hdigits, toString_no_bar s hs0⟩

/-! ## Writing the sequences of a flower -/

theorem visit_ok (getString : Sequence → Int → Int → Bool → String)
    (nameToString : Name → String) (minimum : Int) (cap : Cap) (result : Option SequenceCall)
    (h : writeFlowerSequences.visit getString nameToString minimum cap = Except.ok result) :
    result = expectedCall getString nameToString minimum cap ∧
      result.isSome = capEmits minimum cap ∧
      (capEmits minimum cap = true →
        ∃ cap2, cap_getAdjacency (positiveCap cap) = some cap2 ∧ cap2.side = true) := by
  unfold writeFlowerSequences.visit at h
  simp only at h
  cases hadj : cap_getAdjacency (positiveCap cap) with
  | none => simp [hadj] at h
  | some cap2 =>
    simp only [hadj] at h
    cases hstrand : cap2.strand with
    | false => simp [hstrand, assert, bind, Except.bind] at h
    | true =>
      cases hside : cap_getSide (positiveCap cap) with
      | true =>
        simp only [hstrand, hside, assert, bind, Except.bind, Bool.not_true,
          Bool.false_eq_true, if_false, if_true, Except.ok.injEq] at h
        subst h
        simp [expectedCall, capEmits, hside]
      | false =>
        cases hside2 : cap2.side with
        | false => simp [hstrand, hside, hside2, assert, bind, Except.bind] at h
        | true =>
          by_cases hgap : cap2.coordinate - cap_getCoordinate (positiveCap cap) - 1 ≥ 0
          · by_cases hmin : cap2.coordinate - cap_getCoordinate (positiveCap cap) - 1 ≥ minimum
            · cases hseq : cap_getSequence (positiveCap cap) with
              | none =>
                simp [hstrand, hside, hside2, hgap, hmin, hseq, assert, bind, Except.bind] at h
              | some sequence =>
                simp only [hstrand, hside, hside2, hgap, hmin, hseq, assert, bind, Except.bind,
                  Bool.not_false, if_true, decide_True, Except.ok.injEq] at h
                subst h
                simp [expectedCall, capEmits, capGap, hadj, hside, hmin, hseq, hside2]
            · simp only [hstrand, hside, hside2, hgap, hmin, assert, bind, Except.bind,
                Bool.not_false, if_true, if_false, decide_True, Except.ok.injEq] at h
              subst h
              simp [expectedCall, capEmits, capGap, hadj, hside, hmin, hside2]
          · simp [hstrand, hside, hside2, hgap, assert, bind, Except.bind] at h

theorem capLoop_ok (getString : Sequence → Int → Int → Bool → String)
    (nameToString : Name → String) (minimum : Int) :
    ∀ (caps : List Cap) (state result : Int × List SequenceCall),
      writeFlowerSequences.capLoop getString nameToString minimum caps state =
        Except.ok result →
      result.1 = state.1 + ((caps.filter (capEmits minimum)).length : Int) ∧
      result.2 = state.2 ++ caps.filterMap (expectedCall getString nameToString minimum) ∧
      (caps.filterMap (expectedCall getString nameToString minimum)).length =
        (caps.filter (capEmits minimum)).length ∧
      ∀ cap ∈ caps, capEmits minimum cap = true →
        ∃ cap2, cap_getAdjacency (positiveCap cap) = some cap2 ∧ cap2.side = true := by
  intro caps
  induction caps with
  | nil =>
    intro state result h
    simp only [writeFlowerSequences.capLoop, Except.ok.injEq] at h
    subst h
    simp
  | cons cap rest ih =>
    intro state result h
    simp only [writeFlowerSequences.capLoop] at h
    cases hv : writeFlowerSequences.visit getString nameToString minimum cap with
    | error e => simp [hv, bind, Except.bind] at h
    | ok call =>
      obtain ⟨hcall, hsome, hside⟩ := visit_ok getString nameToString minimum cap call hv
      simp only [hv, bind, Except.bind] at h
      cases call with
      | none =>
        simp only at h
        obtain ⟨h1, h2, h3, h4⟩ := ih state result h
        have hem : capEmits minimum cap = false := by simpa using hsome.symm
        refine ⟨?_, ?_, ?_, ?_⟩
        · rw [h1]; simp [List.filter_cons, hem]
        · rw [h2]; simp [List.filterMap_cons, ← hcall]
        · simp [List.filterMap_cons, ← hcall, List.filter_cons, hem, h3]
        · intro c hc hemit
          simp only [List.mem_cons] at hc
          rcases hc with rfl | hc
          · rw [hem] at hemit; exact absurd hemit (by simp)
          · exact h4 c hc hemit
      | some call =>
        simp only at h
        obtain ⟨h1, h2, h3, h4⟩ := ih _ result h
        have hem : capEmits minimum cap = true := by simpa using hsome.symm
        refine ⟨?_, ?_, ?_, ?_⟩
        · rw [h1]; simp [List.filter_cons, hem]; omega
        · rw [h2]; simp [List.filterMap_cons, ← hcall]
        · simp [List.filterMap_cons, ← hcall, List.filter_cons, hem, h3]
        · intro c hc hemit
          simp only [List.mem_cons] at hc
          rcases hc with rfl | hc
          · exact hside hem
          · exact h4 c hc hemit

theorem endLoop_ok (getString : Sequence → Int → Int → Bool → String)
    (nameToString : Name → String) (minimum : Int) :
    ∀ (ends : List End) (state result : Int × List SequenceCall),
      writeFlowerSequences.endLoop getString nameToString minimum ends state =
        Except.ok result →
      result.1 = state.1 +
        (((ends.flatMap end_getInstanceIterator).filter (capEmits minimum)).length : Int) ∧
      result.2 = state.2 ++
        (ends.flatMap end_getInstanceIterator).filterMap
          (expectedCall getString nameToString minimum) ∧
      ((ends.flatMap end_getInstanceIterator).filterMap
          (expectedCall getString nameToString minimum)).length =
        ((ends.flatMap end_getInstanceIterator).filter (capEmits minimum)).length ∧
      ∀ cap ∈ ends.flatMap end_getInstanceIterator, capEmits minimum cap = true →
        ∃ cap2, cap_getAdjacency (positiveCap cap) = some cap2 ∧ cap2.side = true := by
  intro ends
  induction ends with
  | nil =>
    intro state result h
    simp only [writeFlowerSequences.endLoop, Except.ok.injEq] at h
    subst h
    simp
  | cons e rest ih =>
    intro state result h
    simp only [writeFlowerSequences.endLoop] at h
    cases hc : writeFlowerSequences.capLoop getString nameToString minimum
        (end_getInstanceIterator e) state with
    | error err => simp [hc, bind, Except.bind] at h
    | ok mid =>
      simp only [hc, bind, Except.bind] at h
      obtain ⟨a1, a2, a3, a4⟩ := capLoop_ok getString nameToString minimum _ state mid hc
      obtain ⟨b1, b2, b3, b4⟩ := ih mid result h
      refine ⟨?_, ?_, ?_, ?_⟩
      · rw [b1, a1]
        simp [List.flatMap_cons, List.filter_append]
        omega
      · rw [b2, a2]
        simp [List.flatMap_cons, List.filterMap_append]
      · simp [List.flatMap_cons, List.filterMap_append, List.filter_append, a3, b3]
      · intro cap hmem hemit
        simp only [List.flatMap_cons, List.mem_append] at hmem
        rcases hmem with hmem | hmem
        · exact a4 cap hmem hemit
        · exact b4 cap hmem hemit

/-- C18. When `writeFlowerSequences` returns, the value it returns is the number of
calls of `processSequence` it made, which is the number of caps of the flower
that, taken on the positive strand, have side false and a gap to their adjacent
cap of at least `minimumSequenceLength`; the calls are those of these caps, in
order, each with the string requested from the coordinate after the cap with
the length of the gap. When adjacent caps of the flower have opposite sides, a
cap that is emitted is adjacent to a cap that is not: no adjacency is emitted
from both of its caps. -/
theorem writeFlowerSequences_count (sequence_getString : Sequence → Int → Int → Bool → String)
    (cactusMisc_nameToStringStatic : Name → String) (F : Flower)
    (minimumSequenceLength : Int) (sequencesWritten : Int) (calls : List SequenceCall)
    (h : writeFlowerSequences sequence_getString cactusMisc_nameToStringStatic F
      minimumSequenceLength = Except.ok (sequencesWritten, calls))
    (hopposite : ∀ cap ∈ flowerCaps F, ∀ other ∈ flowerCaps F,
      (cap_getAdjacency (positiveCap cap)).map (fun cap2 => cap2.name) =
        some (cap_getName (positiveCap other)) →
      cap_getSide (positiveCap other) = !cap_getSide (positiveCap cap)) :
    sequencesWritten = calls.length ∧
    calls.length = ((flowerCaps F).filter (capEmits minimumSequenceLength)).length ∧
    calls = (flowerCaps F).filterMap
      (expectedCall sequence_getString cactusMisc_nameToStringStatic minimumSequenceLength) ∧
    (∀ cap ∈ flowerCaps F, capEmits minimumSequenceLength cap = true →
      ∃ cap2 gap, cap_getAdjacency (positiveCap cap) = some cap2 ∧
        gap = cap2.coordinate - cap_getCoordinate (positiveCap cap) - 1 ∧
        minimumSequenceLength ≤ gap ∧ cap_getSide (positiveCap cap) = false ∧
        cap2.side = true) ∧
    (∀ cap ∈ flowerCaps F, capEmits minimumSequenceLength cap = true →
      ∀ other ∈ flowerCaps F,
        (cap_getAdjacency (positiveCap cap)).map (fun cap2 => cap2.name) =
          some (cap_getName (positiveCap other)) →
        capEmits minimumSequenceLength other = false) := by
  unfold writeFlowerSequences at h
  obtain ⟨h1, h2, h3, h4⟩ := endLoop_ok sequence_getString cactusMisc_nameToStringStatic
    minimumSequenceLength (flower_getEndIterator F) (0, []) (sequencesWritten, calls) h
  simp only [zero_add, List.nil_append] at h1 h2
  have hcalls : calls.length = ((flowerCaps F).filter (capEmits minimumSequenceLength)).length := by
    rw [h2]
    exact h3
  refine ⟨?_, hcalls, h2, ?_, ?_⟩
  · rw [h1, hcalls]
    rfl
  · intro cap hmem hemit
    obtain ⟨cap2, hadj, hside2⟩ := h4 cap hmem hemit
    have hemit' := hemit
    simp only [capEmits, capGap, hadj, Option.map_some', Bool.and_eq_true, Bool.not_eq_true',
      decide_eq_true_eq] at hemit'
    exact ⟨cap2, _, hadj, rfl, hemit'.2, hemit'.1, hside2⟩
  · intro cap hmem hemit other hother hname
    have hside : cap_getSide (positiveCap cap) = false := by
      simp only [capEmits, Bool.and_eq_true, Bool.not_eq_true'] at hemit
      exact hemit.1
    have := hopposite cap hmem other hother hname
    rw [hside] at this
    simp [capEmits, this]

/-- C18 at `adjacencyFlower`: one call of `processSequence`, for the cap 100, with
the 10 bases from coordinate 10 on; the adjacency is not emitted again from the
cap 101. -/
theorem writeFlowerSequences_count_witness :
    writeFlowerSequences exampleGetString exampleNameToString adjacencyFlower 5 =
      Except.ok (1, [{ header := "100|10", string := "NNNNNNNNNN", length := 10 }]) ∧
    (1 : Int) = [({ header := "100|10", string := "NNNNNNNNNN", length := 10 } :
      SequenceCall)].length ∧
    [({ header := "100|10", string := "NNNNNNNNNN", length := 10 } : SequenceCall)].length =
      ((flowerCaps adjacencyFlower).filter (capEmits 5)).length ∧
    [({ header := "100|10", string := "NNNNNNNNNN", length := 10 } : SequenceCall)] =
      (flowerCaps adjacencyFlower).filterMap
        (expectedCall exampleGetString exampleNameToString 5) ∧
    (∀ cap ∈ flowerCaps adjacencyFlower, capEmits 5 cap = true →
      ∃ cap2 gap, cap_getAdjacency (positiveCap cap) = some cap2 ∧
        gap = cap2.coordinate - cap_getCoordinate (positiveCap cap) - 1 ∧
        5 ≤ gap ∧ cap_getSide (positiveCap cap) = false ∧ cap2.side = true) ∧
    (∀ cap ∈ flowerCaps adjacencyFlower, capEmits 5 cap = true →
      ∀ other ∈ flowerCaps adjacencyFlower,
        (cap_getAdjacency (positiveCap cap)).map (fun cap2 => cap2.name) =
          some (cap_getName (positiveCap other)) →
        capEmits 5 other = false) :=
  ⟨rfl, writeFlowerSequences_count exampleGetString exampleNameToString adjacencyFlower 5 1
    [{ header := "100|10", string := "NNNNNNNNNN", length := 10 }] rfl (by decide)⟩

/-! ## The defensive assertion inside `checkNets` -/

theorem seq_error {α : Type} (x : Except Fault Unit) (y : Except Fault α) (e : Fault)
    (h : (do x; y) = Except.error e) :
    x = Except.error e ∨ (x = Except.ok () ∧ y = Except.error e) := by
  cases x with
  | error e' =>
    left
    simpa [bind, Except.bind] using h
  | ok u => exact Or.inr ⟨rfl, h⟩

theorem assert_error (c : Bool) (fault e : Fault) (h : assert c fault = Except.error e) :
    e = fault := by
  cases c <;> simp [assert] at h
  exact h.symm

theorem notEmpty_fault (net : Flower) (e : Fault)
    (h : checkNetIsNotEmpty net = Except.error e) : e = Fault.nestedFlowerEmpty := by
  unfold checkNetIsNotEmpty at h
  cases hp : flower_getParentGroup net with
  | none => simp [hp] at h
  | some parent =>
    simp only [hp] at h
    exact assert_error _ _ _ h

theorem groupsNotEmpty_fault (groups : List Group) (e : Fault)
    (h : checkGroupsNotEmpty.loop groups = Except.error e) : e = Fault.groupEmpty := by
  induction groups with
  | nil => simp [checkGroupsNotEmpty.loop] at h
  | cons group rest ih =>
    simp only [checkGroupsNotEmpty.loop] at h
    rcases seq_error _ _ _ h with h1 | ⟨_, h2⟩
    · exact assert_error _ _ _ h1
    · exact ih h2

theorem groupLoop_fault (groups : List Group) (childBases : Int) (e : Fault)
    (h : checkBasesAccountedFor.groupLoop groups childBases = Except.error e) :
    e ≠ Fault.groupOfLeafFlowerNotLeaf := by
  induction groups generalizing childBases with
  | nil => simp [checkBasesAccountedFor.groupLoop] at h
  | cons group rest ih =>
    rw [groupLoop_step] at h
    cases hacc : groupAccounted group with
    | true =>
      simp only [hacc, if_true] at h
      exact ih _ h
    | false =>
      simp only [hacc, Bool.false_eq_true, if_false, Except.error.injEq] at h
      rw [← h]
      cases group_getNestedFlower group <;> simp only [] <;> split_ifs <;> decide

theorem basesAccountedFor_fault (net : Flower) (e : Fault)
    (h : checkBasesAccountedFor net = Except.error e) :
    e ≠ Fault.groupOfLeafFlowerNotLeaf := by
  unfold checkBasesAccountedFor at h
  cases hg : checkBasesAccountedFor.groupLoop (flower_getGroupIterator net) 0 with
  | error e' =>
    simp only [hg, bind, Except.bind, Except.error.injEq] at h
    rw [← h]
    exact groupLoop_fault _ _ _ hg
  | ok childBases =>
    simp only [hg, bind, Except.bind] at h
    rw [assert_error _ _ _ h]
    decide

theorem chainsAreMaximal_loop_fault (net : Flower) (ends : List End) (e : Fault)
    (h : checkChainsAreMaximal.loop net ends = Except.error e) :
    e ≠ Fault.groupOfLeafFlowerNotLeaf := by
  induction ends with
  | nil => simp [checkChainsAreMaximal.loop] at h
  | cons head rest ih =>
    simp only [checkChainsAreMaximal.loop] at h
    rcases seq_error _ _ _ h with h1 | ⟨_, h2⟩
    · rw [assert_error _ _ _ h1]; decide
    · split at h2
      · split at h2
        · rcases seq_error _ _ _ h2 with h5 | ⟨_, h6⟩
          · rw [assert_error _ _ _ h5]; decide
          · rcases seq_error _ _ _ h6 with h7 | ⟨_, h8⟩
            · rw [assert_error _ _ _ h7]; decide
            · exact ih h8
        · exact ih (by simpa [bind, Except.bind] using h2)
      · exact ih (by simpa [bind, Except.bind] using h2)

theorem chainsAreMaximal_fault (net : Flower) (e : Fault)
    (h : checkChainsAreMaximal net = Except.error e) :
    e ≠ Fault.groupOfLeafFlowerNotLeaf := by
  unfold checkChainsAreMaximal at h
  cases hp : flower_getParentGroup net with
  | none => simp [hp] at h
  | some parent =>
    simp only [hp] at h
    exact chainsAreMaximal_loop_fault _ _ _ h

theorem notRedundant_fault (net : Flower) (e : Fault)
    (h : checkNetIsNotRedundant net = Except.error e) :
    e ≠ Fault.groupOfLeafFlowerNotLeaf := by
  unfold checkNetIsNotRedundant at h
  rcases seq_error _ _ _ h with h1 | ⟨_, h2⟩
  · rw [assert_error _ _ _ h1]; decide
  · split at h2
    · rw [assert_error _ _ _ h2]; decide
    · simp at h2

theorem terminalNormalised_loop_ok (groups : List Group)
    (h : ∀ group ∈ groups, group_isLeaf group = true) :
    checkTreeIsTerminalNormalised.loop groups = Except.ok () := by
  induction groups with
  | nil => rfl
  | cons group rest ih =>
    simp only [checkTreeIsTerminalNormalised.loop, h group (List.mem_cons_self _ _), assert]
    exact ih (fun g hg => h g (List.mem_cons_of_mem _ hg))

theorem groups_leaf_of_accounted (net : Flower)
    (hbases : completes (checkBasesAccountedFor net) = true)
    (hleaf : flower_isLeaf net = true) :
    ∀ group ∈ flower_getGroupIterator net, group_isLeaf group = true := by
  intro group hmem
  have hacc := ((basesAccountedFor_iff net).mp hbases).1 group hmem
  have hnone : group_getNestedFlower group = none := by
    have := List.all_eq_true.mp hleaf group hmem
    simpa using this
  simp only [groupAccounted, hnone, Bool.and_eq_true] at hacc
  exact hacc.1

theorem terminalNormalised_fault (net : Flower)
    (hbases : completes (checkBasesAccountedFor net) = true) :
    checkTreeIsTerminalNormalised net ≠ Except.error Fault.groupOfLeafFlowerNotLeaf := by
  unfold checkTreeIsTerminalNormalised
  cases hleaf : flower_isLeaf net with
  | false => simp
  | true =>
    simp only [if_true,
      terminalNormalised_loop_ok _ (groups_leaf_of_accounted net hbases hleaf)]
    cases hb : flower_getBlockNumber net == 0 <;> cases ht : flower_isTerminal net <;>
      simp [assert, bind, Except.bind]

theorem checkNets_unfold (flower_check : Flower → Except Fault Unit) (net : Flower)
    (recursive : Int) :
    checkNets flower_check net recursive = (do
      flower_check net
      checkNetIsNotEmpty net
      checkGroupsNotEmpty net
      checkBasesAccountedFor net
      checkTreeIsTerminalNormalised net
      checkChainsAreMaximal net
      checkNetIsNotRedundant net
      if recursive ≠ 0 then
        checkNets.loop flower_check (flower_getGroupIterator net)
      else
        Except.ok ()) := by
  obtain ⟨data, ends, blocks, groups⟩ := net
  rfl

theorem checkNets_visit_eq (flower_check : Flower → Except Fault Unit) (group : Group) :
    checkNets.visit flower_check group =
      if group_isLeaf group then Except.ok ()
      else match group_getNestedFlower group with
        | some flower => checkNets flower_check flower 1
        | none => Except.error Fault.nullFlower := by
  obtain ⟨data, nested⟩ := group
  cases h : group_isLeaf (Group.mk data nested) <;> cases nested <;>
    simp [checkNets.visit, h, getNestedFlower_mk]

theorem checkNets_defensive (flower_check : Flower → Except Fault Unit)
    (hfc : ∀ G, flower_check G ≠ Except.error Fault.groupOfLeafFlowerNotLeaf) :
    ∀ F : Flower, ∀ recursive : Int,
      checkNets flower_check F recursive ≠ Except.error Fault.groupOfLeafFlowerNotLeaf := by
  apply Flower.nested_induction_flower
  intro F ih recursive h
  rw [checkNets_unfold] at h
  rcases seq_error _ _ _ h with h0 | ⟨_, h⟩
  · exact hfc F h0
  rcases seq_error _ _ _ h with h1 | ⟨_, h⟩
  · exact absurd (notEmpty_fault F _ h1) (by decide)
  rcases seq_error _ _ _ h with h2 | ⟨_, h⟩
  · exact absurd (groupsNotEmpty_fault _ _ h2) (by decide)
  rcases seq_error _ _ _ h with h3 | ⟨hb, h⟩
  · exact basesAccountedFor_fault F _ h3 rfl
  rcases seq_error _ _ _ h with h4 | ⟨_, h⟩
  · exact terminalNormalised_fault F (by rw [hb]; rfl) h4
  rcases seq_error _ _ _ h with h5 | ⟨_, h⟩
  · exact chainsAreMaximal_fault F _ h5 rfl
  rcases seq_error _ _ _ h with h6 | ⟨_, h⟩
  · exact notRedundant_fault F _ h6 rfl
  split at h
  · have hloop : ∀ groups : List Group,
        (∀ group ∈ groups, ∀ N, group_getNestedFlower group = some N →
          ∀ r : Int, checkNets flower_check N r ≠
            Except.error Fault.groupOfLeafFlowerNotLeaf) →
        checkNets.loop flower_check groups ≠
          Except.error Fault.groupOfLeafFlowerNotLeaf := by
      intro groups
      induction groups with
      | nil => intro _ hcon; simp [checkNets.loop] at hcon
      | cons group rest ihr =>
        intro hall hcon
        simp only [checkNets.loop] at hcon
        rcases seq_error _ _ _ hcon with hv | ⟨_, hrest⟩
        · rw [checkNets_visit_eq] at hv
          split at hv
          · simp at hv
          · split at hv
            · rename_i flower hn
              exact hall group (List.mem_cons_self _ _) flower hn 1 hv
            · simp at hv
        · exact ihr (fun g hg => hall g (List.mem_cons_of_mem _ hg)) hrest
    exact hloop _ ih h
  · simp at h

/-- C19. When `checkBasesAccountedFor` has completed on a flower and
`flower_isLeaf` is true, meaning that no group has a nested flower, every group
of the flower is a leaf group, so the loop of defensive assertions
`assert(group_isLeaf(group))` in `checkTreeIsTerminalNormalised` runs to its
end. Inside `checkNets`, where `checkBasesAccountedFor` runs first, no run
stops at that assertion, on the flower or on any nested flower, whatever the
recursive flag (for a `flower_check` that does not raise that fault itself). -/
theorem defensive_assertion_holds (F : Flower)
    (hbases : completes (checkBasesAccountedFor F) = true)
    (hleaf : flower_isLeaf F = true) :
    (∀ group ∈ flower_getGroupIterator F, group_isLeaf group = true) ∧
      checkTreeIsTerminalNormalised.loop (flower_getGroupIterator F) = Except.ok () ∧
      checkTreeIsTerminalNormalised F ≠ Except.error Fault.groupOfLeafFlowerNotLeaf ∧
      ∀ (flower_check : Flower → Except Fault Unit) (recursive : Int),
        (∀ G, flower_check G ≠ Except.error Fault.groupOfLeafFlowerNotLeaf) →
        checkNets flower_check F recursive ≠
          Except.error Fault.groupOfLeafFlowerNotLeaf :=
  ⟨groups_leaf_of_accounted F hbases hleaf,
    terminalNormalised_loop_ok _ (groups_leaf_of_accounted F hbases hleaf),
    terminalNormalised_fault F hbases,
    fun flower_check recursive hfc => checkNets_defensive flower_check hfc F recursive⟩

/-- C19 at `scenarioA`, a leaf flower on which `checkBasesAccountedFor` completes. -/
theorem defensive_assertion_holds_witness :
    completes (checkBasesAccountedFor scenarioA) = true ∧ flower_isLeaf scenarioA = true ∧
      (∀ group ∈ flower_getGroupIterator scenarioA, group_isLeaf group = true) ∧
      checkTreeIsTerminalNormalised.loop (flower_getGroupIterator scenarioA) = Except.ok () ∧
      checkTreeIsTerminalNormalised scenarioA ≠ Except.error Fault.groupOfLeafFlowerNotLeaf ∧
      ∀ (flower_check : Flower → Except Fault Unit) (recursive : Int),
        (∀ G, flower_check G ≠ Except.error Fault.groupOfLeafFlowerNotLeaf) →
        checkNets flower_check scenarioA recursive ≠
          Except.error Fault.groupOfLeafFlowerNotLeaf :=
  ⟨by decide, by decide, defensive_assertion_holds scenarioA (by decide) (by decide)⟩

end Cactus
